import Mathlib

/-!
Verification of the Sudoku-Solver repository core: the SAT encoding layer
(SudokuEncoder.cpp), the verifier (SudokuSolver.cpp), the parser/serializer
(SudokuParser.cpp, SudokuGenerator::toCustomFormat) and the generator
(SudokuGenerator.cpp), shallowly embedded in Lean.

Machine integers of the C++ source (`int`) are modelled as `Int`; all values
occurring in the modelled executions are tiny, so no overflow modelling is
needed.  The external CDCL SAT solver (MiniSat) is out of scope of the
repository and is modelled as an oracle `Cnf → Option Assignment × Nat`
(model, elapsed milliseconds), constrained by soundness/completeness
hypotheses where a claim needs them.
-/

namespace Sudoku

/-- A literal: SAT variable index (MiniSat `Var` is an `int`, modelled as `Int`)
together with the polarity the assignment must give it.
`(v, true)` is the positive literal, `(v, false)` the negated one. -/
abbrev Lit := Int × Bool

abbrev Clause := List Lit

abbrev Cnf := List Clause

abbrev Assignment := Int → Bool

/-- `SudokuEncoder::getVar`: variable index `row * 81 + col * 9 + (value - 1)`. -/
def getVar (row col value : Int) : Int :=
  row * 81 + col * 9 + (value - 1)

/-- Negation of a literal (MiniSat `~`). -/
def negLit (l : Lit) : Lit := (l.1, !l.2)

/-- The list `MIN_VALUE..MAX_VALUE = 1..9` iterated by the encoder's value loops. -/
def valsList : List Int := (List.range 9).map (fun (i : Nat) => (i : Int) + 1)

/-- The list `lo, lo+1, …, hi` (empty if `lo > hi`), used for `for (v = lo; v <= hi; v++)`. -/
def intRange (lo hi : Int) : List Int :=
  (List.range (hi + 1 - lo).toNat).map (fun (i : Nat) => lo + (i : Int))

/-- `Cell` from SudokuTypes.h. -/
structure Cell where
  row : Int
  col : Int
deriving DecidableEq

/-- `Cell::isValid`. -/
def Cell.isValid (c : Cell) : Bool :=
  0 ≤ c.row && c.row < 9 && 0 ≤ c.col && c.col < 9

/-- `Cage` from SudokuTypes.h. -/
structure Cage where
  cells : List Cell
  targetSum : Int
deriving DecidableEq

/-- `Cage::isValid`: nonempty, `targetSum ≥ 1`, and
`n(n+1)/2 ≤ targetSum ≤ n(19−n)/2` for `n` the cell count. -/
def Cage.isValid (cage : Cage) : Bool :=
  if cage.cells.isEmpty || cage.targetSum < 1 then false
  else
    let n : Int := cage.cells.length
    let minSum := n * (n + 1) / 2
    let maxSum := n * (19 - n) / 2
    minSum ≤ cage.targetSum && cage.targetSum ≤ maxSum

/-- `InequalityType` from SudokuTypes.h. -/
inductive InequalityType where
  | GREATER_THAN
  | LESS_THAN
deriving DecidableEq

/-- `InequalityConstraint` from SudokuTypes.h. -/
structure InequalityConstraint where
  cell1 : Cell
  cell2 : Cell
  type : InequalityType
deriving DecidableEq

/-- `InequalityConstraint::isValid`. -/
def InequalityConstraint.isValid (iq : InequalityConstraint) : Bool :=
  iq.cell1.isValid && iq.cell2.isValid && !(iq.cell1 == iq.cell2)

/-- `SudokuType` from SudokuTypes.h. -/
inductive SudokuType where
  | STANDARD
  | KILLER
  | INEQUALITY
  | KILLER_INEQUALITY
deriving DecidableEq

/-- The 9×9 value grid (`int grid[9][9]`), row-major. -/
abbrev Grid := List (List Int)

/-- In-range read `grid[r][c]` (all modelled reads are in range). -/
def Grid.get (g : Grid) (r c : Nat) : Int :=
  (g.getD r []).getD c 0

/-- Write `grid[r][c] = v` (no-op out of range, mirroring the guarded setters). -/
def Grid.set (g : Grid) (r c : Nat) (v : Int) : Grid :=
  g.modify (fun rowList => rowList.set c v) r

/-- The all-`EMPTY_CELL` grid a `SudokuPuzzle`/`SudokuSolution` starts with. -/
def emptyGrid : Grid := List.replicate 9 (List.replicate 9 (0 : Int))

/-- `SudokuPuzzle` from SudokuTypes.h. -/
structure SudokuPuzzle where
  grid : Grid := emptyGrid
  type : SudokuType := .STANDARD
  cages : List Cage := []
  inequalities : List InequalityConstraint := []
deriving DecidableEq

/-- `SudokuPuzzle::setCell` (bounds-guarded write). -/
def SudokuPuzzle.setCell (p : SudokuPuzzle) (row col value : Int) : SudokuPuzzle :=
  if 0 ≤ row && row < 9 && 0 ≤ col && col < 9 then
    { p with grid := p.grid.set row.toNat col.toNat value }
  else p

/-- `SudokuPuzzle::addCage` with its type transition. -/
def SudokuPuzzle.addCage (p : SudokuPuzzle) (cage : Cage) : SudokuPuzzle :=
  { p with
    cages := p.cages ++ [cage]
    type := match p.type with
      | .STANDARD => .KILLER
      | .INEQUALITY => .KILLER_INEQUALITY
      | t => t }

/-- `SudokuPuzzle::addInequality` with its type transition. -/
def SudokuPuzzle.addInequality (p : SudokuPuzzle) (iq : InequalityConstraint) : SudokuPuzzle :=
  { p with
    inequalities := p.inequalities ++ [iq]
    type := match p.type with
      | .STANDARD => .INEQUALITY
      | .KILLER => .KILLER_INEQUALITY
      | t => t }

/-- `SudokuPuzzle::hasKillerConstraints`. -/
def SudokuPuzzle.hasKillerConstraints (p : SudokuPuzzle) : Bool := !p.cages.isEmpty

/-- `SudokuPuzzle::hasInequalityConstraints`. -/
def SudokuPuzzle.hasInequalityConstraints (p : SudokuPuzzle) : Bool := !p.inequalities.isEmpty

/-- `SudokuSolution` from SudokuTypes.h (`solveTimeMs` is modelled in abstract
milliseconds reported by the solver oracle). -/
structure SudokuSolution where
  grid : Grid := emptyGrid
  solved : Bool := false
  errorMessage : String := ""
  solveTimeMs : Nat := 0
  isUnique : Bool := false
deriving DecidableEq

/-! ## Clause builders (SudokuEncoder.cpp) -/

/-- `SudokuEncoder::addAtMostOne`: pairwise encoding, `(¬lᵢ ∨ ¬lⱼ)` for `i < j`. -/
def atMostOne : List Lit → Cnf
  | [] => []
  | l :: rest => rest.map (fun l2 => [negLit l, negLit l2]) ++ atMostOne rest

/-- `SudokuEncoder::addExactlyOne`: the at-least-one clause then the pairwise at-most-one. -/
def exactlyOne (lits : List Lit) : Cnf :=
  lits :: atMostOne lits

/-- `SudokuEncoder::encodeCellConstraints`. -/
def cellClauses : Cnf :=
  (List.range 9).flatMap fun (r : Nat) =>
    (List.range 9).flatMap fun (c : Nat) =>
      exactlyOne (valsList.map fun v => (getVar r c v, true))

/-- `SudokuEncoder::encodeRowConstraints`. -/
def rowClauses : Cnf :=
  (List.range 9).flatMap fun (r : Nat) =>
    valsList.flatMap fun v =>
      exactlyOne ((List.range 9).map fun (c : Nat) => (getVar r c v, true))

/-- `SudokuEncoder::encodeColumnConstraints`. -/
def colClauses : Cnf :=
  (List.range 9).flatMap fun (c : Nat) =>
    valsList.flatMap fun v =>
      exactlyOne ((List.range 9).map fun (r : Nat) => (getVar r c v, true))

/-- `SudokuEncoder::encodeBoxConstraints`. -/
def boxClauses : Cnf :=
  (List.range 3).flatMap fun boxRow =>
    (List.range 3).flatMap fun boxCol =>
      valsList.flatMap fun v =>
        exactlyOne ((List.range 3).flatMap fun (r : Nat) =>
          (List.range 3).map fun (c : Nat) =>
            (getVar (boxRow * 3 + r) (boxCol * 3 + c) v, true))

/-- `SudokuEncoder::encodeGivenValues`: a unit clause per given in `[1,9]`. -/
def givenClauses (p : SudokuPuzzle) : Cnf :=
  (List.range 9).flatMap fun (r : Nat) =>
    (List.range 9).flatMap fun (c : Nat) =>
      let val := p.grid.get r c
      if 1 ≤ val && val ≤ 9 then [[(getVar r c val, true)]] else []

/-! ## Cage sum combinations -/

/-- `SudokuEncoder::generateSumCombinationsHelper`.  The C++ `break` on
`v > targetSum` is modelled as skipping: every later `v` in the ascending
range also exceeds `targetSum`, so the produced list is identical. -/
def generateSumCombinationsHelper (numCells : Nat) (targetSum minVal : Int) :
    List (List Int) :=
  match numCells with
  | 0 => if targetSum = 0 then [[]] else []
  | n + 1 =>
    (intRange minVal 9).flatMap fun v =>
      if targetSum < v then []
      else
        let minRemainingSum := (List.range n).foldl (fun acc (i : Nat) => acc + (v + 1 + (i : Int))) 0
        if targetSum - v < minRemainingSum then []
        else
          let maxRemainingSum := (List.range n).foldl (fun acc (i : Nat) => acc + (9 - (i : Int))) 0
          if maxRemainingSum < targetSum - v then []
          else (generateSumCombinationsHelper n (targetSum - v) (v + 1)).map (v :: ·)

/-- `SudokuEncoder::generateSumCombinations`. -/
def generateSumCombinations (numCells : Nat) (targetSum : Int) : List (List Int) :=
  generateSumCombinationsHelper numCells targetSum 1

/-! ## Cage encoding (combination version, src/SudokuEncoder.cpp) -/

/-- `SudokuEncoder::encodeCageSum` (the optimized combination encoding).
`next` is the index of the next fresh auxiliary variable; the returned `Int`
is the updated index. -/
def encodeCageSum (cage : Cage) (next : Int) : Cnf × Int :=
  match generateSumCombinations cage.cells.length cage.targetSum with
  | [] => ([([] : Clause)], next)
  | [combo] =>
    let atLeast : Cnf :=
      combo.map fun val => cage.cells.map fun cell => (getVar cell.row cell.col val, true)
    let forbid : Cnf :=
      valsList.flatMap fun val =>
        if combo.contains val then []
        else cage.cells.map fun cell => [(getVar cell.row cell.col val, false)]
    (atLeast ++ forbid, next)
  | combos =>
    let k := combos.length
    let comboVars : List Int := (List.range k).map fun (i : Nat) => next + (i : Int)
    let choice : Cnf := exactlyOne (comboVars.map fun v => (v, true))
    let perCombo : Cnf :=
      (combos.zip comboVars).flatMap fun pr =>
        (pr.1.map fun val =>
          (pr.2, false) :: cage.cells.map fun cell => (getVar cell.row cell.col val, true))
        ++ (valsList.flatMap fun val =>
          if pr.1.contains val then []
          else cage.cells.map fun cell =>
            [(pr.2, false), (getVar cell.row cell.col val, false)])
    let channeling : Cnf :=
      cage.cells.flatMap fun cell =>
        valsList.flatMap fun val =>
          let supporting : List Lit :=
            (combos.zip comboVars).filterMap fun pr =>
              if pr.1.contains val then some (pr.2, true) else none
          if supporting.isEmpty then [[(getVar cell.row cell.col val, false)]]
          else if supporting.length < k then
            [(getVar cell.row cell.col val, false) :: supporting]
          else []
    (choice ++ perCombo ++ channeling, next + (k : Int))

/-- `SudokuEncoder::encodeCageUniqueness`: per value, at-most-one cell of the cage holds it. -/
def encodeCageUniqueness (cage : Cage) : Cnf :=
  valsList.flatMap fun val =>
    atMostOne (cage.cells.map fun cell => (getVar cell.row cell.col val, true))

/-- `SudokuEncoder::encodeCageConstraints`: iterating the cage list in order,
a valid cage contributes its sum clauses then its uniqueness clauses (with the
auxiliary-variable counter threaded through); an invalid cage is skipped. -/
def encodeCageConstraints (cages : List Cage) (next : Int) : Cnf × Int :=
  match cages with
  | [] => ([], next)
  | cage :: rest =>
    if cage.isValid then
      let res := encodeCageSum cage next
      let restRes := encodeCageConstraints rest res.2
      (res.1 ++ encodeCageUniqueness cage ++ restRes.1, restRes.2)
    else encodeCageConstraints rest next

/-! ## Inequality encoding -/

/-- `SudokuEncoder::encodeInequality`: pairwise forbidden value tuples. -/
def encodeInequality (iq : InequalityConstraint) : Cnf :=
  match iq.type with
  | .GREATER_THAN =>
    valsList.flatMap fun v1 =>
      (intRange v1 9).map fun v2 =>
        [(getVar iq.cell1.row iq.cell1.col v1, false), (getVar iq.cell2.row iq.cell2.col v2, false)]
  | .LESS_THAN =>
    valsList.flatMap fun v1 =>
      (intRange 1 v1).map fun v2 =>
        [(getVar iq.cell1.row iq.cell1.col v1, false), (getVar iq.cell2.row iq.cell2.col v2, false)]

/-- `SudokuEncoder::encodeInequalityConstraints`: valid inequalities are encoded,
invalid ones skipped. -/
def encodeInequalityConstraints (ineqs : List InequalityConstraint) : Cnf :=
  ineqs.flatMap fun iq => if iq.isValid then encodeInequality iq else []

/-- The CNF built by `SudokuEncoder::solve` before invoking the SAT solver,
together with the final variable count (729 primary variables plus cage
auxiliaries).  Clause order follows the encoder's emission order. -/
def encodePuzzle (p : SudokuPuzzle) : Cnf × Int :=
  let base := cellClauses ++ rowClauses ++ colClauses ++ boxClauses ++ givenClauses p
  let cageRes := if p.hasKillerConstraints then encodeCageConstraints p.cages 729 else ([], 729)
  let ineqCls := if p.hasInequalityConstraints then encodeInequalityConstraints p.inequalities else []
  (base ++ cageRes.1 ++ ineqCls, cageRes.2)

/-! ## Satisfaction, decoding, solving -/

/-- A literal is satisfied when the assignment matches its polarity. -/
def litSat (A : Assignment) (l : Lit) : Bool := A l.1 == l.2

/-- A clause is satisfied when some literal is. -/
def clauseSat (A : Assignment) (c : Clause) : Bool := c.any (litSat A)

/-- A CNF is satisfied when every clause is. -/
def cnfSat (A : Assignment) (f : Cnf) : Bool := f.all (clauseSat A)

/-- Model extraction for one cell: the first value `1..9` whose variable is
true (`SudokuEncoder::solve`'s inner loop with `break`); `0` if none is. -/
def decodeCell (A : Assignment) (r c : Nat) : Int :=
  (valsList.find? fun v => A (getVar r c v)).getD 0

/-- The decoded 9×9 solution grid. -/
def decodeGrid (A : Assignment) : Grid :=
  (List.range 9).map fun (r : Nat) => (List.range 9).map fun (c : Nat) => decodeCell A r c

/-- The blocking clause added for the uniqueness check: per cell, the negation
of the decoded value's variable. -/
def blockingClause (g : Grid) : Clause :=
  (List.range 9).flatMap fun (r : Nat) =>
    (List.range 9).map fun (c : Nat) => (getVar r c (g.get r c), false)

/-- The SAT solver interface (MiniSat is external to the repository): a call
returns an optional model and the elapsed wall milliseconds of the invocation. -/
abbrev SatSolver := Cnf → Option Assignment × Nat

/-- `SudokuEncoder::solve(puzzle, checkUniqueness)`, with MiniSat abstracted
as the oracle `sat`.  The uniqueness re-solve runs on the same formula plus
the blocking clause (the C++ reuses the solver in place and appends it); the
reported time is the sum of both invocations' times. -/
def solveWith (sat : SatSolver) (p : SudokuPuzzle) (checkUniqueness : Bool) :
    SudokuSolution :=
  let f := (encodePuzzle p).1
  match sat f with
  | (none, t) =>
    { solved := false, errorMessage := "No solution exists for the given puzzle.",
      solveTimeMs := t }
  | (some A, t1) =>
    let g := decodeGrid A
    if checkUniqueness then
      let second := sat (f ++ [blockingClause g])
      { grid := g, solved := true, solveTimeMs := t1 + second.2,
        isUnique := second.1.isNone }
    else
      { grid := g, solved := true, solveTimeMs := t1 }

/-! ## The verifier (SudokuSolver.cpp) -/

namespace SudokuSolver

/-- Duplicate detection with an accumulating `seen` set, as in the verifier loops. -/
def allDistinct : List Int → Bool
  | [] => true
  | v :: rest => !rest.contains v && allDistinct rest

/-- `SudokuSolver::verifyBasicConstraints`: value ranges, then rows, columns
and boxes free of duplicates. -/
def verifyBasicConstraints (g : Grid) : Bool :=
  ((List.range 9).all fun r => (List.range 9).all fun c =>
    1 ≤ g.get r c && g.get r c ≤ 9)
  && ((List.range 9).all fun r =>
    allDistinct ((List.range 9).map fun c => g.get r c))
  && ((List.range 9).all fun c =>
    allDistinct ((List.range 9).map fun r => g.get r c))
  && ((List.range 3).all fun boxRow => (List.range 3).all fun boxCol =>
    allDistinct ((List.range 3).flatMap fun r =>
      (List.range 3).map fun c => g.get (boxRow * 3 + r) (boxCol * 3 + c)))

/-- `SudokuSolver::verifyGivenValues`. -/
def verifyGivenValues (p : SudokuPuzzle) (g : Grid) : Bool :=
  (List.range 9).all fun r => (List.range 9).all fun c =>
    let given := p.grid.get r c
    !(1 ≤ given && given ≤ 9) || g.get r c == given

/-- `SudokuSolver::verifyCageConstraints`: distinct values summing to the target. -/
def verifyCageConstraints (p : SudokuPuzzle) (g : Grid) : Bool :=
  p.cages.all fun cage =>
    let vals := cage.cells.map fun cell => g.get cell.row.toNat cell.col.toNat
    allDistinct vals && vals.sum == cage.targetSum

/-- `SudokuSolver::verifyInequalityConstraints`. -/
def verifyInequalityConstraints (p : SudokuPuzzle) (g : Grid) : Bool :=
  p.inequalities.all fun iq =>
    let val1 := g.get iq.cell1.row.toNat iq.cell1.col.toNat
    let val2 := g.get iq.cell2.row.toNat iq.cell2.col.toNat
    match iq.type with
    | .GREATER_THAN => val2 < val1
    | .LESS_THAN => val1 < val2

/-- `SudokuSolver::verifySolution`: the verifier's acceptance test. -/
def verifySolution (p : SudokuPuzzle) (sol : SudokuSolution) : Bool :=
  sol.solved
  && verifyBasicConstraints sol.grid
  && verifyGivenValues p sol.grid
  && (!p.hasKillerConstraints || verifyCageConstraints p sol.grid)
  && (!p.hasInequalityConstraints || verifyInequalityConstraints p sol.grid)

end SudokuSolver

/-! ## Basic facts about satisfaction and the clause builders -/

theorem litSat_negLit (A : Assignment) (l : Lit) : litSat A (negLit l) = !(litSat A l) := by
  rcases l with ⟨v, b⟩
  cases b <;> cases h : A v <;> simp [litSat, negLit, h]

theorem clauseSat_iff {A : Assignment} {c : Clause} :
    clauseSat A c = true ↔ ∃ l ∈ c, litSat A l = true := List.any_eq_true

theorem cnfSat_iff {A : Assignment} {f : Cnf} :
    cnfSat A f = true ↔ ∀ c ∈ f, clauseSat A c = true := List.all_eq_true

theorem cnfSat_append {A : Assignment} {f g : Cnf} :
    cnfSat A (f ++ g) = (cnfSat A f && cnfSat A g) := List.all_append

theorem cnfSat_of_sub {A : Assignment} {f g : Cnf} (hsub : g ⊆ f)
    (h : cnfSat A f = true) : cnfSat A g = true := by
  rw [cnfSat_iff] at h ⊢
  exact fun c hc => h c (hsub hc)

theorem atMostOne_sat_iff {A : Assignment} {lits : List Lit} :
    cnfSat A (atMostOne lits) = true ↔
      lits.Pairwise (fun a b => ¬(litSat A a = true ∧ litSat A b = true)) := by
  induction lits with
  | nil => simp [atMostOne, cnfSat]
  | cons l rest ih =>
    rw [atMostOne, cnfSat_append]
    simp only [Bool.and_eq_true, List.pairwise_cons, ih, cnfSat_iff]
    constructor
    · rintro ⟨h1, h2⟩
      refine ⟨fun b hb ⟨hl, hbsat⟩ => ?_, h2⟩
      have := h1 [negLit l, negLit b] (List.mem_map.2 ⟨b, hb, rfl⟩)
      rw [clauseSat_iff] at this
      rcases this with ⟨x, hx, hxsat⟩
      simp only [List.mem_cons, List.not_mem_nil, or_false] at hx
      rcases hx with rfl | rfl
      · rw [litSat_negLit, hl] at hxsat; simp at hxsat
      · rw [litSat_negLit, hbsat] at hxsat; simp at hxsat
    · rintro ⟨h1, h2⟩
      refine ⟨fun c hc => ?_, h2⟩
      rcases List.mem_map.1 hc with ⟨b, hb, rfl⟩
      rw [clauseSat_iff]
      by_cases hl : litSat A l = true
      · by_cases hbs : litSat A b = true
        · exact absurd ⟨hl, hbs⟩ (h1 b hb)
        · exact ⟨negLit b, by simp, by rw [litSat_negLit]; simp [hbs]⟩
      · exact ⟨negLit l, by simp, by rw [litSat_negLit]; simp [hl]⟩

theorem exactlyOne_sat_iff {A : Assignment} {lits : List Lit} :
    cnfSat A (exactlyOne lits) = true ↔
      (∃ l ∈ lits, litSat A l = true) ∧
      lits.Pairwise (fun a b => ¬(litSat A a = true ∧ litSat A b = true)) := by
  rw [exactlyOne]
  show cnfSat A ([lits] ++ atMostOne lits) = true ↔ _
  rw [cnfSat_append, Bool.and_eq_true, atMostOne_sat_iff]
  simp [cnfSat, clauseSat_iff]

/-! ## Value ranges -/

theorem mem_intRange {lo hi v : Int} : v ∈ intRange lo hi ↔ lo ≤ v ∧ v ≤ hi := by
  simp only [intRange, List.mem_map, List.mem_range]
  constructor
  · rintro ⟨i, hi', rfl⟩
    omega
  · rintro ⟨h1, h2⟩
    exact ⟨(v - lo).toNat, by omega, by omega⟩

theorem mem_valsList {v : Int} : v ∈ valsList ↔ 1 ≤ v ∧ v ≤ 9 := by
  simp only [valsList, List.mem_map, List.mem_range]
  constructor
  · rintro ⟨i, hi', rfl⟩
    omega
  · rintro ⟨h1, h2⟩
    exact ⟨(v - 1).toNat, by omega, by omega⟩

theorem valsList_nodup : valsList.Nodup := by decide

/-- Injectivity of the variable map on the primary block. -/
theorem getVar_inj {r c v r' c' v' : Int}
    (hr : 0 ≤ r) (hr9 : r < 9) (hc : 0 ≤ c) (hc9 : c < 9) (hv : 1 ≤ v) (hv9 : v ≤ 9)
    (hr' : 0 ≤ r') (hr9' : r' < 9) (hc' : 0 ≤ c') (hc9' : c' < 9) (hv' : 1 ≤ v') (hv9' : v' ≤ 9)
    (h : getVar r c v = getVar r' c' v') : r = r' ∧ c = c' ∧ v = v' := by
  unfold getVar at h
  omega

theorem getVar_lt_729 {r c v : Int}
    (hr : 0 ≤ r) (hr9 : r < 9) (hc : 0 ≤ c) (hc9 : c < 9) (hv : 1 ≤ v) (hv9 : v ≤ 9) :
    0 ≤ getVar r c v ∧ getVar r c v < 729 := by
  unfold getVar
  omega

/-! ## Extracting the basic blocks from the encoding -/

/-- The cell block of `(r, c)`. -/
def cellBlock (r c : Nat) : Cnf :=
  exactlyOne (valsList.map fun v => (getVar r c v, true))

theorem cellBlock_sub {r c : Nat} (hr : r < 9) (hc : c < 9) :
    cellBlock r c ⊆ cellClauses := by
  intro x hx
  simp only [cellClauses, List.mem_flatMap, List.mem_range]
  exact ⟨r, hr, c, hc, hx⟩

/-- The row block of `(r, v)`. -/
def rowBlock (r : Nat) (v : Int) : Cnf :=
  exactlyOne ((List.range 9).map fun (c : Nat) => (getVar r c v, true))

theorem rowBlock_sub {r : Nat} {v : Int} (hr : r < 9) (hv : v ∈ valsList) :
    rowBlock r v ⊆ rowClauses := by
  intro x hx
  simp only [rowClauses, List.mem_flatMap, List.mem_range]
  exact ⟨r, hr, v, hv, hx⟩

/-- The column block of `(c, v)`. -/
def colBlock (c : Nat) (v : Int) : Cnf :=
  exactlyOne ((List.range 9).map fun (r : Nat) => (getVar r c v, true))

theorem colBlock_sub {c : Nat} {v : Int} (hc : c < 9) (hv : v ∈ valsList) :
    colBlock c v ⊆ colClauses := by
  intro x hx
  simp only [colClauses, List.mem_flatMap, List.mem_range]
  exact ⟨c, hc, v, hv, hx⟩

/-- The box block of `(boxRow, boxCol, v)`. -/
def boxBlock (boxRow boxCol : Nat) (v : Int) : Cnf :=
  exactlyOne ((List.range 3).flatMap fun (r : Nat) =>
    (List.range 3).map fun (c : Nat) => (getVar (boxRow * 3 + r) (boxCol * 3 + c) v, true))

theorem boxBlock_sub {boxRow boxCol : Nat} {v : Int}
    (hbr : boxRow < 3) (hbc : boxCol < 3) (hv : v ∈ valsList) :
    boxBlock boxRow boxCol v ⊆ boxClauses := by
  intro x hx
  simp only [boxClauses, List.mem_flatMap, List.mem_range]
  exact ⟨boxRow, hbr, boxCol, hbc, v, hv, hx⟩

theorem givenClause_mem {p : SudokuPuzzle} {r c : Nat} (hr : r < 9) (hc : c < 9)
    (h1 : 1 ≤ p.grid.get r c) (h9 : p.grid.get r c ≤ 9) :
    [(getVar r c (p.grid.get r c), true)] ∈ givenClauses p := by
  simp only [givenClauses, List.mem_flatMap, List.mem_range]
  refine ⟨r, hr, c, hc, ?_⟩
  rw [if_pos (by simp [h1, h9])]
  simp

/-- A satisfying assignment satisfies every part of the encoding. -/
theorem encode_parts {A : Assignment} {p : SudokuPuzzle}
    (h : cnfSat A (encodePuzzle p).1 = true) :
    cnfSat A cellClauses = true ∧ cnfSat A rowClauses = true ∧
    cnfSat A colClauses = true ∧ cnfSat A boxClauses = true ∧
    cnfSat A (givenClauses p) = true ∧
    (p.cages ≠ [] → cnfSat A (encodeCageConstraints p.cages 729).1 = true) ∧
    (p.inequalities ≠ [] → cnfSat A (encodeInequalityConstraints p.inequalities) = true) := by
  have hsub : ∀ g : Cnf, g ⊆ (encodePuzzle p).1 → cnfSat A g = true :=
    fun g hg => cnfSat_of_sub hg h
  simp only [encodePuzzle] at hsub
  refine ⟨?_, ?_, ?_, ?_, ?_, ?_, ?_⟩
  · exact hsub _ (fun x hx => by simp [hx])
  · exact hsub _ (fun x hx => by simp [hx])
  · exact hsub _ (fun x hx => by simp [hx])
  · exact hsub _ (fun x hx => by simp [hx])
  · exact hsub _ (fun x hx => by simp [hx])
  · intro hne
    refine hsub _ (fun x hx => ?_)
    have : p.hasKillerConstraints = true := by
      simp [SudokuPuzzle.hasKillerConstraints, hne]
    simp [this, hx]
  · intro hne
    refine hsub _ (fun x hx => ?_)
    have : p.hasInequalityConstraints = true := by
      simp [SudokuPuzzle.hasInequalityConstraints, hne]
    simp [this, hx]

/-! ## Decoding lemmas -/

/-- What satisfying a cell block says, stated via `Pairwise.forall`. -/
theorem cellBlock_unique {A : Assignment} {r c : Nat}
    (h : cnfSat A (cellBlock r c) = true) {v w : Int}
    (hv : v ∈ valsList) (hw : w ∈ valsList) (hne : v ≠ w)
    (hAv : A (getVar r c v) = true) (hAw : A (getVar r c w) = true) : False := by
  rw [cellBlock, exactlyOne_sat_iff] at h
  have hpw := h.2
  rw [List.pairwise_map] at hpw
  have hsym : Symmetric (fun a b : Int =>
      ¬(litSat A (getVar r c a, true) = true ∧ litSat A (getVar r c b, true) = true)) := by
    intro a b hab ⟨h1, h2⟩
    exact hab ⟨h2, h1⟩
  exact hpw.forall hsym hv hw hne ⟨by simp [litSat, hAv], by simp [litSat, hAw]⟩

theorem decodeCell_spec {A : Assignment} {r c : Nat}
    (h : cnfSat A (cellBlock r c) = true) :
    decodeCell A r c ∈ valsList ∧ A (getVar r c (decodeCell A r c)) = true := by
  rw [cellBlock, exactlyOne_sat_iff] at h
  rcases h.1 with ⟨l, hl, hsat⟩
  rcases List.mem_map.1 hl with ⟨v, hv, rfl⟩
  have hAv : A (getVar r c v) = true := by simpa [litSat] using hsat
  have hfind : ∃ w, valsList.find? (fun w => A (getVar r c w)) = some w := by
    have : (valsList.find? (fun w => A (getVar r c w))).isSome := by
      rw [List.find?_isSome]
      exact ⟨v, hv, hAv⟩
    exact Option.isSome_iff_exists.1 this
  rcases hfind with ⟨w, hw⟩
  have hwmem := List.mem_of_find?_eq_some hw
  have hwsat := List.find?_some hw
  rw [decodeCell, hw]
  exact ⟨hwmem, by simpa using hwsat⟩

theorem decodeCell_eq {A : Assignment} {r c : Nat}
    (h : cnfSat A (cellBlock r c) = true) {v : Int}
    (hv : v ∈ valsList) (hAv : A (getVar r c v) = true) : decodeCell A r c = v := by
  rcases decodeCell_spec h with ⟨hmem, hAd⟩
  by_contra hne
  exact cellBlock_unique h hmem hv hne hAd hAv

theorem decodeGrid_get {A : Assignment} {r c : Nat} (hr : r < 9) (hc : c < 9) :
    (decodeGrid A).get r c = decodeCell A r c := by
  simp [decodeGrid, Grid.get, List.getD_eq_getElem?_getD, List.getElem?_map,
    List.getElem?_range, hr, hc]

/-! ## Characterization of the sum-combination enumeration -/

theorem foldl_add_eq (l : List Nat) (f : Nat → Int) (acc : Int) :
    l.foldl (fun a i => a + f i) acc = acc + (l.map f).sum := by
  induction l generalizing acc with
  | nil => simp
  | cons x xs ih => simp [ih, add_assoc]

theorem intRange_nodup (lo hi : Int) : (intRange lo hi).Nodup := by
  refine List.Nodup.map ?_ (List.nodup_range _)
  intro a b h
  have h2 : lo + (a : Int) = lo + (b : Int) := h
  omega

/-- In a strictly increasing list with elements at least `a`, the `i`-th element
is at least `a + i`; hence the sum dominates the arithmetic progression. -/
theorem sum_ge_arith {l : List Int} {a : Int}
    (hpw : l.Pairwise (· < ·)) (hlb : ∀ x ∈ l, a ≤ x) :
    ((List.range l.length).map fun (i : Nat) => a + (i : Int)).sum ≤ l.sum := by
  induction l generalizing a with
  | nil => simp
  | cons v rest ih =>
    rcases List.pairwise_cons.1 hpw with ⟨hv, hrest⟩
    have hstep : ((List.range rest.length).map fun (i : Nat) => (a + 1) + (i : Int)).sum ≤
        rest.sum := by
      refine ih hrest fun x hx => ?_
      have := hv x hx
      have := hlb v (by simp)
      omega
    have hself : a ≤ v := hlb v (by simp)
    have hfun : (fun (i : Nat) => a + (i : Int)) ∘ Nat.succ
        = fun (i : Nat) => (a + 1) + (i : Int) := by
      funext i
      simp only [Function.comp_apply, Nat.succ_eq_add_one]
      push_cast
      ring
    have hshift : ((List.range (rest.length + 1)).map fun (i : Nat) => a + (i : Int)).sum =
        a + ((List.range rest.length).map fun (i : Nat) => (a + 1) + (i : Int)).sum := by
      rw [List.range_succ_eq_map, List.map_cons, List.map_map, List.sum_cons, hfun]
      norm_num
    simp only [List.length_cons, List.sum_cons, hshift]
    omega

/-- In a strictly increasing list bounded by `b`, the head is at most
`b - (length - 1)`. -/
theorem head_le_of_sorted {v : Int} {rest : List Int} {b : Int}
    (hpw : (v :: rest).Pairwise (· < ·)) (hub : ∀ x ∈ v :: rest, x ≤ b) :
    v ≤ b - rest.length := by
  induction rest generalizing v with
  | nil => simpa using hub v (by simp)
  | cons w rest2 ih =>
    rcases List.pairwise_cons.1 hpw with ⟨hv, hrest⟩
    have hw : w ≤ b - rest2.length := by
      refine ih hrest fun x hx => hub x (List.mem_cons_of_mem v hx)
    have hvw : v < w := hv w (by simp)
    simp only [List.length_cons]
    push_cast
    omega

/-- In a strictly increasing list bounded above by `b`, the sum is dominated by
the descending progression `b, b-1, …`. -/
theorem sum_le_arith {l : List Int} {b : Int}
    (hpw : l.Pairwise (· < ·)) (hub : ∀ x ∈ l, x ≤ b) :
    l.sum ≤ ((List.range l.length).map fun (i : Nat) => b - (i : Int)).sum := by
  induction l with
  | nil => simp
  | cons v rest ih =>
    rcases List.pairwise_cons.1 hpw with ⟨hv, hrest⟩
    have hstep : rest.sum ≤ ((List.range rest.length).map fun (i : Nat) => b - (i : Int)).sum :=
      ih hrest (fun x hx => hub x (List.mem_cons_of_mem v hx))
    have hhead : v ≤ b - rest.length := head_le_of_sorted hpw hub
    have hfun : (fun (i : Nat) => b - (i : Int)) ∘ Nat.succ
        = fun (i : Nat) => (b - 1) - (i : Int) := by
      funext i
      simp only [Function.comp_apply, Nat.succ_eq_add_one]
      push_cast
      ring
    have hshift : ((List.range (rest.length + 1)).map fun (i : Nat) => b - (i : Int)).sum =
        b + ((List.range rest.length).map fun (i : Nat) => (b - 1) - (i : Int)).sum := by
      rw [List.range_succ_eq_map, List.map_cons, List.map_map, List.sum_cons, hfun]
      norm_num
    have hdesc : ((List.range rest.length).map fun (i : Nat) => (b - 1) - (i : Int)).sum =
        ((List.range rest.length).map fun (i : Nat) => b - (i : Int)).sum
          - rest.length := by
      induction rest.length with
      | zero => simp
      | succ k ihk =>
        rw [List.range_succ, List.map_append, List.map_append, List.sum_append, List.sum_append,
          ihk]
        push_cast
        simp only [List.map_cons, List.map_nil, List.sum_cons, List.sum_nil]
        ring
    simp only [List.length_cons, List.sum_cons, hshift]
    omega

/-- The full characterization of the helper: it enumerates exactly the strictly
increasing tuples over `[minVal, 9]` of the requested length and sum. -/
theorem mem_generateSumCombinationsHelper {n : Nat} {s m : Int} (hm : 1 ≤ m) {l : List Int} :
    l ∈ generateSumCombinationsHelper n s m ↔
      l.length = n ∧ l.sum = s ∧ l.Pairwise (· < ·) ∧ ∀ v ∈ l, m ≤ v ∧ v ≤ 9 := by
  induction n generalizing s m l with
  | zero =>
    simp only [generateSumCombinationsHelper]
    constructor
    · intro h
      split at h
      · next hs =>
        simp only [List.mem_singleton] at h
        subst h
        simp [hs]
      · simp at h
    · rintro ⟨hlen, hsum, -, -⟩
      rw [List.length_eq_zero] at hlen
      subst hlen
      simp only [List.sum_nil] at hsum
      subst hsum
      simp
  | succ n ih =>
    simp only [generateSumCombinationsHelper, List.mem_flatMap]
    constructor
    · rintro ⟨v, hv, hl⟩
      rcases mem_intRange.1 hv with ⟨hvm, hv9⟩
      split at hl
      · simp at hl
      · next hsv =>
        split at hl
        · simp at hl
        · split at hl
          · simp at hl
          · rcases List.mem_map.1 hl with ⟨rest, hrest, rfl⟩
            rcases (ih (by omega)).1 hrest with ⟨hlen, hsum, hpw, hbnd⟩
            refine ⟨by simp [hlen], by simp only [List.sum_cons, hsum]; omega, ?_, ?_⟩
            · refine List.pairwise_cons.2 ⟨fun x hx => ?_, hpw⟩
              have := (hbnd x hx).1
              omega
            · intro x hx
              rcases List.mem_cons.1 hx with rfl | hx
              · omega
              · have := hbnd x hx
                omega
    · rintro ⟨hlen, hsum, hpw, hbnd⟩
      rcases l with _ | ⟨v, rest⟩
      · simp at hlen
      · have hrestlen : rest.length = n := by simpa using hlen
        rcases List.pairwise_cons.1 hpw with ⟨hv, hrest⟩
        have hvm : m ≤ v := (hbnd v (by simp)).1
        have hv9 : v ≤ 9 := (hbnd v (by simp)).2
        have hrestlb : ∀ x ∈ rest, v + 1 ≤ x := fun x hx => by
          have := hv x hx; omega
        have hrestbnd : ∀ x ∈ rest, v + 1 ≤ x ∧ x ≤ 9 := fun x hx =>
          ⟨hrestlb x hx, (hbnd x (List.mem_cons_of_mem v hx)).2⟩
        have hsum' : rest.sum = s - v := by
          simp only [List.sum_cons] at hsum
          omega
        have hrestnonneg : 0 ≤ rest.sum := by
          refine List.sum_nonneg fun x hx => ?_
          have := hrestlb x hx
          omega
        refine ⟨v, mem_intRange.2 ⟨hvm, hv9⟩, ?_⟩
        rw [if_neg (by omega)]
        have hmin : ((List.range n).foldl (fun acc (i : Nat) => acc + (v + 1 + (i : Int))) 0)
            ≤ s - v := by
          rw [foldl_add_eq]
          have := sum_ge_arith hrest hrestlb
          rw [hrestlen] at this
          have harr : ((List.range n).map fun (i : Nat) => v + 1 + (i : Int)).sum =
              ((List.range n).map fun (i : Nat) => (v + 1) + (i : Int)).sum := rfl
          omega
        rw [if_neg (by omega)]
        have hmax : s - v ≤
            ((List.range n).foldl (fun acc (i : Nat) => acc + (9 - (i : Int))) 0) := by
          rw [foldl_add_eq]
          have := sum_le_arith hrest (fun x hx => (hrestbnd x hx).2)
          rw [hrestlen] at this
          omega
        rw [if_neg (by omega)]
        refine List.mem_map.2 ⟨rest, ?_, rfl⟩
        exact (ih (by omega)).2 ⟨hrestlen, hsum', hrest, hrestbnd⟩

/-- Every enumerated combination is listed exactly once. -/
theorem generateSumCombinationsHelper_nodup (n : Nat) (s m : Int) :
    (generateSumCombinationsHelper n s m).Nodup := by
  induction n generalizing s m with
  | zero =>
    simp only [generateSumCombinationsHelper]
    split <;> simp
  | succ n ih =>
    simp only [generateSumCombinationsHelper]
    rw [List.nodup_flatMap]
    constructor
    · intro v hv
      split
      · simp
      · split
        · simp
        · split
          · simp
          · exact (ih _ _).map (fun a b h => by simpa using h)
    · refine (intRange_nodup m 9).imp_of_mem ?_
      intro a b ha hb hne
      intro l hla hlb
      have hhead : ∀ (v : Int) (ll : List (List Int)), l ∈ (if s < v then []
          else if s - v < (List.range n).foldl (fun acc (i : Nat) => acc + (v + 1 + (i : Int))) 0 then []
          else if (List.range n).foldl (fun acc (i : Nat) => acc + (9 - (i : Int))) 0 < s - v then []
          else ll.map (v :: ·)) → l.head? = some v := by
        intro v ll h
        split at h
        · simp at h
        · split at h
          · simp at h
          · split at h
            · simp at h
            · rcases List.mem_map.1 h with ⟨rest, -, rfl⟩
              rfl
      have h1 := hhead a _ hla
      have h2 := hhead b _ hlb
      rw [h1] at h2
      exact hne (by simpa using h2)

theorem mem_generateSumCombinations {n : Nat} {s : Int} {l : List Int} :
    l ∈ generateSumCombinations n s ↔
      l.length = n ∧ l.sum = s ∧ l.Pairwise (· < ·) ∧ ∀ v ∈ l, 1 ≤ v ∧ v ≤ 9 :=
  mem_generateSumCombinationsHelper le_rfl

theorem generateSumCombinations_nodup (n : Nat) (s : Int) :
    (generateSumCombinations n s).Nodup :=
  generateSumCombinationsHelper_nodup n s 1

/-! ## Soundness helpers -/

theorem allDistinct_iff_nodup {l : List Int} :
    SudokuSolver.allDistinct l = true ↔ l.Nodup := by
  induction l with
  | nil => simp [SudokuSolver.allDistinct]
  | cons v rest ih =>
    simp [SudokuSolver.allDistinct, ih, List.nodup_cons]

/-- From a pairwise at-most-one block over `l.map (fun x => (f x, true))`, two
distinct elements of `l` cannot both have their variable true. -/
theorem not_both_of_atMostOne {A : Assignment} {α : Type} {l : List α} {f : α → Int}
    (h : cnfSat A (atMostOne (l.map fun x => (f x, true))) = true)
    {a b : α} (ha : a ∈ l) (hb : b ∈ l) (hne : a ≠ b)
    (hA : A (f a) = true) (hB : A (f b) = true) : False := by
  rw [atMostOne_sat_iff, List.pairwise_map] at h
  have hsym : Symmetric (fun x y : α =>
      ¬(litSat A (f x, true) = true ∧ litSat A (f y, true) = true)) :=
    fun x y hxy ⟨h1, h2⟩ => hxy ⟨h2, h1⟩
  exact h.forall hsym ha hb hne ⟨by simp [litSat, hA], by simp [litSat, hB]⟩

/-- Positional version: in an at-most-one block, two positions cannot both be true. -/
theorem not_both_of_atMostOne_get {A : Assignment} {α : Type} {l : List α} {f : α → Int}
    (h : cnfSat A (atMostOne (l.map fun x => (f x, true))) = true)
    {i j : Fin l.length} (hij : i < j)
    (hA : A (f (l.get i)) = true) (hB : A (f (l.get j)) = true) : False := by
  rw [atMostOne_sat_iff, List.pairwise_map, List.pairwise_iff_get] at h
  exact h i j hij ⟨by simpa [litSat, List.get_eq_getElem] using hA,
    by simpa [litSat, List.get_eq_getElem] using hB⟩

theorem atMostOne_sub_exactlyOne (lits : List Lit) : atMostOne lits ⊆ exactlyOne lits :=
  List.subset_cons_self _ _

/-- A duplicate-free list included in a duplicate-free list of the same length
is a permutation of it. -/
theorem perm_of_nodup_subset_length {l combo : List Int}
    (hnd : l.Nodup) (hsub : ∀ x ∈ l, x ∈ combo) (hcnd : combo.Nodup)
    (hlen : l.length = combo.length) : l.Perm combo :=
  (List.Nodup.subperm hnd hsub).perm_of_length_le (le_of_eq hlen.symm)

theorem cell_coord {cell : Cell} (h : cell.isValid = true) :
    ((cell.row.toNat : Int) = cell.row ∧ (cell.col.toNat : Int) = cell.col) ∧
    cell.row.toNat < 9 ∧ cell.col.toNat < 9 := by
  simp only [Cell.isValid, Bool.and_eq_true, decide_eq_true_eq] at h
  omega

theorem cellBlock_of_sat {A : Assignment} (hcell : cnfSat A cellClauses = true)
    {r c : Nat} (hr : r < 9) (hc : c < 9) : cnfSat A (cellBlock r c) = true :=
  cnfSat_of_sub (cellBlock_sub hr hc) hcell

/-- Decoded values of two distinct cells of a row differ. -/
theorem decode_row_ne {A : Assignment}
    (hcell : cnfSat A cellClauses = true) (hrow : cnfSat A rowClauses = true)
    {r c1 c2 : Nat} (hr : r < 9) (hc1 : c1 < 9) (hc2 : c2 < 9) (hne : c1 ≠ c2) :
    decodeCell A r c1 ≠ decodeCell A r c2 := by
  intro heq
  obtain ⟨hv1, hA1⟩ := decodeCell_spec (cellBlock_of_sat hcell hr hc1)
  obtain ⟨hv2, hA2⟩ := decodeCell_spec (cellBlock_of_sat hcell hr hc2)
  rw [← heq] at hA2
  have hblock : cnfSat A
      (atMostOne ((List.range 9).map fun c => (getVar r c (decodeCell A r c1), true))) = true :=
    cnfSat_of_sub (List.Subset.trans (atMostOne_sub_exactlyOne _) (rowBlock_sub hr hv1)) hrow
  exact not_both_of_atMostOne (f := fun c : Nat => getVar r c (decodeCell A r c1)) hblock
    (List.mem_range.2 hc1) (List.mem_range.2 hc2) hne hA1 hA2

/-- Decoded values of two distinct cells of a column differ. -/
theorem decode_col_ne {A : Assignment}
    (hcell : cnfSat A cellClauses = true) (hcol : cnfSat A colClauses = true)
    {c r1 r2 : Nat} (hc : c < 9) (hr1 : r1 < 9) (hr2 : r2 < 9) (hne : r1 ≠ r2) :
    decodeCell A r1 c ≠ decodeCell A r2 c := by
  intro heq
  obtain ⟨hv1, hA1⟩ := decodeCell_spec (cellBlock_of_sat hcell hr1 hc)
  obtain ⟨hv2, hA2⟩ := decodeCell_spec (cellBlock_of_sat hcell hr2 hc)
  rw [← heq] at hA2
  have hblock : cnfSat A
      (atMostOne ((List.range 9).map fun r => (getVar r c (decodeCell A r1 c), true))) = true :=
    cnfSat_of_sub (List.Subset.trans (atMostOne_sub_exactlyOne _) (colBlock_sub hc hv1)) hcol
  exact not_both_of_atMostOne (f := fun r : Nat => getVar r c (decodeCell A r1 c)) hblock
    (List.mem_range.2 hr1) (List.mem_range.2 hr2) hne hA1 hA2

/-- The nine positions of a box, in the encoder's iteration order. -/
def boxCells (boxRow boxCol : Nat) : List (Nat × Nat) :=
  (List.range 3).flatMap fun r => (List.range 3).map fun c =>
    (boxRow * 3 + r, boxCol * 3 + c)

theorem boxCells_nodup (boxRow boxCol : Nat) : (boxCells boxRow boxCol).Nodup := by
  rw [boxCells, List.nodup_flatMap]
  constructor
  · intro r hr
    refine List.Nodup.map_on ?_ (List.nodup_range 3)
    intro x hx y hy hxy
    simpa using congrArg Prod.snd hxy
  · refine List.Pairwise.imp ?_ (List.nodup_range 3)
    intro a b hne x hxa hxb
    rcases List.mem_map.1 hxa with ⟨c1, hc1, rfl⟩
    rcases List.mem_map.1 hxb with ⟨c2, hc2, heq⟩
    have hfst := congrArg Prod.fst heq
    simp only at hfst
    omega

theorem mem_boxCells {boxRow boxCol : Nat} {rc : Nat × Nat}
    (hbr : boxRow < 3) (hbc : boxCol < 3) (h : rc ∈ boxCells boxRow boxCol) :
    rc.1 < 9 ∧ rc.2 < 9 := by
  simp only [boxCells, List.mem_flatMap, List.mem_map, List.mem_range] at h
  rcases h with ⟨r, hr, c, hc, rfl⟩
  simp
  omega

theorem boxBlock_eq (boxRow boxCol : Nat) (v : Int) :
    boxBlock boxRow boxCol v
    = exactlyOne ((boxCells boxRow boxCol).map fun rc => (getVar rc.1 rc.2 v, true)) := by
  rw [boxBlock, boxCells]
  simp only [List.map_flatMap, List.map_map, Function.comp_def]
  push_cast
  rfl

/-- Decoded values of two distinct cells of a box differ. -/
theorem decode_box_ne {A : Assignment}
    (hcell : cnfSat A cellClauses = true) (hbox : cnfSat A boxClauses = true)
    {boxRow boxCol : Nat} (hbr : boxRow < 3) (hbc : boxCol < 3)
    {rc1 rc2 : Nat × Nat} (h1 : rc1 ∈ boxCells boxRow boxCol)
    (h2 : rc2 ∈ boxCells boxRow boxCol) (hne : rc1 ≠ rc2) :
    decodeCell A rc1.1 rc1.2 ≠ decodeCell A rc2.1 rc2.2 := by
  intro heq
  obtain ⟨hb1, hb1'⟩ := mem_boxCells hbr hbc h1
  obtain ⟨hb2, hb2'⟩ := mem_boxCells hbr hbc h2
  obtain ⟨hv1, hA1⟩ := decodeCell_spec (cellBlock_of_sat hcell hb1 hb1')
  obtain ⟨hv2, hA2⟩ := decodeCell_spec (cellBlock_of_sat hcell hb2 hb2')
  rw [← heq] at hA2
  have hblock : cnfSat A (atMostOne ((boxCells boxRow boxCol).map fun rc =>
      (getVar rc.1 rc.2 (decodeCell A rc1.1 rc1.2), true))) = true := by
    refine cnfSat_of_sub (List.Subset.trans (atMostOne_sub_exactlyOne _) ?_) hbox
    rw [← boxBlock_eq]
    exact boxBlock_sub hbr hbc hv1
  exact not_both_of_atMostOne
    (f := fun rc : Nat × Nat => getVar rc.1 rc.2 (decodeCell A rc1.1 rc1.2)) hblock
    h1 h2 hne hA1 hA2

/-- The decoded grid passes the basic verifier checks. -/
theorem verifyBasic_of_sat {A : Assignment}
    (hcell : cnfSat A cellClauses = true) (hrow : cnfSat A rowClauses = true)
    (hcol : cnfSat A colClauses = true) (hbox : cnfSat A boxClauses = true) :
    SudokuSolver.verifyBasicConstraints (decodeGrid A) = true := by
  rw [SudokuSolver.verifyBasicConstraints]
  simp only [Bool.and_eq_true, List.all_eq_true, List.mem_range]
  refine ⟨⟨⟨?_, ?_⟩, ?_⟩, ?_⟩
  · intro r hr c hc
    rw [decodeGrid_get hr hc]
    obtain ⟨hv, -⟩ := decodeCell_spec (cellBlock_of_sat hcell hr hc)
    rcases mem_valsList.1 hv with ⟨h1, h2⟩
    simp [h1, h2]
  · intro r hr
    rw [allDistinct_iff_nodup]
    refine List.Nodup.map_on ?_ (List.nodup_range 9)
    intro x hx y hy hxy
    by_contra hne
    rw [List.mem_range] at hx hy
    exact decode_row_ne hcell hrow hr hx hy hne
      (by rw [decodeGrid_get hr hx, decodeGrid_get hr hy] at hxy; exact hxy)
  · intro c hc
    rw [allDistinct_iff_nodup]
    refine List.Nodup.map_on ?_ (List.nodup_range 9)
    intro x hx y hy hxy
    by_contra hne
    rw [List.mem_range] at hx hy
    exact decode_col_ne hcell hcol hc hx hy hne
      (by rw [decodeGrid_get hx hc, decodeGrid_get hy hc] at hxy; exact hxy)
  · intro boxRow hbr boxCol hbc
    rw [allDistinct_iff_nodup]
    have hre : ((List.range 3).flatMap fun r => (List.range 3).map fun c =>
        (decodeGrid A).get (boxRow * 3 + r) (boxCol * 3 + c))
        = (boxCells boxRow boxCol).map fun rc => (decodeGrid A).get rc.1 rc.2 := by
      simp only [boxCells, List.map_flatMap, List.map_map, Function.comp_def]
    rw [hre]
    refine List.Nodup.map_on ?_ (boxCells_nodup boxRow boxCol)
    intro x hx y hy hxy
    by_contra hne
    obtain ⟨hx1, hx2⟩ := mem_boxCells hbr hbc hx
    obtain ⟨hy1, hy2⟩ := mem_boxCells hbr hbc hy
    exact decode_box_ne hcell hbox hbr hbc hx hy hne
      (by rw [decodeGrid_get hx1 hx2, decodeGrid_get hy1 hy2] at hxy; exact hxy)

/-- Given values are preserved by the decoded grid. -/
theorem verifyGivens_of_sat {A : Assignment} {p : SudokuPuzzle}
    (hcell : cnfSat A cellClauses = true) (hgiven : cnfSat A (givenClauses p) = true) :
    SudokuSolver.verifyGivenValues p (decodeGrid A) = true := by
  rw [SudokuSolver.verifyGivenValues]
  simp only [List.all_eq_true, List.mem_range]
  intro r hr c hc
  by_cases hg : 1 ≤ p.grid.get r c ∧ p.grid.get r c ≤ 9
  · have hmem := givenClause_mem hr hc hg.1 hg.2
    have hclause := (cnfSat_iff.1 hgiven) _ hmem
    rw [clauseSat_iff] at hclause
    rcases hclause with ⟨l, hl, hsat⟩
    simp only [List.mem_singleton] at hl
    subst hl
    have hA : A (getVar r c (p.grid.get r c)) = true := by simpa [litSat] using hsat
    have := decodeCell_eq (cellBlock_of_sat hcell hr hc) (mem_valsList.2 hg) hA
    rw [decodeGrid_get hr hc, this]
    simp [hg.1, hg.2]
  · simp only [Bool.or_eq_true, Bool.not_eq_eq_eq_not, Bool.not_true, Bool.and_eq_false_iff]
    left
    rcases not_and_or.1 hg with h | h
    · left
      simp [decide_eq_false_iff_not, h]
    · right
      simp [decide_eq_false_iff_not, h]

/-- Each encoded (valid) inequality holds on the decoded grid. -/
theorem ineq_sound {A : Assignment} {iq : InequalityConstraint}
    (hcell : cnfSat A cellClauses = true)
    (hiq : cnfSat A (encodeInequality iq) = true) (hval : iq.isValid = true) :
    (match iq.type with
      | .GREATER_THAN =>
          decodeCell A iq.cell2.row.toNat iq.cell2.col.toNat
            < decodeCell A iq.cell1.row.toNat iq.cell1.col.toNat
      | .LESS_THAN =>
          decodeCell A iq.cell1.row.toNat iq.cell1.col.toNat
            < decodeCell A iq.cell2.row.toNat iq.cell2.col.toNat) := by
  have hv1 : iq.cell1.isValid = true := by
    simp only [InequalityConstraint.isValid, Bool.and_eq_true] at hval
    exact hval.1.1
  have hv2 : iq.cell2.isValid = true := by
    simp only [InequalityConstraint.isValid, Bool.and_eq_true] at hval
    exact hval.1.2
  obtain ⟨⟨hc1r, hc1c⟩, hb1r, hb1c⟩ := cell_coord hv1
  obtain ⟨⟨hc2r, hc2c⟩, hb2r, hb2c⟩ := cell_coord hv2
  obtain ⟨hm1, hA1⟩ := decodeCell_spec (cellBlock_of_sat hcell hb1r hb1c)
  obtain ⟨hm2, hA2⟩ := decodeCell_spec (cellBlock_of_sat hcell hb2r hb2c)
  set a := decodeCell A iq.cell1.row.toNat iq.cell1.col.toNat with ha
  set b := decodeCell A iq.cell2.row.toNat iq.cell2.col.toNat with hb
  rcases mem_valsList.1 hm1 with ⟨ha1, ha9⟩
  rcases mem_valsList.1 hm2 with ⟨hb1', hb9⟩
  have hA1' : A (getVar iq.cell1.row iq.cell1.col a) = true := by
    rw [← hc1r, ← hc1c]; exact hA1
  have hA2' : A (getVar iq.cell2.row iq.cell2.col b) = true := by
    rw [← hc2r, ← hc2c]; exact hA2
  cases htype : iq.type with
  | GREATER_THAN =>
    simp only
    by_contra hle
    push_neg at hle
    have hclause : [((getVar iq.cell1.row iq.cell1.col a : Int), false),
        ((getVar iq.cell2.row iq.cell2.col b : Int), false)] ∈ encodeInequality iq := by
      rw [encodeInequality, htype]
      simp only [List.mem_flatMap, List.mem_map]
      exact ⟨a, hm1, b, mem_intRange.2 ⟨hle, hb9⟩, rfl⟩
    have := (cnfSat_iff.1 hiq) _ hclause
    rw [clauseSat_iff] at this
    rcases this with ⟨l, hl, hsat⟩
    simp only [List.mem_cons, List.not_mem_nil, or_false] at hl
    rcases hl with rfl | rfl
    · rw [litSat] at hsat; rw [hA1'] at hsat; simp at hsat
    · rw [litSat] at hsat; rw [hA2'] at hsat; simp at hsat
  | LESS_THAN =>
    simp only
    by_contra hle
    push_neg at hle
    have hclause : [((getVar iq.cell1.row iq.cell1.col a : Int), false),
        ((getVar iq.cell2.row iq.cell2.col b : Int), false)] ∈ encodeInequality iq := by
      rw [encodeInequality, htype]
      simp only [List.mem_flatMap, List.mem_map]
      exact ⟨a, hm1, b, mem_intRange.2 ⟨hb1', hle⟩, rfl⟩
    have := (cnfSat_iff.1 hiq) _ hclause
    rw [clauseSat_iff] at this
    rcases this with ⟨l, hl, hsat⟩
    simp only [List.mem_cons, List.not_mem_nil, or_false] at hl
    rcases hl with rfl | rfl
    · rw [litSat] at hsat; rw [hA1'] at hsat; simp at hsat
    · rw [litSat] at hsat; rw [hA2'] at hsat; simp at hsat

/-! ## Cage soundness -/

theorem decodeAt_var {A : Assignment} (hcell : cnfSat A cellClauses = true)
    {cell : Cell} (hv : cell.isValid = true) :
    decodeCell A cell.row.toNat cell.col.toNat ∈ valsList ∧
    A (getVar cell.row cell.col (decodeCell A cell.row.toNat cell.col.toNat)) = true := by
  obtain ⟨⟨h1, h2⟩, h3, h4⟩ := cell_coord hv
  obtain ⟨hm, hA⟩ := decodeCell_spec (cellBlock_of_sat hcell h3 h4)
  rw [h1, h2] at hA
  exact ⟨hm, hA⟩

theorem cageUniquenessBlock_sub {cage : Cage} {v : Int} (hv : v ∈ valsList) :
    atMostOne (cage.cells.map fun cell => (getVar cell.row cell.col v, true))
      ⊆ encodeCageUniqueness cage := by
  intro x hx
  simp only [encodeCageUniqueness, List.mem_flatMap]
  exact ⟨v, hv, hx⟩

/-- Under the cage-uniqueness clauses, the decoded values of the cage cells are
pairwise different (positionally, which also rules out repeated cells). -/
theorem cage_decode_pairwise {A : Assignment} {cage : Cage}
    (hcell : cnfSat A cellClauses = true)
    (hu : cnfSat A (encodeCageUniqueness cage) = true)
    (hcv : ∀ cell ∈ cage.cells, cell.isValid = true) :
    cage.cells.Pairwise (fun c1 c2 =>
      decodeCell A c1.row.toNat c1.col.toNat ≠ decodeCell A c2.row.toNat c2.col.toNat) := by
  rw [List.pairwise_iff_get]
  intro i j hij heq
  have hvi := hcv _ (List.get_mem cage.cells i.1 i.2)
  have hvj := hcv _ (List.get_mem cage.cells j.1 j.2)
  obtain ⟨hmi, hAi⟩ := decodeAt_var hcell hvi
  obtain ⟨hmj, hAj⟩ := decodeAt_var hcell hvj
  rw [← heq] at hAj
  set v := decodeCell A (cage.cells.get i).row.toNat (cage.cells.get i).col.toNat with hv
  have hblock : cnfSat A
      (atMostOne (cage.cells.map fun cell => (getVar cell.row cell.col v, true))) = true :=
    cnfSat_of_sub (cageUniquenessBlock_sub hmi) hu
  exact not_both_of_atMostOne_get (f := fun cell : Cell => getVar cell.row cell.col v)
    hblock hij hAi hAj

/-- Soundness of one valid cage's encoded constraints: the decoded values are
pairwise distinct and sum to the target. -/
theorem cage_sound {A : Assignment} {cage : Cage} {next : Int}
    (hcell : cnfSat A cellClauses = true)
    (hs : cnfSat A (encodeCageSum cage next).1 = true)
    (hu : cnfSat A (encodeCageUniqueness cage) = true)
    (hcv : ∀ cell ∈ cage.cells, cell.isValid = true) :
    (cage.cells.map fun cell => decodeCell A cell.row.toNat cell.col.toNat).Nodup ∧
    (cage.cells.map fun cell => decodeCell A cell.row.toNat cell.col.toNat).sum
      = cage.targetSum := by
  have hpwnd : (cage.cells.map fun cell =>
      decodeCell A cell.row.toNat cell.col.toNat).Nodup :=
    List.pairwise_map.2 (cage_decode_pairwise hcell hu hcv)
  refine ⟨hpwnd, ?_⟩
  -- the decoded values all come from a single admissible combination
  suffices h : ∃ combo ∈ generateSumCombinations cage.cells.length cage.targetSum,
      ∀ cell ∈ cage.cells, decodeCell A cell.row.toNat cell.col.toNat ∈ combo by
    rcases h with ⟨combo, hcombo, hsub⟩
    rcases mem_generateSumCombinations.1 hcombo with ⟨hlen, hsum, hpw, hbnd⟩
    have hperm : (cage.cells.map fun cell =>
        decodeCell A cell.row.toNat cell.col.toNat).Perm combo := by
      refine perm_of_nodup_subset_length hpwnd ?_ (hpw.imp fun h => ne_of_lt h) ?_
      · intro x hx
        rcases List.mem_map.1 hx with ⟨cell, hcell', rfl⟩
        exact hsub cell hcell'
      · rw [List.length_map, hlen]
    rw [hperm.sum_eq, hsum]
  unfold encodeCageSum at hs
  split at hs
  · exfalso
    simp [cnfSat, clauseSat] at hs
  · next combo heq =>
    simp only at hs
    rw [cnfSat_append, Bool.and_eq_true] at hs
    obtain ⟨hsAtLeast, hsForbid⟩ := hs
    refine ⟨combo, by rw [heq]; simp, ?_⟩
    intro cell hcellmem
    obtain ⟨hm, hA⟩ := decodeAt_var hcell (hcv cell hcellmem)
    by_contra hnot
    have hclause : [(getVar cell.row cell.col
        (decodeCell A cell.row.toNat cell.col.toNat), false)]
        ∈ valsList.flatMap fun val =>
          if combo.contains val then []
          else cage.cells.map fun c => [(getVar c.row c.col val, false)] := by
      rw [List.mem_flatMap]
      refine ⟨decodeCell A cell.row.toNat cell.col.toNat, hm, ?_⟩
      rw [if_neg (by simpa using hnot)]
      exact List.mem_map.2 ⟨cell, hcellmem, rfl⟩
    have hcs := (cnfSat_iff.1 hsForbid) _ hclause
    rw [clauseSat_iff] at hcs
    rcases hcs with ⟨l, hl, hlsat⟩
    simp only [List.mem_singleton] at hl
    subst hl
    rw [litSat, hA] at hlsat
    simp at hlsat
  · set combos := generateSumCombinations cage.cells.length cage.targetSum with hcombos
    simp only [cnfSat_append, Bool.and_eq_true] at hs
    obtain ⟨⟨hsChoice, hsPer⟩, hsChan⟩ := hs
    rw [exactlyOne_sat_iff] at hsChoice
    obtain ⟨⟨l, hl, hlsat⟩, -⟩ := hsChoice
    rcases List.mem_map.1 hl with ⟨cv, hcv', rfl⟩
    rcases List.mem_map.1 hcv' with ⟨i, hi, rfl⟩
    rw [List.mem_range] at hi
    have hAcv : A (next + (i : Int)) = true := by simpa [litSat] using hlsat
    have hizip : i < (combos.zip
        ((List.range combos.length).map fun (j : Nat) => next + (j : Int))).length := by
      simp [List.length_zip]
      omega
    have hpair : (combos[i], next + (i : Int))
        ∈ combos.zip ((List.range combos.length).map fun (j : Nat) => next + (j : Int)) := by
      have hilen : i < ((List.range combos.length).map fun (j : Nat) =>
          next + (j : Int)).length := by simpa using hi
      have hz := List.getElem_zip (i := i) (h := hizip)
      have hv' : ((List.range combos.length).map fun (j : Nat) =>
          next + (j : Int))[i] = next + (i : Int) := by
        simp
      rw [hv'] at hz
      rw [← hz]
      exact List.getElem_mem hizip
    refine ⟨combos[i], List.getElem_mem hi, ?_⟩
    intro cell hcellmem
    obtain ⟨hm, hA⟩ := decodeAt_var hcell (hcv cell hcellmem)
    by_contra hnot
    have hclause : [((next + (i : Int) : Int), false), (getVar cell.row cell.col
        (decodeCell A cell.row.toNat cell.col.toNat), false)]
        ∈ (combos.zip ((List.range combos.length).map fun (j : Nat) =>
            next + (j : Int))).flatMap fun pr =>
            (pr.1.map fun val =>
              (pr.2, false) :: cage.cells.map fun c => (getVar c.row c.col val, true))
            ++ (valsList.flatMap fun val =>
              if pr.1.contains val then []
              else cage.cells.map fun c =>
                [(pr.2, false), (getVar c.row c.col val, false)]) := by
      rw [List.mem_flatMap]
      refine ⟨_, hpair, ?_⟩
      rw [List.mem_append]
      right
      rw [List.mem_flatMap]
      refine ⟨decodeCell A cell.row.toNat cell.col.toNat, hm, ?_⟩
      rw [if_neg (by simpa using hnot)]
      exact List.mem_map.2 ⟨cell, hcellmem, rfl⟩
    have hcs := (cnfSat_iff.1 hsPer) _ hclause
    rw [clauseSat_iff] at hcs
    rcases hcs with ⟨l, hl, hlsat⟩
    simp only [List.mem_cons, List.not_mem_nil, or_false] at hl
    rcases hl with rfl | rfl
    · rw [litSat, hAcv] at hlsat
      simp at hlsat
    · rw [litSat, hA] at hlsat
      simp at hlsat

/-- A valid cage's clauses occur (for some auxiliary-variable offset) inside
the clause list emitted by `encodeCageConstraints`. -/
theorem cage_clauses_sub {cages : List Cage} {next : Int} {cage : Cage}
    (hmem : cage ∈ cages) (hval : cage.isValid = true) :
    ∃ n : Int, (encodeCageSum cage n).1 ++ encodeCageUniqueness cage
      ⊆ (encodeCageConstraints cages next).1 := by
  induction cages generalizing next with
  | nil => cases hmem
  | cons c rest ih =>
    rcases List.mem_cons.1 hmem with rfl | hmem'
    · refine ⟨next, ?_⟩
      rw [encodeCageConstraints, if_pos hval]
      intro x hx
      rcases List.mem_append.1 hx with hx | hx
      · simp [hx]
      · simp [hx]
    · by_cases hcval : c.isValid
      · rcases @ih ((encodeCageSum c next).2) hmem' with ⟨n, hn⟩
        refine ⟨n, ?_⟩
        rw [encodeCageConstraints, if_pos hcval]
        intro x hx
        simp only [List.append_assoc, List.mem_append]
        right; right
        exact hn hx
      · rcases @ih next hmem' with ⟨n, hn⟩
        refine ⟨n, ?_⟩
        rw [encodeCageConstraints, if_neg hcval]
        exact hn

theorem ineq_clauses_sub {ineqs : List InequalityConstraint} {iq : InequalityConstraint}
    (hmem : iq ∈ ineqs) (hval : iq.isValid = true) :
    encodeInequality iq ⊆ encodeInequalityConstraints ineqs := by
  intro x hx
  rw [encodeInequalityConstraints, List.mem_flatMap]
  exact ⟨iq, hmem, by rw [if_pos hval]; exact hx⟩

/-- Main soundness: any satisfying assignment of the encoded formula decodes to
a grid accepted by the verifier, provided the puzzle's cages and inequalities
are structurally valid with in-range cells. -/
theorem decoded_verifies {A : Assignment} {p : SudokuPuzzle}
    (hA : cnfSat A (encodePuzzle p).1 = true)
    (hcages : ∀ cage ∈ p.cages, cage.isValid = true ∧
      ∀ cell ∈ cage.cells, cell.isValid = true)
    (hineqs : ∀ iq ∈ p.inequalities, iq.isValid = true) :
    SudokuSolver.verifySolution p { grid := decodeGrid A, solved := true } = true := by
  obtain ⟨hcell, hrow, hcol, hbox, hgiven, hcage, hineq⟩ := encode_parts hA
  rw [SudokuSolver.verifySolution]
  simp only [Bool.and_eq_true]
  refine ⟨⟨⟨⟨trivial, ?_⟩, ?_⟩, ?_⟩, ?_⟩
  · exact verifyBasic_of_sat hcell hrow hcol hbox
  · exact verifyGivens_of_sat hcell hgiven
  · rcases hcs : p.cages with - | ⟨c0, crest⟩
    · simp [SudokuPuzzle.hasKillerConstraints, hcs]
    · have hne : p.cages ≠ [] := by rw [hcs]; simp
      have hsatCages := hcage hne
      rw [Bool.or_eq_true]
      right
      rw [SudokuSolver.verifyCageConstraints, List.all_eq_true]
      intro cage hmem
      obtain ⟨hval, hcv⟩ := hcages cage (by rw [hcs]; exact hcs ▸ hmem)
      rcases @cage_clauses_sub _ 729 _ (hcs ▸ hmem) hval with ⟨n, hsub⟩
      have hscnf := cnfSat_of_sub (List.Subset.trans (List.subset_append_left _ _) hsub)
        (hcs ▸ hsatCages)
      have hucnf := cnfSat_of_sub (List.Subset.trans (List.subset_append_right _ _) hsub)
        (hcs ▸ hsatCages)
      obtain ⟨hnd, hsum⟩ := cage_sound hcell hscnf hucnf hcv
      have hre : (cage.cells.map fun cell =>
          (decodeGrid A).get cell.row.toNat cell.col.toNat)
          = cage.cells.map fun cell => decodeCell A cell.row.toNat cell.col.toNat := by
        refine List.map_congr_left fun cell hc => ?_
        obtain ⟨-, h3, h4⟩ := cell_coord (hcv cell hc)
        exact decodeGrid_get h3 h4
      simp only [hre]
      rw [Bool.and_eq_true, allDistinct_iff_nodup]
      exact ⟨hnd, by simp [hsum]⟩
  · rcases his : p.inequalities with - | ⟨i0, irest⟩
    · simp [SudokuPuzzle.hasInequalityConstraints, his]
    · have hne : p.inequalities ≠ [] := by rw [his]; simp
      have hsatIneqs := hineq hne
      rw [Bool.or_eq_true]
      right
      rw [SudokuSolver.verifyInequalityConstraints, List.all_eq_true]
      intro iq hmem
      have hval := hineqs iq (his ▸ hmem)
      have hicnf := cnfSat_of_sub (ineq_clauses_sub (his ▸ hmem) hval) (his ▸ hsatIneqs)
      have hmain := ineq_sound hcell hicnf hval
      have hv1 : iq.cell1.isValid = true := by
        simp only [InequalityConstraint.isValid, Bool.and_eq_true] at hval
        exact hval.1.1
      have hv2 : iq.cell2.isValid = true := by
        simp only [InequalityConstraint.isValid, Bool.and_eq_true] at hval
        exact hval.1.2
      obtain ⟨-, h13, h14⟩ := cell_coord hv1
      obtain ⟨-, h23, h24⟩ := cell_coord hv2
      rw [decodeGrid_get h13 h14, decodeGrid_get h23 h24]
      cases htype : iq.type with
      | GREATER_THAN =>
        rw [htype] at hmain
        simpa using hmain
      | LESS_THAN =>
        rw [htype] at hmain
        simpa using hmain

/-! ## Canonical assignments and concrete test vectors -/

/-- The canonical assignment of the 729 primary variables describing a grid. -/
def canonPrimary (g : Grid) : Assignment := fun v =>
  if 0 ≤ v && v < 729 then
    g.get (v / 81).toNat ((v % 81) / 9).toNat == v % 9 + 1
  else false

theorem canonPrimary_getVar {g : Grid} {r c val : Int}
    (hr : 0 ≤ r) (hr9 : r < 9) (hc : 0 ≤ c) (hc9 : c < 9) (hv : 1 ≤ val) (hv9 : val ≤ 9) :
    canonPrimary g (getVar r c val) = (g.get r.toNat c.toNat == val) := by
  have hb := getVar_lt_729 hr hr9 hc hc9 hv hv9
  rw [canonPrimary, if_pos (by simp only [Bool.and_eq_true, decide_eq_true_eq]; omega)]
  unfold getVar
  have h1 : (r * 81 + c * 9 + (val - 1)) / 81 = r := by omega
  have h2 : ((r * 81 + c * 9 + (val - 1)) % 81) / 9 = c := by omega
  have h3 : (r * 81 + c * 9 + (val - 1)) % 9 = val - 1 := by omega
  rw [h1, h2, h3]
  congr 1
  omega

/-- A model-producing oracle built from a fixed assignment: sound by
construction, used to instantiate the solver interface on test vectors. -/
def oracleFor (A : Assignment) : SatSolver := fun f =>
  (if cnfSat A f = true then some A else none, 0)

theorem oracleFor_sound (A : Assignment) :
    ∀ f B, (oracleFor A f).1 = some B → cnfSat B f = true := by
  intro f B h
  rw [oracleFor] at h
  split at h
  · next hsat =>
    simp only at h
    cases h
    exact hsat
  · simp at h

/-- A concrete complete valid Sudoku grid used as a test vector. -/
def demoGrid : Grid :=
  [[5,3,4,6,7,8,9,1,2],
   [6,7,2,1,9,5,3,4,8],
   [1,9,8,3,4,2,5,6,7],
   [8,5,9,7,6,1,4,2,3],
   [4,2,6,8,5,3,7,9,1],
   [7,1,3,9,2,4,8,5,6],
   [9,6,1,5,3,7,2,8,4],
   [2,8,7,4,1,9,6,3,5],
   [3,4,5,2,8,6,1,7,9]]

/-! ## Completeness: the canonical assignment satisfies the encoding -/

theorem find?_unique {α : Type} {l : List α} {p : α → Bool} {a : α}
    (ha : a ∈ l) (hp : p a = true) (huniq : ∀ b ∈ l, p b = true → b = a) :
    l.find? p = some a := by
  induction l with
  | nil => cases ha
  | cons x rest ih =>
    by_cases hx : p x = true
    · rw [List.find?_cons_of_pos _ hx, huniq x (by simp) hx]
    · rw [List.find?_cons_of_neg _ hx]
      have hmem : a ∈ rest := by
        rcases List.mem_cons.1 ha with rfl | hmem
        · exact absurd hp hx
        · exact hmem
      exact ih hmem (fun b hb hpb => huniq b (List.mem_cons_of_mem x hb) hpb)

/-- An assignment behaving canonically on the primary variables. -/
def PrimCanon (A : Assignment) (g : Grid) : Prop :=
  ∀ v : Int, 0 ≤ v → v < 729 → A v = canonPrimary g v

theorem primCanon_getVar {A : Assignment} {g : Grid} (hAp : PrimCanon A g)
    {r c : Nat} {val : Int} (hr : r < 9) (hc : c < 9) (hv1 : 1 ≤ val) (hv9 : val ≤ 9) :
    A (getVar r c val) = (g.get r c == val) := by
  have hb := getVar_lt_729 (r := (r : Int)) (c := (c : Int)) (v := val)
    (by omega) (by omega) (by omega) (by omega) hv1 hv9
  rw [hAp _ hb.1 hb.2,
    canonPrimary_getVar (by omega) (by omega) (by omega) (by omega) hv1 hv9]
  simp

theorem decodeCell_canon {A : Assignment} {g : Grid} (hAp : PrimCanon A g)
    {r c : Nat} (hr : r < 9) (hc : c < 9) (hg1 : 1 ≤ g.get r c) (hg9 : g.get r c ≤ 9) :
    decodeCell A r c = g.get r c := by
  rw [decodeCell]
  have hfind : valsList.find? (fun v => A (getVar r c v)) = some (g.get r c) := by
    refine find?_unique (mem_valsList.2 ⟨hg1, hg9⟩) ?_ ?_
    · rw [primCanon_getVar hAp hr hc hg1 hg9]
      simp
    · intro b hb hpb
      rcases mem_valsList.1 hb with ⟨hb1, hb9⟩
      rw [primCanon_getVar hAp hr hc hb1 hb9] at hpb
      exact (beq_iff_eq.1 hpb).symm
  rw [hfind]
  rfl

/-- A duplicate-free selection of nine values from `1..9` covers all of `1..9`. -/
theorem covers_valsList {l : List Int} (hnd : l.Nodup)
    (hsub : ∀ x ∈ l, x ∈ valsList) (hlen : l.length = 9) :
    ∀ v ∈ valsList, v ∈ l := by
  intro v hv
  have hperm : l.Perm valsList :=
    perm_of_nodup_subset_length hnd hsub valsList_nodup (by rw [hlen]; rfl)
  exact hperm.mem_iff.2 hv

theorem cnfSat_flatMap {A : Assignment} {α : Type} {l : List α} {f : α → Cnf} :
    cnfSat A (l.flatMap f) = true ↔ ∀ x ∈ l, cnfSat A (f x) = true := by
  simp only [cnfSat_iff, List.mem_flatMap]
  constructor
  · intro h x hx c hc
    exact h c ⟨x, hx, hc⟩
  · rintro h c ⟨x, hx, hc⟩
    exact h x hx c hc

theorem nodup_map_forall_ne {α β : Type} {l : List α} {f : α → β}
    (h : (l.map f).Nodup) : ∀ a ∈ l, ∀ b ∈ l, a ≠ b → f a ≠ f b := by
  rw [List.Nodup, List.pairwise_map] at h
  intro a ha b hb hne
  have hsym : Symmetric (fun a b => f a ≠ f b) := fun x y hxy heq => hxy heq.symm
  exact h.forall hsym ha hb hne

/-- The facts packed inside a successful basic verification. -/
theorem verifyBasic_explode {g : Grid} (h : SudokuSolver.verifyBasicConstraints g = true) :
    (∀ r c : Nat, r < 9 → c < 9 → 1 ≤ g.get r c ∧ g.get r c ≤ 9) ∧
    (∀ r c1 c2 : Nat, r < 9 → c1 < 9 → c2 < 9 → c1 ≠ c2 → g.get r c1 ≠ g.get r c2) ∧
    (∀ c r1 r2 : Nat, c < 9 → r1 < 9 → r2 < 9 → r1 ≠ r2 → g.get r1 c ≠ g.get r2 c) ∧
    (∀ boxRow boxCol : Nat, boxRow < 3 → boxCol < 3 →
      ∀ rc1 ∈ boxCells boxRow boxCol, ∀ rc2 ∈ boxCells boxRow boxCol, rc1 ≠ rc2 →
        g.get rc1.1 rc1.2 ≠ g.get rc2.1 rc2.2) := by
  rw [SudokuSolver.verifyBasicConstraints] at h
  simp only [Bool.and_eq_true, List.all_eq_true, List.mem_range] at h
  obtain ⟨⟨⟨hrange, hrows⟩, hcols⟩, hboxes⟩ := h
  refine ⟨?_, ?_, ?_, ?_⟩
  · intro r c hr hc
    have := hrange r hr c hc
    simp only [Bool.and_eq_true, decide_eq_true_eq] at this
    exact this
  · intro r c1 c2 hr hc1 hc2 hne
    have hd := allDistinct_iff_nodup.1 (hrows r hr)
    exact nodup_map_forall_ne hd c1 (List.mem_range.2 hc1) c2 (List.mem_range.2 hc2) hne
  · intro c r1 r2 hc hr1 hr2 hne
    have hd := allDistinct_iff_nodup.1 (hcols c hc)
    exact nodup_map_forall_ne hd r1 (List.mem_range.2 hr1) r2 (List.mem_range.2 hr2) hne
  · intro boxRow boxCol hbr hbc rc1 h1 rc2 h2 hne
    have hd := allDistinct_iff_nodup.1 (hboxes boxRow hbr boxCol hbc)
    have hre : ((List.range 3).flatMap fun r => (List.range 3).map fun c =>
        g.get (boxRow * 3 + r) (boxCol * 3 + c))
        = (boxCells boxRow boxCol).map fun rc => g.get rc.1 rc.2 := by
      simp only [boxCells, List.map_flatMap, List.map_map, Function.comp_def]
    rw [hre] at hd
    exact nodup_map_forall_ne hd rc1 h1 rc2 h2 hne

/-- The cell blocks are satisfied by any canonically-primary assignment of a
grid whose entries are in range. -/
theorem cellClauses_sat {A : Assignment} {g : Grid} (hAp : PrimCanon A g)
    (hg : ∀ r c : Nat, r < 9 → c < 9 → 1 ≤ g.get r c ∧ g.get r c ≤ 9) :
    cnfSat A cellClauses = true := by
  rw [cellClauses, cnfSat_flatMap]
  intro r hr
  rw [cnfSat_flatMap]
  intro c hc
  rw [List.mem_range] at hr hc
  obtain ⟨hg1, hg9⟩ := hg r c hr hc
  rw [exactlyOne_sat_iff]
  constructor
  · refine ⟨(getVar r c (g.get r c), true), List.mem_map.2
      ⟨g.get r c, mem_valsList.2 ⟨hg1, hg9⟩, rfl⟩, ?_⟩
    rw [litSat]
    simp only
    rw [primCanon_getVar hAp hr hc hg1 hg9]
    simp
  · rw [List.pairwise_map]
    refine valsList_nodup.imp_of_mem ?_
    intro v w hv hw hne ⟨h1, h2⟩
    rcases mem_valsList.1 hv with ⟨hv1, hv9⟩
    rcases mem_valsList.1 hw with ⟨hw1, hw9⟩
    rw [litSat] at h1 h2
    simp only at h1 h2
    rw [primCanon_getVar hAp hr hc hv1 hv9] at h1
    rw [primCanon_getVar hAp hr hc hw1 hw9] at h2
    simp only [beq_iff_eq] at h1 h2
    exact hne (h1 ▸ h2 ▸ rfl)

theorem rowClauses_sat {A : Assignment} {g : Grid} (hAp : PrimCanon A g)
    (hg : ∀ r c : Nat, r < 9 → c < 9 → 1 ≤ g.get r c ∧ g.get r c ≤ 9)
    (hrows : ∀ r c1 c2 : Nat, r < 9 → c1 < 9 → c2 < 9 → c1 ≠ c2 →
      g.get r c1 ≠ g.get r c2) :
    cnfSat A rowClauses = true := by
  rw [rowClauses, cnfSat_flatMap]
  intro r hr
  rw [cnfSat_flatMap]
  intro v hv
  rw [List.mem_range] at hr
  rcases mem_valsList.1 hv with ⟨hv1, hv9⟩
  rw [exactlyOne_sat_iff]
  constructor
  · have hnd : ((List.range 9).map fun c => g.get r c).Nodup := by
      refine List.Nodup.map_on ?_ (List.nodup_range 9)
      intro x hx y hy hxy
      by_contra hne
      rw [List.mem_range] at hx hy
      exact hrows r x y hr hx hy hne hxy
    have hcov := covers_valsList hnd
      (fun x hx => by
        rcases List.mem_map.1 hx with ⟨c, hc, rfl⟩
        rw [List.mem_range] at hc
        exact mem_valsList.2 (hg r c hr hc))
      (by simp) v hv
    rcases List.mem_map.1 hcov with ⟨c, hc, hgc⟩
    rw [List.mem_range] at hc
    refine ⟨(getVar r c v, true), List.mem_map.2 ⟨c, List.mem_range.2 hc, rfl⟩, ?_⟩
    rw [litSat]
    simp only
    rw [primCanon_getVar hAp hr hc hv1 hv9, hgc]
    simp
  · rw [List.pairwise_map]
    refine (List.nodup_range 9).imp_of_mem ?_
    intro c1 c2 hc1 hc2 hne ⟨h1, h2⟩
    rw [List.mem_range] at hc1 hc2
    rw [litSat] at h1 h2
    simp only at h1 h2
    rw [primCanon_getVar hAp hr hc1 hv1 hv9] at h1
    rw [primCanon_getVar hAp hr hc2 hv1 hv9] at h2
    simp only [beq_iff_eq] at h1 h2
    exact hrows r c1 c2 hr hc1 hc2 hne (h1.trans h2.symm)

theorem colClauses_sat {A : Assignment} {g : Grid} (hAp : PrimCanon A g)
    (hg : ∀ r c : Nat, r < 9 → c < 9 → 1 ≤ g.get r c ∧ g.get r c ≤ 9)
    (hcols : ∀ c r1 r2 : Nat, c < 9 → r1 < 9 → r2 < 9 → r1 ≠ r2 →
      g.get r1 c ≠ g.get r2 c) :
    cnfSat A colClauses = true := by
  rw [colClauses, cnfSat_flatMap]
  intro c hc
  rw [cnfSat_flatMap]
  intro v hv
  rw [List.mem_range] at hc
  rcases mem_valsList.1 hv with ⟨hv1, hv9⟩
  rw [exactlyOne_sat_iff]
  constructor
  · have hnd : ((List.range 9).map fun r => g.get r c).Nodup := by
      refine List.Nodup.map_on ?_ (List.nodup_range 9)
      intro x hx y hy hxy
      by_contra hne
      rw [List.mem_range] at hx hy
      exact hcols c x y hc hx hy hne hxy
    have hcov := covers_valsList hnd
      (fun x hx => by
        rcases List.mem_map.1 hx with ⟨r, hr, rfl⟩
        rw [List.mem_range] at hr
        exact mem_valsList.2 (hg r c hr hc))
      (by simp) v hv
    rcases List.mem_map.1 hcov with ⟨r, hr, hgc⟩
    rw [List.mem_range] at hr
    refine ⟨(getVar r c v, true), List.mem_map.2 ⟨r, List.mem_range.2 hr, rfl⟩, ?_⟩
    rw [litSat]
    simp only
    rw [primCanon_getVar hAp hr hc hv1 hv9, hgc]
    simp
  · rw [List.pairwise_map]
    refine (List.nodup_range 9).imp_of_mem ?_
    intro r1 r2 hr1 hr2 hne ⟨h1, h2⟩
    rw [List.mem_range] at hr1 hr2
    rw [litSat] at h1 h2
    simp only at h1 h2
    rw [primCanon_getVar hAp hr1 hc hv1 hv9] at h1
    rw [primCanon_getVar hAp hr2 hc hv1 hv9] at h2
    simp only [beq_iff_eq] at h1 h2
    exact hcols c r1 r2 hc hr1 hr2 hne (h1.trans h2.symm)

theorem boxCells_length (boxRow boxCol : Nat) : (boxCells boxRow boxCol).length = 9 := by
  simp [boxCells, Function.comp_def]

theorem boxClauses_sat {A : Assignment} {g : Grid} (hAp : PrimCanon A g)
    (hg : ∀ r c : Nat, r < 9 → c < 9 → 1 ≤ g.get r c ∧ g.get r c ≤ 9)
    (hboxes : ∀ boxRow boxCol : Nat, boxRow < 3 → boxCol < 3 →
      ∀ rc1 ∈ boxCells boxRow boxCol, ∀ rc2 ∈ boxCells boxRow boxCol, rc1 ≠ rc2 →
        g.get rc1.1 rc1.2 ≠ g.get rc2.1 rc2.2) :
    cnfSat A boxClauses = true := by
  rw [boxClauses, cnfSat_flatMap]
  intro boxRow hbr
  rw [cnfSat_flatMap]
  intro boxCol hbc
  rw [cnfSat_flatMap]
  intro v hv
  rw [List.mem_range] at hbr hbc
  rcases mem_valsList.1 hv with ⟨hv1, hv9⟩
  show cnfSat A (boxBlock boxRow boxCol v) = true
  rw [boxBlock_eq, exactlyOne_sat_iff]
  constructor
  · have hnd : ((boxCells boxRow boxCol).map fun rc => g.get rc.1 rc.2).Nodup := by
      refine List.Nodup.map_on ?_ (boxCells_nodup boxRow boxCol)
      intro x hx y hy hxy
      by_contra hne
      exact hboxes boxRow boxCol hbr hbc x hx y hy hne hxy
    have hcov := covers_valsList hnd
      (fun x hx => by
        rcases List.mem_map.1 hx with ⟨rc, hrc, rfl⟩
        obtain ⟨h1, h2⟩ := mem_boxCells hbr hbc hrc
        exact mem_valsList.2 (hg rc.1 rc.2 h1 h2))
      (by rw [List.length_map, boxCells_length]) v hv
    rcases List.mem_map.1 hcov with ⟨rc, hrc, hgc⟩
    obtain ⟨h1, h2⟩ := mem_boxCells hbr hbc hrc
    refine ⟨(getVar rc.1 rc.2 v, true), List.mem_map.2 ⟨rc, hrc, rfl⟩, ?_⟩
    rw [litSat]
    simp only
    rw [primCanon_getVar hAp h1 h2 hv1 hv9, hgc]
    simp
  · rw [List.pairwise_map]
    refine (boxCells_nodup boxRow boxCol).imp_of_mem ?_
    intro rc1 rc2 h1 h2 hne ⟨ha, hb⟩
    obtain ⟨h11, h12⟩ := mem_boxCells hbr hbc h1
    obtain ⟨h21, h22⟩ := mem_boxCells hbr hbc h2
    rw [litSat] at ha hb
    simp only at ha hb
    rw [primCanon_getVar hAp h11 h12 hv1 hv9] at ha
    rw [primCanon_getVar hAp h21 h22 hv1 hv9] at hb
    simp only [beq_iff_eq] at ha hb
    exact hboxes boxRow boxCol hbr hbc rc1 h1 rc2 h2 hne (ha.trans hb.symm)

theorem givenClauses_sat {A : Assignment} {g : Grid} {p : SudokuPuzzle}
    (hAp : PrimCanon A g)
    (hgiven : ∀ r c : Nat, r < 9 → c < 9 → 1 ≤ p.grid.get r c → p.grid.get r c ≤ 9 →
      g.get r c = p.grid.get r c) :
    cnfSat A (givenClauses p) = true := by
  rw [givenClauses, cnfSat_flatMap]
  intro r hr
  rw [cnfSat_flatMap]
  intro c hc
  rw [List.mem_range] at hr hc
  simp only
  split
  · next hrange =>
    simp only [Bool.and_eq_true, decide_eq_true_eq] at hrange
    rw [cnfSat_iff]
    intro cl hcl
    simp only [List.mem_singleton] at hcl
    subst hcl
    rw [clauseSat_iff]
    refine ⟨(getVar (r : Int) (c : Int) (p.grid.get r c), true), by simp, ?_⟩
    rw [litSat]
    simp only
    rw [primCanon_getVar hAp hr hc hrange.1 hrange.2, hgiven r c hr hc hrange.1 hrange.2]
    simp
  · simp [cnfSat]

theorem encodeInequality_sat {A : Assignment} {g : Grid} {iq : InequalityConstraint}
    (hAp : PrimCanon A g) (hval : iq.isValid = true)
    (hiq : match iq.type with
      | .GREATER_THAN => g.get iq.cell2.row.toNat iq.cell2.col.toNat
          < g.get iq.cell1.row.toNat iq.cell1.col.toNat
      | .LESS_THAN => g.get iq.cell1.row.toNat iq.cell1.col.toNat
          < g.get iq.cell2.row.toNat iq.cell2.col.toNat) :
    cnfSat A (encodeInequality iq) = true := by
  have hv1 : iq.cell1.isValid = true := by
    simp only [InequalityConstraint.isValid, Bool.and_eq_true] at hval
    exact hval.1.1
  have hv2 : iq.cell2.isValid = true := by
    simp only [InequalityConstraint.isValid, Bool.and_eq_true] at hval
    exact hval.1.2
  obtain ⟨⟨h11, h12⟩, h13, h14⟩ := cell_coord hv1
  obtain ⟨⟨h21, h22⟩, h23, h24⟩ := cell_coord hv2
  rw [encodeInequality]
  cases htype : iq.type with
  | GREATER_THAN =>
    rw [htype] at hiq
    simp only at hiq
    rw [cnfSat_flatMap]
    intro val1 hval1
    rw [cnfSat_iff]
    intro cl hcl
    rcases List.mem_map.1 hcl with ⟨val2, hval2, rfl⟩
    rcases mem_valsList.1 hval1 with ⟨ha1, ha9⟩
    rcases mem_intRange.1 hval2 with ⟨hb1, hb9⟩
    rw [clauseSat_iff]
    by_cases hcell1 : g.get iq.cell1.row.toNat iq.cell1.col.toNat = val1
    · refine ⟨(getVar iq.cell2.row iq.cell2.col val2, false), by simp, ?_⟩
      rw [litSat]
      simp only
      rw [← h21, ← h22, primCanon_getVar hAp h23 h24 (by omega) hb9]
      have hne2 : g.get iq.cell2.row.toNat iq.cell2.col.toNat ≠ val2 := by omega
      simp [hne2]
    · refine ⟨(getVar iq.cell1.row iq.cell1.col val1, false), by simp, ?_⟩
      rw [litSat]
      simp only
      rw [← h11, ← h12, primCanon_getVar hAp h13 h14 ha1 ha9]
      simp [hcell1]
  | LESS_THAN =>
    rw [htype] at hiq
    simp only at hiq
    rw [cnfSat_flatMap]
    intro val1 hval1
    rw [cnfSat_iff]
    intro cl hcl
    rcases List.mem_map.1 hcl with ⟨val2, hval2, rfl⟩
    rcases mem_valsList.1 hval1 with ⟨ha1, ha9⟩
    rcases mem_intRange.1 hval2 with ⟨hb1, hb9⟩
    rw [clauseSat_iff]
    by_cases hcell1 : g.get iq.cell1.row.toNat iq.cell1.col.toNat = val1
    · refine ⟨(getVar iq.cell2.row iq.cell2.col val2, false), by simp, ?_⟩
      rw [litSat]
      simp only
      rw [← h21, ← h22, primCanon_getVar hAp h23 h24 hb1 (by omega)]
      have hne2 : g.get iq.cell2.row.toNat iq.cell2.col.toNat ≠ val2 := by omega
      simp [hne2]
    · refine ⟨(getVar iq.cell1.row iq.cell1.col val1, false), by simp, ?_⟩
      rw [litSat]
      simp only
      rw [← h11, ← h12, primCanon_getVar hAp h13 h14 ha1 ha9]
      simp [hcell1]

/-- The cage's values under the grid, sorted ascending: the combination its
auxiliary variable selects. -/
def cageSortedVals (cage : Cage) (g : Grid) : List Int :=
  List.insertionSort (· ≤ ·) (cage.cells.map fun cell => g.get cell.row.toNat cell.col.toNat)

/-- Extension of an assignment with the auxiliary combination variables of the
cages, replaying the allocation order of `encodeCageConstraints`: the variable
of a combination is true exactly when it is the cage's sorted value list. -/
def extendCages (cages : List Cage) (g : Grid) (next : Int) (A : Assignment) : Assignment :=
  match cages with
  | [] => A
  | cage :: rest =>
    if cage.isValid then
      match generateSumCombinations cage.cells.length cage.targetSum with
      | [] => extendCages rest g next A
      | [_] => extendCages rest g next A
      | combos =>
        extendCages rest g (next + (combos.length : Int))
          (fun v =>
            if next ≤ v && v < next + (combos.length : Int) then
              combos[(v - next).toNat]? == some (cageSortedVals cage g)
            else A v)
    else extendCages rest g next A

theorem extendCages_lt {cages : List Cage} {g : Grid} {next : Int} {A : Assignment}
    {v : Int} (hv : v < next) : extendCages cages g next A v = A v := by
  induction cages generalizing next A with
  | nil => rfl
  | cons cage rest ih =>
    rw [extendCages]
    split
    · rcases hgc : generateSumCombinations cage.cells.length cage.targetSum with - | ⟨c0, cs⟩
      · simp only [hgc]
        exact ih hv
      · rcases cs with - | ⟨c1, cs2⟩
        · simp only [hgc]
          exact ih hv
        · simp only [hgc]
          rw [ih (by omega)]
          rw [if_neg (by rw [Bool.and_eq_true]; simp only [decide_eq_true_eq]; omega)]
    · exact ih hv

theorem extendCages_primCanon {cages : List Cage} {g : Grid} {next : Int} {A : Assignment}
    (h729 : 729 ≤ next) (hAp : PrimCanon A g) :
    PrimCanon (extendCages cages g next A) g := fun v h0 h7 =>
  (extendCages_lt (by omega)).trans (hAp v h0 h7)

/-- The sorted cage values form an admissible combination. -/
theorem cageSortedVals_mem {cage : Cage} {g : Grid}
    (hg : ∀ r c : Nat, r < 9 → c < 9 → 1 ≤ g.get r c ∧ g.get r c ≤ 9)
    (hcv : ∀ cell ∈ cage.cells, cell.isValid = true)
    (hnd : (cage.cells.map fun cell => g.get cell.row.toNat cell.col.toNat).Nodup)
    (hsum : (cage.cells.map fun cell => g.get cell.row.toNat cell.col.toNat).sum
      = cage.targetSum) :
    cageSortedVals cage g ∈ generateSumCombinations cage.cells.length cage.targetSum := by
  have hperm := List.perm_insertionSort (· ≤ ·)
    (cage.cells.map fun cell => g.get cell.row.toNat cell.col.toNat)
  rw [mem_generateSumCombinations]
  refine ⟨?_, ?_, ?_, ?_⟩
  · rw [cageSortedVals, List.length_insertionSort, List.length_map]
  · rw [cageSortedVals, hperm.sum_eq, hsum]
  · have hsorted : List.Sorted (· ≤ ·) (cageSortedVals cage g) :=
      List.sorted_insertionSort (· ≤ ·) _
    have hnd' : (cageSortedVals cage g).Nodup := by
      rw [cageSortedVals]
      exact hperm.nodup_iff.2 hnd
    exact hsorted.lt_of_le hnd'
  · intro v hv
    have hv' : v ∈ cage.cells.map fun cell => g.get cell.row.toNat cell.col.toNat := by
      rw [cageSortedVals] at hv
      exact hperm.mem_iff.1 hv
    rcases List.mem_map.1 hv' with ⟨cell, hcell, rfl⟩
    obtain ⟨-, h3, h4⟩ := cell_coord (hcv cell hcell)
    exact hg _ _ h3 h4

/-- Cage uniqueness clauses hold on any canonically-primary assignment when the
cage's grid values are duplicate-free. -/
theorem encodeCageUniqueness_sat {A : Assignment} {g : Grid} {cage : Cage}
    (hAp : PrimCanon A g)
    (hcv : ∀ cell ∈ cage.cells, cell.isValid = true)
    (hnd : (cage.cells.map fun cell => g.get cell.row.toNat cell.col.toNat).Nodup) :
    cnfSat A (encodeCageUniqueness cage) = true := by
  rw [encodeCageUniqueness, cnfSat_flatMap]
  intro v hv
  rcases mem_valsList.1 hv with ⟨hv1, hv9⟩
  rw [atMostOne_sat_iff, List.pairwise_map, List.pairwise_iff_get]
  rw [List.Nodup, List.pairwise_map, List.pairwise_iff_get] at hnd
  intro i j hij ⟨hi, hj⟩
  have hvi := hcv _ (List.get_mem cage.cells i.1 i.2)
  have hvj := hcv _ (List.get_mem cage.cells j.1 j.2)
  obtain ⟨⟨hi1, hi2⟩, hi3, hi4⟩ := cell_coord hvi
  obtain ⟨⟨hj1, hj2⟩, hj3, hj4⟩ := cell_coord hvj
  rw [litSat] at hi hj
  simp only [beq_iff_eq] at hi hj
  rw [← hi1, ← hi2, primCanon_getVar hAp hi3 hi4 hv1 hv9] at hi
  rw [← hj1, ← hj2, primCanon_getVar hAp hj3 hj4 hv1 hv9] at hj
  simp only [beq_iff_eq] at hi hj
  exact hnd i j hij (hi.trans hj.symm)

theorem mem_zip_comboVars {combos : List (List Int)} {next : Int} {i : Nat}
    (hi : i < combos.length) :
    (combos[i], next + (i : Int))
      ∈ combos.zip ((List.range combos.length).map fun (j : Nat) => next + (j : Int)) := by
  have hizip : i < (combos.zip
      ((List.range combos.length).map fun (j : Nat) => next + (j : Int))).length := by
    simp [List.length_zip]
    omega
  have hilen : i < ((List.range combos.length).map fun (j : Nat) =>
      next + (j : Int)).length := by simpa using hi
  have hz := List.getElem_zip (i := i) (h := hizip)
  have hv' : ((List.range combos.length).map fun (j : Nat) =>
      next + (j : Int))[i] = next + (i : Int) := by
    simp
  rw [hv'] at hz
  rw [← hz]
  exact List.getElem_mem hizip

/-- The canonical assignment (primary part canonical, auxiliary part selecting
the sorted value combination) satisfies one valid cage's sum clauses. -/
theorem encodeCageSum_sat {A : Assignment} {g : Grid} {cage : Cage} {next : Int}
    (hAp : PrimCanon A g)
    (hg : ∀ r c : Nat, r < 9 → c < 9 → 1 ≤ g.get r c ∧ g.get r c ≤ 9)
    (hcv : ∀ cell ∈ cage.cells, cell.isValid = true)
    (hnd : (cage.cells.map fun cell => g.get cell.row.toNat cell.col.toNat).Nodup)
    (hsum : (cage.cells.map fun cell => g.get cell.row.toNat cell.col.toNat).sum
      = cage.targetSum)
    (haux : 2 ≤ (generateSumCombinations cage.cells.length cage.targetSum).length →
      ∀ i : Nat, i < (generateSumCombinations cage.cells.length cage.targetSum).length →
      A (next + (i : Int)) =
        ((generateSumCombinations cage.cells.length cage.targetSum)[i]?
          == some (cageSortedVals cage g))) :
    cnfSat A (encodeCageSum cage next).1 = true := by
  have hmem := cageSortedVals_mem hg hcv hnd hsum
  have hvals : ∀ cell ∈ cage.cells, g.get cell.row.toNat cell.col.toNat
      ∈ cageSortedVals cage g := by
    intro cell hc
    rw [cageSortedVals]
    exact (List.perm_insertionSort (· ≤ ·) _).mem_iff.2 (List.mem_map.2 ⟨cell, hc, rfl⟩)
  have hlit : ∀ cell ∈ cage.cells, ∀ val : Int, 1 ≤ val → val ≤ 9 →
      A (getVar cell.row cell.col val) = (g.get cell.row.toNat cell.col.toNat == val) := by
    intro cell hc val h1 h9
    obtain ⟨⟨e1, e2⟩, b1, b2⟩ := cell_coord (hcv cell hc)
    rw [← e1, ← e2]
    exact primCanon_getVar hAp b1 b2 h1 h9
  have hofval : ∀ val ∈ cageSortedVals cage g,
      ∃ cell ∈ cage.cells, g.get cell.row.toNat cell.col.toNat = val := by
    intro val hval
    have : val ∈ cage.cells.map fun cell => g.get cell.row.toNat cell.col.toNat := by
      rw [cageSortedVals] at hval
      exact (List.perm_insertionSort (· ≤ ·) _).mem_iff.1 hval
    rcases List.mem_map.1 this with ⟨cell, hc, heq⟩
    exact ⟨cell, hc, heq⟩
  have hsortedbnd := (mem_generateSumCombinations.1 hmem).2.2.2
  unfold encodeCageSum
  split
  · next heq =>
    rw [heq] at hmem
    cases hmem
  · next combo heq =>
    rw [heq] at hmem
    simp only [List.mem_singleton] at hmem
    subst hmem
    simp only
    rw [cnfSat_append, Bool.and_eq_true]
    constructor
    · rw [cnfSat_iff]
      intro cl hcl
      rcases List.mem_map.1 hcl with ⟨val, hval, rfl⟩
      rcases hofval val hval with ⟨cell, hc, hge⟩
      rw [clauseSat_iff]
      refine ⟨(getVar cell.row cell.col val, true), List.mem_map.2 ⟨cell, hc, rfl⟩, ?_⟩
      rw [litSat]
      simp only
      rcases hsortedbnd val hval with ⟨hv1, hv9⟩
      rw [hlit cell hc val hv1 hv9, hge]
      simp
    · rw [cnfSat_flatMap]
      intro val hval
      split
      · simp [cnfSat]
      · next hcont =>
        rw [cnfSat_iff]
        intro cl hcl
        rcases List.mem_map.1 hcl with ⟨cell, hc, rfl⟩
        rw [clauseSat_iff]
        refine ⟨(getVar cell.row cell.col val, false), by simp, ?_⟩
        rw [litSat]
        simp only
        rcases mem_valsList.1 hval with ⟨hv1, hv9⟩
        rw [hlit cell hc val hv1 hv9]
        have : g.get cell.row.toNat cell.col.toNat ≠ val := by
          intro hcontra
          exact hcont (List.elem_iff.2 (hcontra ▸ hvals cell hc))
        simp [this]
  · next hne1 hne2 =>
    simp only
    set combos := generateSumCombinations cage.cells.length cage.targetSum with hcombos
    have hlen2 : 2 ≤ combos.length := by
      rcases combos with - | ⟨x, - | ⟨y, t⟩⟩
      · exact absurd rfl hne1
      · exact absurd rfl (hne2 x)
      · simp
    rcases List.mem_iff_getElem.1 hmem with ⟨i0, hi0, hi0eq⟩
    have hauxval : ∀ j : Nat, (hj : j < combos.length) →
        A (next + (j : Int)) = (combos[j] == cageSortedVals cage g) := by
      intro j hj
      rw [haux hlen2 j hj, List.getElem?_eq_getElem hj]
      simp
    rw [cnfSat_append, cnfSat_append, Bool.and_eq_true, Bool.and_eq_true]
    refine ⟨⟨?_, ?_⟩, ?_⟩
    · rw [exactlyOne_sat_iff]
      constructor
      · refine ⟨(next + (i0 : Int), true), List.mem_map.2 ⟨next + (i0 : Int),
          List.mem_map.2 ⟨i0, List.mem_range.2 hi0, rfl⟩, rfl⟩, ?_⟩
        rw [litSat]
        simp only
        rw [hauxval i0 hi0, hi0eq]
        simp
      · rw [List.pairwise_map, List.pairwise_map]
        refine (List.nodup_range combos.length).imp_of_mem ?_
        intro a b ha hb hne ⟨h1, h2⟩
        rw [List.mem_range] at ha hb
        rw [litSat] at h1 h2
        simp only [beq_iff_eq] at h1 h2
        rw [hauxval a ha] at h1
        rw [hauxval b hb] at h2
        simp only [beq_iff_eq] at h1 h2
        exact hne ((generateSumCombinations_nodup _ _).getElem_inj_iff.1
          (h1.trans h2.symm))
    · rw [cnfSat_flatMap]
      intro pr hpr
      rcases List.mem_iff_getElem.1 hpr with ⟨j, hjz, hjeq⟩
      have hjlen : j < combos.length := by
        simp [List.length_zip] at hjz
        omega
      have hpreq : pr = (combos[j], next + (j : Int)) := by
        rw [← hjeq]
        rw [List.getElem_zip]
        congr 1
        simp
      subst hpreq
      rw [cnfSat_append, Bool.and_eq_true]
      by_cases hsel : combos[j] = cageSortedVals cage g
      · constructor
        · rw [cnfSat_iff]
          intro cl hcl
          rcases List.mem_map.1 hcl with ⟨val, hval, rfl⟩
          have hval' : val ∈ cageSortedVals cage g := hsel ▸ hval
          rcases hofval val hval' with ⟨cell, hc, hge⟩
          rw [clauseSat_iff]
          refine ⟨(getVar cell.row cell.col val, true),
            List.mem_cons_of_mem _ (List.mem_map.2 ⟨cell, hc, rfl⟩), ?_⟩
          rw [litSat]
          simp only
          rcases hsortedbnd val hval' with ⟨hv1, hv9⟩
          rw [hlit cell hc val hv1 hv9, hge]
          simp
        · rw [cnfSat_flatMap]
          intro val hval
          split
          · simp [cnfSat]
          · next hcont =>
            rw [cnfSat_iff]
            intro cl hcl
            rcases List.mem_map.1 hcl with ⟨cell, hc, rfl⟩
            rw [clauseSat_iff]
            refine ⟨(getVar cell.row cell.col val, false), by simp, ?_⟩
            rw [litSat]
            simp only
            rcases mem_valsList.1 hval with ⟨hv1, hv9⟩
            rw [hlit cell hc val hv1 hv9]
            have : g.get cell.row.toNat cell.col.toNat ≠ val := by
              intro hcontra
              have hvmem : val ∈ combos[j] := hsel ▸ (hcontra ▸ hvals cell hc)
              exact hcont (List.elem_iff.2 hvmem)
            simp [this]
      · have hfalse : A (next + (j : Int)) = false := by
          rw [hauxval j hjlen]
          simp [hsel]
        constructor
        · rw [cnfSat_iff]
          intro cl hcl
          rcases List.mem_map.1 hcl with ⟨val, hval, rfl⟩
          rw [clauseSat_iff]
          refine ⟨(next + (j : Int), false), by simp, ?_⟩
          rw [litSat, hfalse]
          rfl
        · rw [cnfSat_flatMap]
          intro val hval
          split
          · simp [cnfSat]
          · rw [cnfSat_iff]
            intro cl hcl
            rcases List.mem_map.1 hcl with ⟨cell, hc, rfl⟩
            rw [clauseSat_iff]
            refine ⟨(next + (j : Int), false), by simp, ?_⟩
            rw [litSat, hfalse]
            rfl
    · rw [cnfSat_flatMap]
      intro cell hc
      rw [cnfSat_flatMap]
      intro val hval
      rcases mem_valsList.1 hval with ⟨hv1, hv9⟩
      split
      · next hempty =>
        rw [cnfSat_iff]
        intro cl hcl
        simp only [List.mem_singleton] at hcl
        subst hcl
        rw [clauseSat_iff]
        refine ⟨(getVar cell.row cell.col val, false), by simp, ?_⟩
        rw [litSat]
        simp only
        rw [hlit cell hc val hv1 hv9]
        have : g.get cell.row.toNat cell.col.toNat ≠ val := by
          intro hcontra
          have hvmem : val ∈ combos[i0] := hi0eq ▸ (hcontra ▸ hvals cell hc)
          have : (next + (i0 : Int), true)
              ∈ (combos.zip ((List.range combos.length).map fun (j : Nat) =>
                next + (j : Int))).filterMap fun pr =>
                if pr.1.contains val then some (pr.2, true) else none := by
            rw [List.mem_filterMap]
            refine ⟨(combos[i0], next + (i0 : Int)), mem_zip_comboVars hi0, ?_⟩
            rw [if_pos (List.elem_iff.2 hvmem)]
          rw [List.isEmpty_iff] at hempty
          rw [hempty] at this
          cases this
        simp [this]
      · next hnonempty =>
        split
        · rw [cnfSat_iff]
          intro cl hcl
          simp only [List.mem_singleton] at hcl
          subst hcl
          rw [clauseSat_iff]
          by_cases hcell : g.get cell.row.toNat cell.col.toNat = val
          · have hvmem : val ∈ combos[i0] := hi0eq ▸ (hcell ▸ hvals cell hc)
            refine ⟨(next + (i0 : Int), true), List.mem_cons_of_mem _ ?_, ?_⟩
            · rw [List.mem_filterMap]
              refine ⟨(combos[i0], next + (i0 : Int)), mem_zip_comboVars hi0, ?_⟩
              rw [if_pos (List.elem_iff.2 hvmem)]
            · rw [litSat]
              simp only
              rw [hauxval i0 hi0, hi0eq]
              simp
          · refine ⟨(getVar cell.row cell.col val, false), by simp, ?_⟩
            rw [litSat]
            simp only
            rw [hlit cell hc val hv1 hv9]
            simp [hcell]
        · rfl

/-- The extended canonical assignment satisfies all cage clauses. -/
theorem encodeCageConstraints_sat {g : Grid} {cages : List Cage} {next : Int} {A : Assignment}
    (h729 : 729 ≤ next) (hAp : PrimCanon A g)
    (hg : ∀ r c : Nat, r < 9 → c < 9 → 1 ≤ g.get r c ∧ g.get r c ≤ 9)
    (hcage : ∀ cage ∈ cages, cage.isValid = true →
      (∀ cell ∈ cage.cells, cell.isValid = true) ∧
      (cage.cells.map fun cell => g.get cell.row.toNat cell.col.toNat).Nodup ∧
      (cage.cells.map fun cell => g.get cell.row.toNat cell.col.toNat).sum
        = cage.targetSum) :
    cnfSat (extendCages cages g next A) (encodeCageConstraints cages next).1 = true := by
  induction cages generalizing next A with
  | nil => rfl
  | cons cage rest ih =>
    rw [encodeCageConstraints, extendCages]
    by_cases hv : cage.isValid
    · rw [if_pos hv, if_pos hv]
      obtain ⟨hcv, hnd, hsum⟩ := hcage cage (by simp) hv
      have hmem := cageSortedVals_mem hg hcv hnd hsum
      show cnfSat _ ((encodeCageSum cage next).1 ++ encodeCageUniqueness cage
        ++ (encodeCageConstraints rest (encodeCageSum cage next).2).1) = true
      rcases hgc : generateSumCombinations cage.cells.length cage.targetSum with - | ⟨c0, cs⟩
      · rw [hgc] at hmem
        cases hmem
      · rcases cs with - | ⟨c1, cs2⟩
        · simp only [hgc]
          have h2 : (encodeCageSum cage next).2 = next := by
            unfold encodeCageSum
            rw [hgc]
          rw [h2]
          have hApf : PrimCanon (extendCages rest g next A) g :=
            extendCages_primCanon h729 hAp
          rw [cnfSat_append, cnfSat_append, Bool.and_eq_true, Bool.and_eq_true]
          refine ⟨⟨?_, ?_⟩, ?_⟩
          · refine encodeCageSum_sat hApf hg hcv hnd hsum ?_
            intro h
            rw [hgc] at h
            simp at h
          · exact encodeCageUniqueness_sat hApf hcv hnd
          · exact ih h729 hAp (fun c hc hcval => hcage c (List.mem_cons_of_mem _ hc) hcval)
        · simp only [hgc]
          have h2 : (encodeCageSum cage next).2 = next + ((c0 :: c1 :: cs2).length : Int) := by
            unfold encodeCageSum
            rw [hgc]
          rw [h2]
          have hA2p : PrimCanon (fun v =>
              if next ≤ v && v < next + ((c0 :: c1 :: cs2).length : Int) then
                (c0 :: c1 :: cs2)[(v - next).toNat]? == some (cageSortedVals cage g)
              else A v) g := by
            intro v h0 h7
            show (if next ≤ v && v < next + ((c0 :: c1 :: cs2).length : Int) then
                (((c0 :: c1 :: cs2)[(v - next).toNat]? == some (cageSortedVals cage g)) : Bool)
              else A v) = canonPrimary g v
            rw [if_neg (by rw [Bool.and_eq_true]; simp only [decide_eq_true_eq]; omega)]
            exact hAp v h0 h7
          have hApf : PrimCanon (extendCages rest g
              (next + ((c0 :: c1 :: cs2).length : Int)) (fun v =>
                if next ≤ v && v < next + ((c0 :: c1 :: cs2).length : Int) then
                  (c0 :: c1 :: cs2)[(v - next).toNat]? == some (cageSortedVals cage g)
                else A v)) g :=
            extendCages_primCanon (by omega) hA2p
          rw [cnfSat_append, cnfSat_append, Bool.and_eq_true, Bool.and_eq_true]
          refine ⟨⟨?_, ?_⟩, ?_⟩
          · refine encodeCageSum_sat hApf hg hcv hnd hsum ?_
            intro hlen i hi
            rw [hgc] at hi
            have hlt : next + (i : Int) < next + ((c0 :: c1 :: cs2).length : Int) := by
              simp only [List.length_cons] at hi ⊢
              omega
            rw [extendCages_lt hlt]
            show (if next ≤ next + (i : Int) &&
                next + (i : Int) < next + ((c0 :: c1 :: cs2).length : Int) then
                (((c0 :: c1 :: cs2)[((next + (i : Int)) - next).toNat]?
                  == some (cageSortedVals cage g)) : Bool)
              else A (next + (i : Int))) = _
            rw [if_pos (by simp only [Bool.and_eq_true, decide_eq_true_eq]; exact ⟨by omega, hlt⟩)]
            have hidx : ((next + (i : Int)) - next).toNat = i := by omega
            rw [hidx, hgc]
          · exact encodeCageUniqueness_sat hApf hcv hnd
          · exact ih (by omega) hA2p
              (fun c hc hcval => hcage c (List.mem_cons_of_mem _ hc) hcval)
    · rw [if_neg hv, if_neg hv]
      exact ih h729 hAp (fun c hc hcval => hcage c (List.mem_cons_of_mem _ hc) hcval)

theorem encodeInequalityConstraints_sat {A : Assignment} {g : Grid}
    {ineqs : List InequalityConstraint} (hAp : PrimCanon A g)
    (hiq : ∀ iq ∈ ineqs, iq.isValid = true →
      (match iq.type with
        | .GREATER_THAN => g.get iq.cell2.row.toNat iq.cell2.col.toNat
            < g.get iq.cell1.row.toNat iq.cell1.col.toNat
        | .LESS_THAN => g.get iq.cell1.row.toNat iq.cell1.col.toNat
            < g.get iq.cell2.row.toNat iq.cell2.col.toNat)) :
    cnfSat A (encodeInequalityConstraints ineqs) = true := by
  rw [encodeInequalityConstraints, cnfSat_flatMap]
  intro iq hmem
  split
  · next hval => exact encodeInequality_sat hAp hval (hiq iq hmem hval)
  · simp [cnfSat]


/-- The canonical assignment of a complete grid for a puzzle: canonical
primaries extended with the cage combination variables. -/
def canonAssign (p : SudokuPuzzle) (g : Grid) : Assignment :=
  extendCages p.cages g 729 (canonPrimary g)

theorem canonPrimary_primCanon (g : Grid) : PrimCanon (canonPrimary g) g :=
  fun _ _ _ => rfl

theorem canonAssign_primCanon (p : SudokuPuzzle) (g : Grid) :
    PrimCanon (canonAssign p g) g :=
  extendCages_primCanon le_rfl (canonPrimary_primCanon g)

/-- Completeness of the encoding: the canonical assignment of any grid meeting
all of the puzzle's encoded constraints satisfies the emitted CNF. -/
theorem canonAssign_satisfies {p : SudokuPuzzle} {g : Grid}
    (hbasic : SudokuSolver.verifyBasicConstraints g = true)
    (hgiven : ∀ r c : Nat, r < 9 → c < 9 → 1 ≤ p.grid.get r c → p.grid.get r c ≤ 9 →
      g.get r c = p.grid.get r c)
    (hcage : ∀ cage ∈ p.cages, cage.isValid = true →
      (∀ cell ∈ cage.cells, cell.isValid = true) ∧
      (cage.cells.map fun cell => g.get cell.row.toNat cell.col.toNat).Nodup ∧
      (cage.cells.map fun cell => g.get cell.row.toNat cell.col.toNat).sum
        = cage.targetSum)
    (hineq : ∀ iq ∈ p.inequalities, iq.isValid = true →
      (match iq.type with
        | .GREATER_THAN => g.get iq.cell2.row.toNat iq.cell2.col.toNat
            < g.get iq.cell1.row.toNat iq.cell1.col.toNat
        | .LESS_THAN => g.get iq.cell1.row.toNat iq.cell1.col.toNat
            < g.get iq.cell2.row.toNat iq.cell2.col.toNat)) :
    cnfSat (canonAssign p g) (encodePuzzle p).1 = true := by
  obtain ⟨hg, hrows, hcols, hboxes⟩ := verifyBasic_explode hbasic
  have hAp := canonAssign_primCanon p g
  show cnfSat _ ((cellClauses ++ rowClauses ++ colClauses ++ boxClauses ++ givenClauses p)
      ++ (if p.hasKillerConstraints then encodeCageConstraints p.cages 729
        else ([], 729)).1
      ++ (if p.hasInequalityConstraints then encodeInequalityConstraints p.inequalities
        else [])) = true
  have h1 := cellClauses_sat hAp hg
  have h2 := rowClauses_sat hAp hg hrows
  have h3 := colClauses_sat hAp hg hcols
  have h4 := boxClauses_sat hAp hg hboxes
  have h5 := givenClauses_sat hAp hgiven
  have h6 : cnfSat (canonAssign p g)
      (if p.hasKillerConstraints then encodeCageConstraints p.cages 729
        else ([], 729)).1 = true := by
    by_cases hk : p.hasKillerConstraints
    · rw [if_pos hk]
      exact encodeCageConstraints_sat le_rfl (canonPrimary_primCanon g) hg hcage
    · rw [if_neg hk]
      rfl
  have h7 : cnfSat (canonAssign p g)
      (if p.hasInequalityConstraints then encodeInequalityConstraints p.inequalities
        else []) = true := by
    by_cases hk : p.hasInequalityConstraints
    · rw [if_pos hk]
      exact encodeInequalityConstraints_sat hAp hineq
    · rw [if_neg hk]
      rfl
  simp only [cnfSat_append, h1, h2, h3, h4, h5, h6, h7, Bool.and_self]

theorem Grid.get_eq_getElem {g : Grid} {r c : Nat} (hr : r < g.length)
    (hc : c < (g[r]).length) : g.get r c = (g[r])[c] := by
  unfold Grid.get
  rw [List.getD_eq_getElem g [] hr, List.getD_eq_getElem _ 0 hc]

/-- A grid of the right shape whose cells agree with the decoder is the
decoded grid. -/
theorem decodeGrid_eq_of {A : Assignment} {g : Grid}
    (hshape : g.length = 9) (hrowlen : ∀ row ∈ g, row.length = 9)
    (hcells : ∀ r c : Nat, r < 9 → c < 9 → decodeCell A r c = g.get r c) :
    decodeGrid A = g := by
  apply List.ext_getElem
  · simp [decodeGrid, hshape]
  · intro r h1 h2
    have hr9 : r < 9 := by simpa [decodeGrid] using h1
    have hrowl : (g[r]).length = 9 := hrowlen _ (List.getElem_mem h2)
    apply List.ext_getElem
    · simp [decodeGrid, hrowl, hr9]
    · intro c hc1 hc2
      have hc2c := hc2
      rw [hrowl] at hc2c
      have hget : g.get r c = (g[r])[c] := Grid.get_eq_getElem h2 hc2
      simp only [decodeGrid, List.getElem_map, List.getElem_range]
      rw [hcells r c hr9 hc2c, hget]


/-- The canonical assignment of a well-shaped complete grid decodes back to it. -/
theorem decodeGrid_canonAssign {p : SudokuPuzzle} {g : Grid}
    (hshape : g.length = 9) (hrowlen : ∀ row ∈ g, row.length = 9)
    (hg : ∀ r c : Nat, r < 9 → c < 9 → 1 ≤ g.get r c ∧ g.get r c ≤ 9) :
    decodeGrid (canonAssign p g) = g :=
  decodeGrid_eq_of hshape hrowlen fun r c hr hc =>
    decodeCell_canon (canonAssign_primCanon p g) hr hc (hg r c hr hc).1 (hg r c hr hc).2

/-! ## From verifier acceptance back to satisfiability -/

theorem verifyGivens_explode {p : SudokuPuzzle} {g : Grid}
    (h : SudokuSolver.verifyGivenValues p g = true) :
    ∀ r c : Nat, r < 9 → c < 9 → 1 ≤ p.grid.get r c → p.grid.get r c ≤ 9 →
      g.get r c = p.grid.get r c := by
  rw [SudokuSolver.verifyGivenValues] at h
  simp only [List.all_eq_true, List.mem_range] at h
  intro r c hr hc h1 h9
  have := h r hr c hc
  rw [Bool.or_eq_true] at this
  rcases this with hbad | hgood
  · exfalso
    simp only [Bool.not_eq_eq_eq_not, Bool.not_true, Bool.and_eq_false_iff,
      decide_eq_false_iff_not] at hbad
    rcases hbad with hbad | hbad <;> omega
  · exact beq_iff_eq.1 hgood

theorem verifyCages_explode {p : SudokuPuzzle} {g : Grid}
    (h : SudokuSolver.verifyCageConstraints p g = true) :
    ∀ cage ∈ p.cages,
      (cage.cells.map fun cell => g.get cell.row.toNat cell.col.toNat).Nodup ∧
      (cage.cells.map fun cell => g.get cell.row.toNat cell.col.toNat).sum
        = cage.targetSum := by
  rw [SudokuSolver.verifyCageConstraints] at h
  simp only [List.all_eq_true] at h
  intro cage hmem
  have := h cage hmem
  rw [Bool.and_eq_true, allDistinct_iff_nodup] at this
  exact ⟨this.1, beq_iff_eq.1 this.2⟩

theorem verifyIneqs_explode {p : SudokuPuzzle} {g : Grid}
    (h : SudokuSolver.verifyInequalityConstraints p g = true) :
    ∀ iq ∈ p.inequalities,
      (match iq.type with
        | .GREATER_THAN => g.get iq.cell2.row.toNat iq.cell2.col.toNat
            < g.get iq.cell1.row.toNat iq.cell1.col.toNat
        | .LESS_THAN => g.get iq.cell1.row.toNat iq.cell1.col.toNat
            < g.get iq.cell2.row.toNat iq.cell2.col.toNat) := by
  rw [SudokuSolver.verifyInequalityConstraints] at h
  simp only [List.all_eq_true] at h
  intro iq hmem
  have := h iq hmem
  cases htype : iq.type with
  | GREATER_THAN =>
    rw [htype] at this
    simpa using this
  | LESS_THAN =>
    rw [htype] at this
    simpa using this

theorem verifySolution_explode {p : SudokuPuzzle} {g : Grid}
    (h : SudokuSolver.verifySolution p { grid := g, solved := true } = true) :
    SudokuSolver.verifyBasicConstraints g = true ∧
    SudokuSolver.verifyGivenValues p g = true ∧
    (p.cages ≠ [] → SudokuSolver.verifyCageConstraints p g = true) ∧
    (p.inequalities ≠ [] → SudokuSolver.verifyInequalityConstraints p g = true) := by
  rw [SudokuSolver.verifySolution] at h
  simp only [Bool.and_eq_true, Bool.or_eq_true, Bool.not_eq_true] at h
  obtain ⟨⟨⟨⟨-, hbasic⟩, hgiven⟩, hcage⟩, hineq⟩ := h
  refine ⟨hbasic, hgiven, ?_, ?_⟩
  · intro hne
    rcases hcage with hk | hk
    · exfalso
      simp [SudokuPuzzle.hasKillerConstraints, hne] at hk
    · exact hk
  · intro hne
    rcases hineq with hk | hk
    · exfalso
      simp [SudokuPuzzle.hasInequalityConstraints, hne] at hk
    · exact hk

/-- Completeness from verification: a grid the verifier accepts yields a model
of the encoding (the canonical assignment), provided the puzzle's constraints
are structurally valid (invalid ones the encoder would have skipped). -/
theorem verify_satisfies {p : SudokuPuzzle} {g : Grid}
    (hcages : ∀ cage ∈ p.cages, ∀ cell ∈ cage.cells, cell.isValid = true)
    (h : SudokuSolver.verifySolution p { grid := g, solved := true } = true) :
    cnfSat (canonAssign p g) (encodePuzzle p).1 = true := by
  obtain ⟨hbasic, hgiven, hcage, hineq⟩ := verifySolution_explode h
  refine canonAssign_satisfies hbasic (verifyGivens_explode hgiven) ?_ ?_
  · intro cage hmem hval
    have hne : p.cages ≠ [] := fun hnil => by rw [hnil] at hmem; exact (List.not_mem_nil cage) hmem
    obtain ⟨hnd, hsum⟩ := verifyCages_explode (hcage hne) cage hmem
    exact ⟨hcages cage hmem, hnd, hsum⟩
  · intro iq hmem hval
    have hne : p.inequalities ≠ [] := fun hnil => by rw [hnil] at hmem; exact (List.not_mem_nil iq) hmem
    exact verifyIneqs_explode (hineq hne) iq hmem

/-! ## Forced primary variables of fully-given puzzles -/

theorem sat_forces_given {A : Assignment} {p : SudokuPuzzle}
    (hA : cnfSat A (encodePuzzle p).1 = true) {r c : Nat} (hr : r < 9) (hc : c < 9)
    (h1 : 1 ≤ p.grid.get r c) (h9 : p.grid.get r c ≤ 9) :
    A (getVar r c (p.grid.get r c)) = true := by
  obtain ⟨-, -, -, -, hgiven, -, -⟩ := encode_parts hA
  have hclause := (cnfSat_iff.1 hgiven) _ (givenClause_mem hr hc h1 h9)
  rw [clauseSat_iff] at hclause
  rcases hclause with ⟨l, hl, hsat⟩
  simp only [List.mem_singleton] at hl
  subst hl
  simpa [litSat] using hsat

/-- A puzzle with all 81 cells given pins every primary variable of any model
to the canonical value pattern of its given grid. -/
theorem sat_forces_primCanon {A : Assignment} {p : SudokuPuzzle}
    (hA : cnfSat A (encodePuzzle p).1 = true)
    (hfull : ∀ r c : Nat, r < 9 → c < 9 → 1 ≤ p.grid.get r c ∧ p.grid.get r c ≤ 9) :
    PrimCanon A p.grid := by
  obtain ⟨hcell, -, -, -, -, -, -⟩ := encode_parts hA
  intro v h0 h7
  set r : Nat := (v / 81).toNat with hrdef
  set c : Nat := ((v % 81) / 9).toNat with hcdef
  set val : Int := v % 9 + 1 with hvaldef
  have hr : r < 9 := by omega
  have hc : c < 9 := by omega
  have hval1 : 1 ≤ val := by omega
  have hval9 : val ≤ 9 := by omega
  have hvar : getVar r c val = v := by
    unfold getVar
    have h1 : ((v / 81).toNat : Int) = v / 81 := Int.toNat_of_nonneg (by omega)
    have h2 : (((v % 81) / 9).toNat : Int) = (v % 81) / 9 := Int.toNat_of_nonneg (by omega)
    rw [hrdef, hcdef, h1, h2]
    omega
  have hcanon : canonPrimary p.grid v = (p.grid.get r c == val) := by
    rw [canonPrimary, if_pos (by simp only [Bool.and_eq_true, decide_eq_true_eq]; omega)]
  obtain ⟨hg1, hg9⟩ := hfull r c hr hc
  have hforced := sat_forces_given hA hr hc hg1 hg9
  rw [hcanon]
  by_cases heq : p.grid.get r c = val
  · rw [← hvar]
    rw [heq] at hforced
    simp [hforced, heq]
  · have hAv : A v = false := by
      by_contra hAt
      rw [Bool.not_eq_false] at hAt
      exact cellBlock_unique (cellBlock_of_sat hcell hr hc)
        (mem_valsList.2 ⟨hg1, hg9⟩) (mem_valsList.2 ⟨hval1, hval9⟩) heq hforced
        (by rw [hvar]; exact hAt)
    rw [hAv]
    have : (p.grid.get r c == val) = false := by simp [heq]
    rw [this]

/-! ## The blocking clause -/

theorem cnfSat_singleton {A : Assignment} {cl : Clause} :
    cnfSat A [cl] = clauseSat A cl := by
  simp [cnfSat]

theorem mem_blockingClause {g : Grid} {r c : Nat} (hr : r < 9) (hc : c < 9) :
    (getVar r c (g.get r c), false) ∈ blockingClause g := by
  simp only [blockingClause, List.mem_flatMap, List.mem_map, List.mem_range]
  exact ⟨r, hr, c, hc, rfl⟩

theorem blockingClause_mem {g : Grid} {l : Lit} (hl : l ∈ blockingClause g) :
    ∃ r c : Nat, r < 9 ∧ c < 9 ∧ l = (getVar r c (g.get r c), false) := by
  simp only [blockingClause, List.mem_flatMap, List.mem_map, List.mem_range] at hl
  rcases hl with ⟨r, hr, c, hc, hlit⟩
  exact ⟨r, c, hr, hc, hlit.symm⟩

/-! ## Helper facts about `solveWith` and concrete test puzzles -/

/-- The verifier only reads the `solved` flag and the grid of a solution. -/
theorem verifySolution_only_grid (p : SudokuPuzzle) {s t : SudokuSolution}
    (hg : s.grid = t.grid) (hs : s.solved = t.solved) :
    SudokuSolver.verifySolution p s = SudokuSolver.verifySolution p t := by
  rw [SudokuSolver.verifySolution, SudokuSolver.verifySolution, hg, hs]

/-- `solveWith` when the first solver call returns a model. -/
theorem solveWith_first {sat : SatSolver} {p : SudokuPuzzle} {A : Assignment} {t1 : Nat}
    (h : sat (encodePuzzle p).1 = (some A, t1)) (cu : Bool) :
    solveWith sat p cu =
      if cu then
        { grid := decodeGrid A, solved := true,
          solveTimeMs := t1 + (sat ((encodePuzzle p).1 ++ [blockingClause (decodeGrid A)])).2,
          isUnique := (sat ((encodePuzzle p).1 ++ [blockingClause (decodeGrid A)])).1.isNone }
      else { grid := decodeGrid A, solved := true, solveTimeMs := t1 } := by
  rw [solveWith, h]

/-- `solveWith` when the first solver call reports UNSAT. -/
theorem solveWith_none {sat : SatSolver} {p : SudokuPuzzle} {t : Nat}
    (h : sat (encodePuzzle p).1 = (none, t)) (cu : Bool) :
    solveWith sat p cu =
      { solved := false, errorMessage := "No solution exists for the given puzzle.",
        solveTimeMs := t } := by
  rw [solveWith, h]

theorem oracleFor_eq_some {A : Assignment} {f : Cnf} (h : cnfSat A f = true) :
    oracleFor A f = (some A, 0) := by
  rw [oracleFor, if_pos h]

theorem oracleFor_eq_none {A : Assignment} {f : Cnf} (h : cnfSat A f = false) :
    oracleFor A f = (none, 0) := by
  rw [oracleFor, if_neg (by simp [h])]

/-- For a fully-given puzzle, the encoding plus the blocking clause of the
given grid is unsatisfiable: every given's unit clause contradicts the
corresponding blocking literal. -/
theorem block_given_unsat {p : SudokuPuzzle} {B : Assignment}
    (hfull : ∀ r : Nat, r < 9 → ∀ c : Nat, c < 9 →
      1 ≤ p.grid.get r c ∧ p.grid.get r c ≤ 9) :
    cnfSat B ((encodePuzzle p).1 ++ [blockingClause p.grid]) = false := by
  by_contra hne
  rw [Bool.not_eq_false, cnfSat_append, Bool.and_eq_true, cnfSat_singleton] at hne
  obtain ⟨hf, hb⟩ := hne
  rw [clauseSat_iff] at hb
  obtain ⟨l, hl, hsat⟩ := hb
  obtain ⟨r, c, hr, hc, rfl⟩ := blockingClause_mem hl
  obtain ⟨h1, h9⟩ := hfull r hr c hc
  have hforced := sat_forces_given hf hr hc h1 h9
  rw [litSat, hforced] at hsat
  simp at hsat

/-- All cells of the demo grid are in `[1,9]`. -/
theorem demo_range : ∀ r : Nat, r < 9 → ∀ c : Nat, c < 9 →
    1 ≤ demoGrid.get r c ∧ demoGrid.get r c ≤ 9 := by decide

/-- The fully-given standard puzzle whose grid is `demoGrid`. -/
def pFull : SudokuPuzzle := { grid := demoGrid }

theorem pFull_sat : cnfSat (canonAssign pFull demoGrid) (encodePuzzle pFull).1 = true := by
  refine canonAssign_satisfies (by decide) (fun r c _ _ _ _ => rfl) ?_ ?_
  · intro cage hmem
    simp [pFull] at hmem
  · intro iq hmem
    simp [pFull] at hmem

theorem pFull_decode : decodeGrid (canonAssign pFull demoGrid) = demoGrid :=
  decodeGrid_canonAssign (by rfl) (by decide) (fun r c hr hc => demo_range r hr c hc)

/-- A puzzle with a structurally invalid cage: two cells, target sum `40`
(outside `[3, 17]`). The encoder skips it. -/
def pBadC1 : SudokuPuzzle :=
  { grid := demoGrid, type := .KILLER,
    cages := [{ cells := [{ row := 0, col := 0 }, { row := 0, col := 1 }], targetSum := 40 }] }

theorem pBadC1_sat : cnfSat (canonAssign pBadC1 demoGrid) (encodePuzzle pBadC1).1 = true := by
  refine canonAssign_satisfies (by decide) (fun r c _ _ _ _ => rfl) ?_ ?_
  · intro cage hmem hval
    simp only [pBadC1, List.mem_singleton] at hmem
    subst hmem
    exact absurd hval (by decide)
  · intro iq hmem
    simp [pBadC1] at hmem

theorem pBadC1_decode : decodeGrid (canonAssign pBadC1 demoGrid) = demoGrid :=
  decodeGrid_canonAssign (by rfl) (by decide) (fun r c hr hc => demo_range r hr c hc)

/-- A puzzle with a cage whose cell list is empty (the claim's first kind of
structural error). The encoder skips it. -/
def pBadC4 : SudokuPuzzle :=
  { grid := demoGrid, type := .KILLER, cages := [{ cells := [], targetSum := 5 }] }

theorem pBadC4_sat : cnfSat (canonAssign pBadC4 demoGrid) (encodePuzzle pBadC4).1 = true := by
  refine canonAssign_satisfies (by decide) (fun r c _ _ _ _ => rfl) ?_ ?_
  · intro cage hmem hval
    simp only [pBadC4, List.mem_singleton] at hmem
    subst hmem
    exact absurd hval (by decide)
  · intro iq hmem
    simp [pBadC4] at hmem

theorem pBadC4_decode : decodeGrid (canonAssign pBadC4 demoGrid) = demoGrid :=
  decodeGrid_canonAssign (by rfl) (by decide) (fun r c hr hc => demo_range r hr c hc)

/-! ## The encoder skips structurally invalid constraints -/

theorem encodeCageConstraints_filter (cages : List Cage) (next : Int) :
    encodeCageConstraints cages next
      = encodeCageConstraints (cages.filter fun cage => cage.isValid) next := by
  induction cages generalizing next with
  | nil => rfl
  | cons c rest ih =>
    by_cases hv : c.isValid = true
    · rw [List.filter_cons_of_pos hv]
      simp only [encodeCageConstraints]
      rw [if_pos hv, if_pos hv, ih]
    · rw [List.filter_cons_of_neg (by simp [hv])]
      simp only [encodeCageConstraints]
      rw [if_neg hv, ih]

theorem encodeInequalityConstraints_filter (ineqs : List InequalityConstraint) :
    encodeInequalityConstraints ineqs
      = encodeInequalityConstraints (ineqs.filter fun iq => iq.isValid) := by
  induction ineqs with
  | nil => rfl
  | cons iq rest ih =>
    simp only [encodeInequalityConstraints] at ih ⊢
    by_cases hv : iq.isValid = true
    · rw [List.filter_cons_of_pos hv, List.flatMap_cons, List.flatMap_cons, ih]
    · rw [List.filter_cons_of_neg (by simp [hv]), List.flatMap_cons, if_neg hv, ih]
      simp

theorem givenClauses_congr {p q : SudokuPuzzle} (h : p.grid = q.grid) :
    givenClauses p = givenClauses q := by
  rw [givenClauses, givenClauses, h]

/-- The puzzle with its structurally invalid cages and inequalities removed. -/
def filterValid (p : SudokuPuzzle) : SudokuPuzzle :=
  { p with
    cages := p.cages.filter (fun cage => cage.isValid)
    inequalities := p.inequalities.filter (fun iq => iq.isValid) }

theorem filterValid_cages (p : SudokuPuzzle) :
    (filterValid p).cages = p.cages.filter (fun cage => cage.isValid) := rfl

theorem filterValid_inequalities (p : SudokuPuzzle) :
    (filterValid p).inequalities = p.inequalities.filter (fun iq => iq.isValid) := rfl

theorem filterValid_grid (p : SudokuPuzzle) : (filterValid p).grid = p.grid := rfl

theorem encodePuzzle_filter (p : SudokuPuzzle) :
    encodePuzzle (filterValid p) = encodePuzzle p := by
  have h1 : (if (!(p.cages.filter (fun cage => cage.isValid)).isEmpty) = true then
        encodeCageConstraints (p.cages.filter fun cage => cage.isValid) 729
      else ([], 729))
      = (if (!p.cages.isEmpty) = true then encodeCageConstraints p.cages 729
      else ([], 729)) := by
    rcases hk : p.cages with - | ⟨c0, crest⟩
    · rfl
    · by_cases hf : (c0 :: crest).filter (fun cage => cage.isValid) = []
      · rw [hf]
        have h2 := encodeCageConstraints_filter (c0 :: crest) 729
        rw [hf] at h2
        simp only [List.isEmpty_nil, List.isEmpty_cons, Bool.not_true, Bool.not_false]
        rw [if_pos trivial, h2]
        rfl
      · have hne : ((c0 :: crest).filter (fun cage => cage.isValid)).isEmpty = false := by
          simpa [List.isEmpty_iff] using hf
        rw [hne]
        simp only [List.isEmpty_cons, Bool.not_false, Bool.not_true]
        rw [if_pos trivial, if_pos trivial, ← encodeCageConstraints_filter]
  have h2 : (if (!(p.inequalities.filter (fun iq => iq.isValid)).isEmpty) = true then
        encodeInequalityConstraints (p.inequalities.filter fun iq => iq.isValid)
      else [])
      = (if (!p.inequalities.isEmpty) = true then
        encodeInequalityConstraints p.inequalities else []) := by
    rcases hk : p.inequalities with - | ⟨i0, irest⟩
    · rfl
    · by_cases hf : (i0 :: irest).filter (fun iq => iq.isValid) = []
      · rw [hf]
        have h3 := encodeInequalityConstraints_filter (i0 :: irest)
        rw [hf] at h3
        simp only [List.isEmpty_nil, List.isEmpty_cons, Bool.not_true, Bool.not_false]
        rw [if_pos trivial, h3]
        rfl
      · have hne : ((i0 :: irest).filter (fun iq => iq.isValid)).isEmpty = false := by
          simpa [List.isEmpty_iff] using hf
        rw [hne]
        simp only [List.isEmpty_cons, Bool.not_false, Bool.not_true]
        rw [if_pos trivial, if_pos trivial, ← encodeInequalityConstraints_filter]
  have hg : givenClauses (filterValid p) = givenClauses p :=
    givenClauses_congr (filterValid_grid p)
  rw [encodePuzzle, encodePuzzle]
  simp only [SudokuPuzzle.hasKillerConstraints, SudokuPuzzle.hasInequalityConstraints,
    filterValid_cages, filterValid_inequalities, hg]
  rw [h1, h2]

theorem solveWith_congr {sat : SatSolver} {p q : SudokuPuzzle} (cu : Bool)
    (h : encodePuzzle p = encodePuzzle q) :
    solveWith sat p cu = solveWith sat q cu := by
  rw [solveWith, solveWith, h]

/-! ## Claim theorems -/

/-- C1 (amended): for every puzzle all of whose cages are structurally valid
with in-range cells and all of whose inequalities are valid, and every sound
SAT oracle, a result of `solve` with `solved = true` passes the verifier:
every cell of the decoded grid is in `[1,9]`, rows, columns, boxes, givens,
cages and inequalities all check out.  Without the validity hypotheses the
claim is false — the encoder skips structurally invalid constraints instead
of making the formula unsatisfiable (see `solve_sound_counterexample`). -/
theorem solve_sound_valid_constraints (sat : SatSolver) (p : SudokuPuzzle)
    (checkUniqueness : Bool)
    (hsound : ∀ f B, (sat f).1 = some B → cnfSat B f = true)
    (hcages : ∀ cage ∈ p.cages, cage.isValid = true ∧
      ∀ cell ∈ cage.cells, cell.isValid = true)
    (hineqs : ∀ iq ∈ p.inequalities, iq.isValid = true)
    (hsolved : (solveWith sat p checkUniqueness).solved = true) :
    SudokuSolver.verifySolution p (solveWith sat p checkUniqueness) = true := by
  rcases hcall : sat (encodePuzzle p).1 with ⟨o, t1⟩
  cases o with
  | none =>
    rw [solveWith_none hcall] at hsolved
    simp at hsolved
  | some A =>
    have hA : cnfSat A (encodePuzzle p).1 = true := hsound _ _ (by rw [hcall])
    have hver := decoded_verifies hA hcages hineqs
    rw [solveWith_first hcall]
    cases checkUniqueness
    · rw [if_neg (by simp)]
      exact (verifySolution_only_grid p rfl rfl).trans hver
    · rw [if_pos rfl]
      exact (verifySolution_only_grid p rfl rfl).trans hver

theorem solve_sound_valid_constraints_witness :
    SudokuSolver.verifySolution pFull
      (solveWith (oracleFor (canonAssign pFull demoGrid)) pFull false) = true :=
  solve_sound_valid_constraints _ pFull false (oracleFor_sound _)
    (by intro cage hmem; simp [pFull] at hmem)
    (by intro iq hmem; simp [pFull] at hmem)
    (by rw [solveWith_first (oracleFor_eq_some pFull_sat) false, if_neg (by simp)])

/-- C1 counterexample: the puzzle `pBadC1` carries a structurally invalid cage
(two cells, target sum 40).  Its encoding is genuinely satisfiable — the
canonical assignment of `demoGrid` is a model, so any complete SAT solver
reports `solved = true` — yet the verifier rejects the solution because the
cage sum is violated. -/
theorem solve_sound_counterexample :
    cnfSat (canonAssign pBadC1 demoGrid) (encodePuzzle pBadC1).1 = true ∧
    (solveWith (oracleFor (canonAssign pBadC1 demoGrid)) pBadC1 false).solved = true ∧
    SudokuSolver.verifySolution pBadC1
      (solveWith (oracleFor (canonAssign pBadC1 demoGrid)) pBadC1 false) = false := by
  refine ⟨pBadC1_sat, ?_, ?_⟩
  · rw [solveWith_first (oracleFor_eq_some pBadC1_sat) false, if_neg (by simp)]
  · rw [solveWith_first (oracleFor_eq_some pBadC1_sat) false, if_neg (by simp),
      verifySolution_only_grid pBadC1
        (s := { grid := decodeGrid (canonAssign pBadC1 demoGrid), solved := true, errorMessage := "", solveTimeMs := 0, isUnique := false })
        (t := { grid := demoGrid, solved := true })
        pBadC1_decode rfl]
    decide

/-- C2: with a sound solver oracle, `solve(p, true)` re-invokes the solver on
the same formula extended with exactly the blocking clause (per cell, the
negation of the decoded value's variable), reports `UNIQUE` exactly when that
second call returns no model, and — provided the second call is complete on
that formula and the puzzle's cage cells are in range — a `UNIQUE` report
means no verifier-accepted grid differs from the returned one at any in-range
cell (the auxiliary cage-combination variables cannot fabricate a spurious
second model, since any accepted grid extends to a model of the full
formula). -/
theorem solve_unique_no_other (sat : SatSolver) (p : SudokuPuzzle)
    {A : Assignment} {t1 : Nat}
    (hsound : ∀ f B, (sat f).1 = some B → cnfSat B f = true)
    (hfirst : sat (encodePuzzle p).1 = (some A, t1))
    (hcells : ∀ cage ∈ p.cages, ∀ cell ∈ cage.cells, cell.isValid = true)
    (hcomp2 : ∀ B : Assignment,
      cnfSat B ((encodePuzzle p).1 ++ [blockingClause (decodeGrid A)]) = true →
      (sat ((encodePuzzle p).1 ++ [blockingClause (decodeGrid A)])).1 ≠ none) :
    (solveWith sat p true).isUnique
      = ((sat ((encodePuzzle p).1 ++ [blockingClause (decodeGrid A)])).1).isNone ∧
    ((solveWith sat p true).isUnique = true →
      ¬ ∃ g' : Grid,
        SudokuSolver.verifySolution p { grid := g', solved := true } = true ∧
        ∃ r c : Nat, r < 9 ∧ c < 9 ∧
          g'.get r c ≠ (solveWith sat p true).grid.get r c) := by
  rw [solveWith_first hfirst true, if_pos rfl]
  refine ⟨rfl, ?_⟩
  rintro huniq ⟨g', hver, r, c, hr, hc, hne⟩
  have hA : cnfSat A (encodePuzzle p).1 = true := hsound _ _ (by rw [hfirst])
  have hcellsat : cnfSat A cellClauses = true := (encode_parts hA).1
  have hBsat : cnfSat (canonAssign p g') (encodePuzzle p).1 = true :=
    verify_satisfies hcells hver
  obtain ⟨hdv, -⟩ := decodeCell_spec (cellBlock_of_sat hcellsat hr hc)
  rcases mem_valsList.1 hdv with ⟨hd1, hd9⟩
  have hgval : (decodeGrid A).get r c = decodeCell A r c := decodeGrid_get hr hc
  have hne2 : g'.get r c ≠ decodeCell A r c := by rw [← hgval]; exact hne
  have hblit : litSat (canonAssign p g')
      (getVar r c ((decodeGrid A).get r c), false) = true := by
    rw [litSat, hgval]
    show (canonAssign p g' (getVar r c (decodeCell A r c)) == false) = true
    rw [primCanon_getVar (canonAssign_primCanon p g') hr hc hd1 hd9]
    simp [hne2]
  have hbsat : clauseSat (canonAssign p g') (blockingClause (decodeGrid A)) = true := by
    rw [clauseSat_iff]
    exact ⟨_, mem_blockingClause hr hc, hblit⟩
  have hall : cnfSat (canonAssign p g')
      ((encodePuzzle p).1 ++ [blockingClause (decodeGrid A)]) = true := by
    rw [cnfSat_append, hBsat, cnfSat_singleton, hbsat]
    rfl
  exact hcomp2 _ hall (Option.isNone_iff_eq_none.1 huniq)

theorem solve_unique_no_other_witness :
    (solveWith (oracleFor (canonAssign pFull demoGrid)) pFull true).isUnique
      = ((oracleFor (canonAssign pFull demoGrid)
          ((encodePuzzle pFull).1
            ++ [blockingClause (decodeGrid (canonAssign pFull demoGrid))])).1).isNone ∧
    ((solveWith (oracleFor (canonAssign pFull demoGrid)) pFull true).isUnique = true →
      ¬ ∃ g' : Grid,
        SudokuSolver.verifySolution pFull { grid := g', solved := true } = true ∧
        ∃ r c : Nat, r < 9 ∧ c < 9 ∧
          g'.get r c ≠ (solveWith (oracleFor (canonAssign pFull demoGrid))
            pFull true).grid.get r c) :=
  solve_unique_no_other (oracleFor (canonAssign pFull demoGrid)) pFull
    (oracleFor_sound _) (oracleFor_eq_some pFull_sat)
    (by intro cage hmem; simp [pFull] at hmem)
    (by
      intro B hB
      exfalso
      have hfalse := block_given_unsat (p := pFull) (B := B)
        (fun r hr c hc => demo_range r hr c hc)
      rw [show pFull.grid = demoGrid from rfl] at hfalse
      rw [pFull_decode] at hB
      rw [hB] at hfalse
      cases hfalse)

/-- C4 (amended): the encoder does not translate a structurally invalid cage
or inequality into an unsatisfiable formula — it skips it entirely.  The
emitted clause lists equal those of the constraint lists with the invalid
entries filtered out, and `solve` behaves identically on a puzzle and on its
filtered counterpart; consequently a puzzle with only invalid extra
constraints can come back `solved = true` with an empty error message
(see `solve_skips_invalid_counterexample`). -/
theorem solve_skips_invalid_constraints (cages : List Cage)
    (ineqs : List InequalityConstraint) (next : Int) (sat : SatSolver)
    (p : SudokuPuzzle) (cu : Bool) :
    encodeCageConstraints cages next
      = encodeCageConstraints (cages.filter fun cage => cage.isValid) next ∧
    encodeInequalityConstraints ineqs
      = encodeInequalityConstraints (ineqs.filter fun iq => iq.isValid) ∧
    solveWith sat (filterValid p) cu = solveWith sat p cu :=
  ⟨encodeCageConstraints_filter cages next,
   encodeInequalityConstraints_filter ineqs,
   solveWith_congr cu (encodePuzzle_filter p)⟩

/-- C4 counterexample: `pBadC4` has a cage with an empty cell list — one of
the claim's structural errors.  The encoding remains satisfiable (the
canonical assignment of `demoGrid` is a model), and `solve` reports
`solved = true` with an empty error message instead of the claimed
`solved = false` with a diagnostic. -/
theorem solve_skips_invalid_counterexample :
    cnfSat (canonAssign pBadC4 demoGrid) (encodePuzzle pBadC4).1 = true ∧
    (solveWith (oracleFor (canonAssign pBadC4 demoGrid)) pBadC4 false).solved = true ∧
    (solveWith (oracleFor (canonAssign pBadC4 demoGrid)) pBadC4 false).errorMessage
      = "" := by
  refine ⟨pBadC4_sat, ?_, ?_⟩
  · rw [solveWith_first (oracleFor_eq_some pBadC4_sat) false, if_neg (by simp)]
  · rw [solveWith_first (oracleFor_eq_some pBadC4_sat) false, if_neg (by simp)]

/-- C6: for every cage size and target sum, `generateSumCombinations n s`
returns exactly the strictly increasing tuples of values in `[1,9]` of length
`n` summing to `s`, each exactly once: the two pruning tests discard no valid
tuple and admit no invalid one. -/
theorem sum_combinations_characterization (n : Nat) (s : Int) :
    (∀ l : List Int, l ∈ generateSumCombinations n s ↔
      l.length = n ∧ l.sum = s ∧ l.Pairwise (· < ·) ∧ ∀ v ∈ l, 1 ≤ v ∧ v ≤ 9) ∧
    (generateSumCombinations n s).Nodup :=
  ⟨fun _ => mem_generateSumCombinations, generateSumCombinations_nodup n s⟩

theorem sum_combinations_characterization_witness :
    [2, 3] ∈ generateSumCombinations 2 5 :=
  ((sum_combinations_characterization 2 5).1 [2, 3]).2 (by decide)

/-- C9: when the first solve finds a model, the uniqueness re-solve changes
nothing about the reported solution except the uniqueness flag and the solve
time: the grid is the one decoded from the first model — identical to what
`solve(p, false)` returns — `solved` stays true, and the reported time is the
sum of both invocations' times. -/
theorem solve_uniqueness_frame (sat : SatSolver) (p : SudokuPuzzle)
    {A : Assignment} {t1 : Nat}
    (hfirst : sat (encodePuzzle p).1 = (some A, t1)) :
    (solveWith sat p true).grid = decodeGrid A ∧
    (solveWith sat p true).grid = (solveWith sat p false).grid ∧
    (solveWith sat p true).solved = true ∧
    (solveWith sat p true).solveTimeMs
      = t1 + (sat ((encodePuzzle p).1 ++ [blockingClause (decodeGrid A)])).2 := by
  rw [solveWith_first hfirst true, solveWith_first hfirst false,
    if_pos rfl, if_neg (by simp)]
  exact ⟨rfl, rfl, rfl, rfl⟩

theorem solve_uniqueness_frame_witness :
    (solveWith (oracleFor (canonAssign pFull demoGrid)) pFull true).grid
      = decodeGrid (canonAssign pFull demoGrid) ∧
    (solveWith (oracleFor (canonAssign pFull demoGrid)) pFull true).grid
      = (solveWith (oracleFor (canonAssign pFull demoGrid)) pFull false).grid ∧
    (solveWith (oracleFor (canonAssign pFull demoGrid)) pFull true).solved = true ∧
    (solveWith (oracleFor (canonAssign pFull demoGrid)) pFull true).solveTimeMs
      = 0 + (oracleFor (canonAssign pFull demoGrid)
          ((encodePuzzle pFull).1
            ++ [blockingClause (decodeGrid (canonAssign pFull demoGrid))])).2 :=
  solve_uniqueness_frame _ pFull (oracleFor_eq_some pFull_sat)

/-! ## The parser (SudokuParser.cpp), over `List Char` -/

namespace SudokuParser

/-- The whitespace set of `trim` (`" \t\r\n"`). -/
def isSpaceChar (c : Char) : Bool :=
  c == ' ' || c == '\t' || c == '\r' || c == '\n'

/-- `SudokuParser::trim`. -/
def trim (s : List Char) : List Char :=
  ((s.dropWhile isSpaceChar).reverse.dropWhile isSpaceChar).reverse

/-- `SudokuParser::splitLines`: split on newline, trim each line, drop empties. -/
def splitLines (input : List Char) : List (List Char) :=
  ((input.splitOn '\n').map trim).filter (fun l => !l.isEmpty)

/-- `SudokuParser::split`. -/
def split (s : List Char) (delim : Char) : List (List Char) :=
  ((s.splitOn delim).map trim).filter (fun l => !l.isEmpty)

def isDigitChar (c : Char) : Bool := '0' ≤ c && c ≤ '9'

/-- The digits `std::stoi` consumes and their value (`none` when there is no
digit, modelling the `std::invalid_argument` exception). -/
def digitsVal (l : List Char) : Option Nat :=
  let ds := l.takeWhile isDigitChar
  if ds.isEmpty then none
  else some (ds.foldl (fun acc c => acc * 10 + (c.toNat - 48)) 0)

/-- `std::stoi` on a trimmed token: optional sign, then a digit run (later
characters are ignored, as `stoi` stops at the first non-digit). -/
def stoi : List Char → Option Int
  | '-' :: rest => (digitsVal rest).map (fun n => -(n : Int))
  | '+' :: rest => (digitsVal rest).map (fun n => (n : Int))
  | s => (digitsVal s).map (fun n => (n : Int))

/-- One character step of `SudokuParser::parseLine`. -/
def parseLineGo (row : Nat) : List Char → Nat → Grid → Grid
  | [], _, g => g
  | c :: rest, col, g =>
    if 9 ≤ col then g
    else if c == '.' || c == '0' || c == '_' || c == '*' then
      parseLineGo row rest (col + 1) (g.set row col 0)
    else if '1' ≤ c && c ≤ '9' then
      parseLineGo row rest (col + 1) (g.set row col ((c.toNat : Int) - 48))
    else parseLineGo row rest col g

/-- `SudokuParser::parseLine`. -/
def parseLine (line : List Char) (row : Nat) (g : Grid) : Grid :=
  parseLineGo row line 0 g

/-- The characters `parseSimpleGrid` and the format sniffing count as grid
cells. -/
def validGridChar (c : Char) : Bool :=
  c == '.' || c == '0' || c == '_' || c == '*' || ('1' ≤ c && c ≤ '9')

/-- `SudokuParser::parseSimpleGrid`. -/
def parseSimpleGrid (s : List Char) : Option SudokuPuzzle :=
  let cleaned := s.filter validGridChar
  if cleaned.length < 81 then none
  else some { grid := (List.range 81).foldl (fun g i =>
    let c := cleaned.getD i ' '
    if '1' ≤ c && c ≤ '9' then Grid.set g (i / 9) (i % 9) ((c.toNat : Int) - 48)
    else Grid.set g (i / 9) (i % 9) 0) emptyGrid }

/-- The section state of `parseCustomFormat`. -/
inductive ParseSection where
  | NONE
  | GRID
  | CAGES
  | INEQUALITIES
deriving DecidableEq

/-- `::toupper` over a line. -/
def upperLine (l : List Char) : List Char := l.map Char.toUpper

/-- The cage cells read from the tail tokens of a `CAGES` line
(`stoi` pairs; a failure aborts the parse like the C++ exception). -/
def cellPairs : List (List Char) → Option (List Cell)
  | [] => some []
  | t1 :: t2 :: rest => do
    let r ← stoi t1
    let c ← stoi t2
    let cs ← cellPairs rest
    pure ({ row := r, col := c } :: cs)
  | _ => some []

/-- One `CAGES`-section line. -/
def parseCageLine (line : List Char) (p : SudokuPuzzle) : Option SudokuPuzzle :=
  let tokens := split line ' '
  if 3 ≤ tokens.length ∧ (tokens.length - 1) % 2 = 0 then do
    let sum ← stoi (tokens.headD [])
    let cells ← cellPairs tokens.tail
    pure (p.addCage { cells := cells, targetSum := sum })
  else some p

/-- One `INEQUALITIES`-section line (an unknown operator skips the line; the
four `stoi` calls happen first, as in the source). -/
def parseIneqLine (line : List Char) (p : SudokuPuzzle) : Option SudokuPuzzle :=
  let tokens := split line ' '
  if tokens.length = 5 then do
    let r1 ← stoi (tokens.getD 0 [])
    let c1 ← stoi (tokens.getD 1 [])
    let op := tokens.getD 2 []
    let r2 ← stoi (tokens.getD 3 [])
    let c2 ← stoi (tokens.getD 4 [])
    if op = ['>'] ∨ op = "gt".toList then
      pure (p.addInequality { cell1 := { row := r1, col := c1 }, cell2 := { row := r2, col := c2 }, type := .GREATER_THAN })
    else if op = ['<'] ∨ op = "lt".toList then
      pure (p.addInequality { cell1 := { row := r1, col := c1 }, cell2 := { row := r2, col := c2 }, type := .LESS_THAN })
    else pure p
  else some p

/-- The line loop of `SudokuParser::parseCustomFormat`. -/
def parseCustomGo : List (List Char) → ParseSection → Nat → SudokuPuzzle →
    Option SudokuPuzzle
  | [], _, _, p => some p
  | line :: rest, sec, gridRow, p =>
    let upper := upperLine line
    if upper = "GRID".toList then parseCustomGo rest .GRID 0 p
    else if upper = "CAGES".toList then parseCustomGo rest .CAGES gridRow p
    else if upper = "INEQUALITIES".toList then parseCustomGo rest .INEQUALITIES gridRow p
    else
      match sec with
      | .GRID =>
        if gridRow < 9 then
          parseCustomGo rest .GRID (gridRow + 1)
            { p with grid := parseLine line gridRow p.grid }
        else parseCustomGo rest .GRID gridRow p
      | .CAGES => do
        let q ← parseCageLine line p
        parseCustomGo rest .CAGES gridRow q
      | .INEQUALITIES => do
        let q ← parseIneqLine line p
        parseCustomGo rest .INEQUALITIES gridRow q
      | .NONE =>
        if 9 ≤ line.length ∧ 9 ≤ (line.filter validGridChar).length ∧ gridRow < 9 then
          parseCustomGo rest .GRID (gridRow + 1)
            { p with grid := parseLine line gridRow p.grid }
        else parseCustomGo rest .NONE gridRow p

/-- `SudokuParser::parseCustomFormat`. -/
def parseCustomFormat (input : List Char) : Option SudokuPuzzle :=
  parseCustomGo (splitLines input) .NONE 0 {}

/-- `SudokuParser::parseFromString` (format detection via substring search,
as `std::string::find`). -/
def parseFromString (input : List Char) : Option SudokuPuzzle :=
  let trimmed := trim input
  if ("GRID".toList <:+: trimmed) ∨ ("CAGES".toList <:+: trimmed)
      ∨ ("INEQUALITIES".toList <:+: trimmed) then
    parseCustomFormat input
  else if 81 ≤ (trimmed.filter validGridChar).length then
    parseSimpleGrid trimmed
  else parseCustomFormat input

end SudokuParser

/-! ## The serializer (`SudokuGenerator::toCustomFormat`) -/

/-- The decimal digit character of `n < 10`. -/
def digitChar (n : Nat) : Char := Char.ofNat (48 + n)

/-- Decimal printing, fuel-indexed so that it evaluates by kernel reduction
(the fuel is an upper bound on the number's digit count). -/
def natCharsAux : Nat → Nat → List Char
  | 0, _ => []
  | fuel + 1, n =>
    if n < 10 then [digitChar n]
    else natCharsAux fuel (n / 10) ++ [digitChar (n % 10)]

/-- Decimal printing of a nonnegative number (`operator<<` on `int`). -/
def natChars (n : Nat) : List Char := natCharsAux (n + 1) n

theorem natCharsAux_congr : ∀ fuel1 fuel2 n : Nat, n < fuel1 → n < fuel2 →
    natCharsAux fuel1 n = natCharsAux fuel2 n
  | fuel1 + 1, fuel2 + 1, n, h1, h2 => by
    rw [natCharsAux, natCharsAux]
    by_cases hn : n < 10
    · rw [if_pos hn, if_pos hn]
    · rw [if_neg hn, if_neg hn,
        natCharsAux_congr fuel1 fuel2 (n / 10) (by omega) (by omega)]

/-- The defining recurrence of `natChars`. -/
theorem natChars_eq (n : Nat) : natChars n =
    if n < 10 then [digitChar n] else natChars (n / 10) ++ [digitChar (n % 10)] := by
  rw [natChars, natCharsAux]
  by_cases hn : n < 10
  · rw [if_pos hn, if_pos hn]
  · rw [if_neg hn, if_neg hn, natChars,
      natCharsAux_congr n (n / 10 + 1) (n / 10) (by omega) (by omega)]

/-- Decimal printing of an `int` (`operator<<`). -/
def intChars (i : Int) : List Char :=
  if i < 0 then '-' :: natChars (-i).toNat else natChars i.toNat

/-- Space-separated concatenation (the `if (c > 0) oss << " "` pattern). -/
def joinSpace (tokens : List (List Char)) : List Char :=
  [' '].intercalate tokens

namespace SudokuGenerator

/-- The nine grid lines `toCustomFormat` writes. -/
def gridLines (g : Grid) : List Char :=
  (List.range 9).flatMap fun (r : Nat) =>
    joinSpace ((List.range 9).map fun (c : Nat) => intChars (g.get r c)) ++ ['\n']

/-- One `CAGES` line: the target sum, then each cell's row and column. -/
def cageLine (cage : Cage) : List Char :=
  intChars cage.targetSum
    ++ cage.cells.flatMap
      (fun cell => ' ' :: intChars cell.row ++ ' ' :: intChars cell.col)
    ++ ['\n']

/-- One `INEQUALITIES` line. -/
def ineqLine (iq : InequalityConstraint) : List Char :=
  intChars iq.cell1.row ++ ' ' :: intChars iq.cell1.col
    ++ ' ' :: (if iq.type = .GREATER_THAN then ['>'] else ['<'])
    ++ ' ' :: intChars iq.cell2.row ++ ' ' :: intChars iq.cell2.col ++ ['\n']

/-- `SudokuGenerator::toCustomFormat`. -/
def toCustomFormat (p : SudokuPuzzle) : List Char :=
  "GRID\n".toList ++ gridLines p.grid
    ++ (if p.cages.isEmpty then [] else
      "\nCAGES\n".toList ++ p.cages.flatMap cageLine)
    ++ (if p.inequalities.isEmpty then [] else
      "\nINEQUALITIES\n".toList ++ p.inequalities.flatMap ineqLine)

end SudokuGenerator

/-- The puzzle type determined by which constraint collections are nonempty
(the `addCage`/`addInequality` transition system starting from `STANDARD`). -/
def expectedType (cages : List Cage) (ineqs : List InequalityConstraint) : SudokuType :=
  if cages.isEmpty then
    (if ineqs.isEmpty then .STANDARD else .INEQUALITY)
  else
    (if ineqs.isEmpty then .KILLER else .KILLER_INEQUALITY)

/-! ## Round-trip: character and number lemmas -/

theorem digitChar_toNat {n : Nat} (h : n ≤ 9) : (digitChar n).toNat = 48 + n := by
  rw [digitChar]
  interval_cases n <;> rfl

theorem isDigitChar_digitChar {n : Nat} (h : n ≤ 9) :
    SudokuParser.isDigitChar (digitChar n) = true := by
  rw [digitChar]
  interval_cases n <;> rfl

theorem isDigitChar_toNat {c : Char} (h : SudokuParser.isDigitChar c = true) :
    48 ≤ c.toNat ∧ c.toNat ≤ 57 := by
  rw [SudokuParser.isDigitChar] at h
  simp only [Bool.and_eq_true, decide_eq_true_eq] at h
  obtain ⟨h1, h2⟩ := h
  rw [Char.le_def] at h1 h2
  exact ⟨h1, h2⟩

theorem toUpper_small {c : Char} (h : c.toNat < 97) : c.toUpper = c := by
  simp only [Char.toUpper]
  rw [if_neg (by omega)]

theorem natChars_ne_nil (n : Nat) : natChars n ≠ [] := by
  rw [natChars_eq]
  by_cases hn : n < 10
  · rw [if_pos hn]
    simp
  · rw [if_neg hn]
    simp

theorem natChars_all_digit (n : Nat) :
    ∀ c ∈ natChars n, SudokuParser.isDigitChar c = true := by
  induction n using Nat.strong_induction_on with
  | _ n ih =>
    rw [natChars_eq]
    by_cases hn : n < 10
    · rw [if_pos hn]
      intro c hc
      simp only [List.mem_singleton] at hc
      subst hc
      exact isDigitChar_digitChar (by omega)
    · rw [if_neg hn]
      intro c hc
      rcases List.mem_append.1 hc with hc | hc
      · exact ih (n / 10) (by omega) c hc
      · simp only [List.mem_singleton] at hc
        subst hc
        exact isDigitChar_digitChar (by omega)

theorem natChars_val (n : Nat) :
    (natChars n).foldl (fun acc c => acc * 10 + (c.toNat - 48)) 0 = n := by
  induction n using Nat.strong_induction_on with
  | _ n ih =>
    rw [natChars_eq]
    by_cases hn : n < 10
    · rw [if_pos hn]
      simp only [List.foldl_cons, List.foldl_nil]
      rw [digitChar_toNat (by omega)]
      omega
    · rw [if_neg hn, List.foldl_append]
      rw [ih (n / 10) (by omega)]
      simp only [List.foldl_cons, List.foldl_nil]
      rw [digitChar_toNat (by omega)]
      omega

theorem digitsVal_natChars (n : Nat) :
    SudokuParser.digitsVal (natChars n) = some n := by
  rw [SudokuParser.digitsVal]
  have htake : (natChars n).takeWhile SudokuParser.isDigitChar = natChars n :=
    List.takeWhile_eq_self_iff.2 (natChars_all_digit n)
  rw [htake]
  rw [if_neg (by simp [List.isEmpty_iff, natChars_ne_nil n])]
  rw [natChars_val]

theorem stoi_of_head_not_sign {c : Char} {rest : List Char}
    (h1 : c ≠ '-') (h2 : c ≠ '+') :
    SudokuParser.stoi (c :: rest)
      = (SudokuParser.digitsVal (c :: rest)).map (fun n => (n : Int)) := by
  rw [SudokuParser.stoi.eq_def]
  split
  · next heq =>
    rw [List.cons.injEq] at heq
    exact absurd heq.1 h1
  · next heq =>
    rw [List.cons.injEq] at heq
    exact absurd heq.1 h2
  · rfl

theorem stoi_natChars (n : Nat) :
    SudokuParser.stoi (natChars n) = some (n : Int) := by
  obtain ⟨c, rest, hcr⟩ : ∃ c rest, natChars n = c :: rest := by
    rcases hh : natChars n with - | ⟨c, rest⟩
    · exact absurd hh (natChars_ne_nil n)
    · exact ⟨c, rest, rfl⟩
  have hdig : SudokuParser.isDigitChar c = true :=
    natChars_all_digit n c (by rw [hcr]; simp)
  have h1 : c ≠ '-' := fun heq => by
    rw [heq] at hdig
    exact absurd hdig (by decide)
  have h2 : c ≠ '+' := fun heq => by
    rw [heq] at hdig
    exact absurd hdig (by decide)
  rw [hcr, stoi_of_head_not_sign h1 h2, ← hcr, digitsVal_natChars]
  rfl

theorem stoi_intChars (i : Int) : SudokuParser.stoi (intChars i) = some i := by
  rw [intChars]
  by_cases hi : i < 0
  · rw [if_pos hi]
    show (SudokuParser.digitsVal (natChars (-i).toNat)).map (fun n => -(n : Int)) = some i
    rw [digitsVal_natChars]
    show some (-(((-i).toNat : Nat) : Int)) = some i
    congr 1
    omega
  · rw [if_neg hi, stoi_natChars]
    congr 1
    omega

theorem intChars_ne_nil (i : Int) : intChars i ≠ [] := by
  rw [intChars]
  by_cases hi : i < 0
  · rw [if_pos hi]
    simp
  · rw [if_neg hi]
    exact natChars_ne_nil _

theorem intChars_chars {i : Int} :
    ∀ c ∈ intChars i, SudokuParser.isDigitChar c = true ∨ c = '-' := by
  rw [intChars]
  by_cases hi : i < 0
  · rw [if_pos hi]
    intro c hc
    rcases List.mem_cons.1 hc with rfl | hc
    · exact Or.inr rfl
    · exact Or.inl (natChars_all_digit _ c hc)
  · rw [if_neg hi]
    intro c hc
    exact Or.inl (natChars_all_digit _ c hc)

/-- Characters of a printed number are neither whitespace nor newline, and
differ from the section-header letters and the comparison operators. -/
theorem intChars_solid {i : Int} {c : Char} (hc : c ∈ intChars i) :
    SudokuParser.isSpaceChar c = false ∧ c ≠ '\n' ∧ c.toNat ≤ 57 := by
  rcases intChars_chars c hc with hdig | rfl
  · obtain ⟨hl, hr⟩ := isDigitChar_toNat hdig
    refine ⟨?_, ?_, by omega⟩
    · rw [SudokuParser.isSpaceChar]
      simp only [Bool.or_eq_false_iff, beq_eq_false_iff_ne]
      refine ⟨⟨⟨?_, ?_⟩, ?_⟩, ?_⟩ <;> intro heq <;> rw [heq] at hl <;> exact absurd hl (by decide)
    · intro heq
      rw [heq] at hl
      exact absurd hl (by decide)
  · exact ⟨by decide, by decide, by decide⟩

/-! ## Round-trip: trimming, joining and splitting -/

theorem dropWhile_eq_self_of_head {p : Char → Bool} {l : List Char}
    (h : ∀ c ∈ l.head?, p c = false) : l.dropWhile p = l := by
  cases l with
  | nil => rfl
  | cons c rest =>
    have hc := h c (by simp)
    rw [List.dropWhile_cons, if_neg (by simp [hc])]

theorem trim_eq_self {l : List Char}
    (h1 : ∀ c ∈ l.head?, SudokuParser.isSpaceChar c = false)
    (h2 : ∀ c ∈ l.getLast?, SudokuParser.isSpaceChar c = false) :
    SudokuParser.trim l = l := by
  rw [SudokuParser.trim, dropWhile_eq_self_of_head h1,
    dropWhile_eq_self_of_head (by rw [List.head?_reverse]; exact h2),
    List.reverse_reverse]

theorem joinSpace_cons (t : List Char) (ts : List (List Char)) :
    joinSpace (t :: ts) = t ++ ts.flatMap (fun s => ' ' :: s) := by
  induction ts generalizing t with
  | nil => simp [joinSpace, List.intercalate]
  | cons t2 ts2 ih =>
    have hstep : joinSpace (t :: t2 :: ts2) = t ++ [' '] ++ joinSpace (t2 :: ts2) := by
      simp [joinSpace, List.intercalate, List.intersperse]
    rw [hstep, ih t2, List.flatMap_cons]
    simp

theorem split_joinSpace {tokens : List (List Char)} (hne : tokens ≠ [])
    (htok : ∀ t ∈ tokens, t ≠ [] ∧ ∀ c ∈ t, SudokuParser.isSpaceChar c = false) :
    SudokuParser.split (joinSpace tokens) ' ' = tokens := by
  rw [SudokuParser.split, joinSpace]
  rw [List.splitOn_intercalate tokens ' '
    (fun l hl hmem => by
      have := (htok l hl).2 ' ' hmem
      exact absurd this (by decide)) hne]
  rw [List.map_congr_left (fun t ht => trim_eq_self
    (fun c hc => (htok t ht).2 c (List.mem_of_mem_head? hc))
    (fun c hc => (htok t ht).2 c (List.mem_of_mem_getLast? hc)))]
  rw [List.map_id']
  rw [List.filter_eq_self.2 (fun t ht => by
    have := (htok t ht).1
    simp [List.isEmpty_iff, this])]

/-- The serialized text as a newline-terminated line list. -/
def linesOf (ls : List (List Char)) : List Char :=
  ls.flatMap (fun l => l ++ ['\n'])

theorem linesOf_eq_intercalate (ls : List (List Char)) :
    linesOf ls = ['\n'].intercalate (ls ++ [[]]) := by
  induction ls with
  | nil => simp [linesOf, List.intercalate]
  | cons l rest ih =>
    rw [linesOf, List.flatMap_cons]
    have hstep : ['\n'].intercalate ((l :: rest) ++ [[]])
        = l ++ ['\n'] ++ ['\n'].intercalate (rest ++ [[]]) := by
      rcases rest with - | ⟨r0, rrest⟩
      · simp [List.intercalate, List.intersperse]
      · simp [List.intercalate, List.intersperse]
    rw [hstep, ← ih]
    simp [linesOf]

theorem splitLines_linesOf {ls : List (List Char)}
    (h : ∀ l ∈ ls, ('\n' ∉ l) ∧
      (∀ c ∈ l.head?, SudokuParser.isSpaceChar c = false) ∧
      (∀ c ∈ l.getLast?, SudokuParser.isSpaceChar c = false)) :
    SudokuParser.splitLines (linesOf ls) = ls.filter (fun l => !l.isEmpty) := by
  rw [SudokuParser.splitLines, linesOf_eq_intercalate]
  rw [List.splitOn_intercalate (ls ++ [[]]) '\n'
    (fun l hl hmem => by
      rcases List.mem_append.1 hl with hl | hl
      · exact (h l hl).1 hmem
      · simp only [List.mem_singleton] at hl
        subst hl
        simp at hmem) (by simp)]
  rw [List.map_congr_left (fun t ht => by
    rcases List.mem_append.1 ht with ht | ht
    · exact trim_eq_self (h t ht).2.1 (h t ht).2.2
    · simp only [List.mem_singleton] at ht
      subst ht
      rfl)]
  rw [List.map_id', List.filter_append]
  simp

/-! ## Round-trip: grid writes -/

theorem Grid.length_set (g : Grid) (r c : Nat) (v : Int) :
    (Grid.set g r c v).length = g.length := List.length_modify _ _ _

theorem Grid.shape_set {g : Grid} (hl : g.length = 9)
    (hr : ∀ row ∈ g, row.length = 9) (r c : Nat) (v : Int) :
    (Grid.set g r c v).length = 9 ∧ ∀ row ∈ Grid.set g r c v, row.length = 9 := by
  refine ⟨by rw [Grid.length_set, hl], ?_⟩
  intro row hrow
  rcases List.mem_iff_getElem?.1 hrow with ⟨j, hj⟩
  rw [Grid.set, List.getElem?_modify] at hj
  rcases hgj : g[j]? with - | row0
  · rw [hgj] at hj
    simp at hj
  · rw [hgj] at hj
    have hmem : row0 ∈ g := List.mem_iff_getElem?.2 ⟨j, hgj⟩
    have hj2 : (if r = j then row0.set c v else row0) = row := by simpa using hj
    by_cases hcase : r = j
    · rw [if_pos hcase] at hj2
      rw [← hj2, List.length_set]
      exact hr row0 hmem
    · rw [if_neg hcase] at hj2
      rw [← hj2]
      exact hr row0 hmem

theorem Grid.get_eq (g : Grid) (r c : Nat) :
    g.get r c = (g[r]?.getD [])[c]?.getD 0 := by
  rw [Grid.get, List.getD_eq_getElem?_getD, List.getD_eq_getElem?_getD]

theorem Grid.get_set_eq {g : Grid} {r c : Nat} {v : Int}
    (hrow : r < g.length) (hcol : c < (g.getD r []).length) :
    (Grid.set g r c v).get r c = v := by
  have hcol2 : c < (g[r]).length := by
    rw [List.getD_eq_getElem g [] hrow] at hcol
    exact hcol
  rw [Grid.get_eq, Grid.set, List.getElem?_modify, List.getElem?_eq_getElem hrow]
  simp [List.getElem?_set, hcol2]

theorem Grid.get_set_ne {g : Grid} {r c r' c' : Nat} {v : Int}
    (h : r ≠ r' ∨ c ≠ c') :
    (Grid.set g r c v).get r' c' = g.get r' c' := by
  rw [Grid.get_eq, Grid.get_eq, Grid.set, List.getElem?_modify]
  rcases hgj : g[r']? with - | row0
  · simp
  · by_cases hcase : r = r'
    · rcases h with h | h
      · exact absurd hcase h
      · simp [hcase, List.getElem?_set, h]
    · simp [hcase]

theorem Grid.row_len {g : Grid} (hl : g.length = 9)
    (hr : ∀ row ∈ g, row.length = 9) {r : Nat} (h : r < 9) :
    (g.getD r []).length = 9 := by
  have hrl : r < g.length := by omega
  rw [List.getD_eq_getElem g [] hrl]
  exact hr _ (List.getElem_mem hrl)

/-- Writing a run of values into one row, starting at a column. -/
def setRowVals : Grid → Nat → Nat → List Int → Grid
  | acc, _, _, [] => acc
  | acc, r, col, v :: rest => setRowVals (Grid.set acc r col v) r (col + 1) rest

theorem setRowVals_shape {acc : Grid} (hl : acc.length = 9)
    (hr : ∀ row ∈ acc, row.length = 9) (r col : Nat) (vs : List Int) :
    (setRowVals acc r col vs).length = 9 ∧
    ∀ row ∈ setRowVals acc r col vs, row.length = 9 := by
  induction vs generalizing acc col with
  | nil => exact ⟨hl, hr⟩
  | cons v rest ih =>
    rw [setRowVals]
    obtain ⟨h1, h2⟩ := Grid.shape_set hl hr r col v
    exact ih h1 h2 (col + 1)

theorem setRowVals_get_out {r : Nat} :
    ∀ (vs : List Int) (acc : Grid) (col : Nat) {rq cq : Nat},
      (cq < col ∨ rq ≠ r) →
      (setRowVals acc r col vs).get rq cq = acc.get rq cq := by
  intro vs
  induction vs with
  | nil => intro acc col rq cq h; rfl
  | cons v rest ih =>
    intro acc col rq cq h
    rw [setRowVals]
    rw [ih _ _ (by rcases h with h | h; exacts [Or.inl (by omega), Or.inr h])]
    apply Grid.get_set_ne
    rcases h with h | h
    · right
      omega
    · left
      exact fun heq => h heq.symm

theorem setRowVals_get_in {r : Nat} (hrow : r < 9) :
    ∀ (vs : List Int) (acc : Grid), acc.length = 9 → (∀ row ∈ acc, row.length = 9) →
    ∀ (col : Nat), col + vs.length ≤ 9 →
    ∀ i : Nat, i < vs.length →
      (setRowVals acc r col vs).get r (col + i) = vs.getD i 0 := by
  intro vs
  induction vs with
  | nil => intro acc _ _ col _ i hi; simp at hi
  | cons v rest ih =>
    intro acc hl hr col hcol i hi
    rw [setRowVals]
    cases i with
    | zero =>
      have hbound : col < 9 := by simp only [List.length_cons] at hcol; omega
      have hcb : col < (acc.getD r []).length := by
        rw [Grid.row_len hl hr hrow]
        omega
      rw [setRowVals_get_out _ _ _ (Or.inl (by omega))]
      show (Grid.set acc r col v).get r col = (v :: rest).getD 0 0
      rw [Grid.get_set_eq (by omega) hcb]
      rfl
    | succ j =>
      obtain ⟨h1, h2⟩ := Grid.shape_set hl hr r col v
      have hj := ih (Grid.set acc r col v) h1 h2 (col + 1)
        (by simp only [List.length_cons] at hcol; omega) j
        (by simp only [List.length_cons] at hi; omega)
      rw [show col + (j + 1) = (col + 1) + j by omega, hj]
      rfl

/-- A value in `[0, 9]` prints as a single digit character. -/
theorem intChars_single {v : Int} (h0 : 0 ≤ v) (h9 : v ≤ 9) :
    intChars v = [digitChar v.toNat] := by
  rw [intChars, if_neg (by omega), natChars, natCharsAux, if_pos (by omega)]

theorem parseLineGo_join {r : Nat} :
    ∀ vs : List Int, (∀ v ∈ vs, 0 ≤ v ∧ v ≤ 9) →
    ∀ col : Nat, col + vs.length ≤ 9 → ∀ acc : Grid,
      SudokuParser.parseLineGo r (joinSpace (vs.map fun v => intChars v)) col acc
        = setRowVals acc r col vs := by
  intro vs
  induction vs with
  | nil => intro hv col hcol acc; rfl
  | cons v rest ih =>
    intro hv col hcol acc
    obtain ⟨hv0, hv9⟩ := hv v (by simp)
    have hd : intChars v = [digitChar v.toNat] := intChars_single hv0 hv9
    have hdn : (digitChar v.toNat).toNat = 48 + v.toNat := digitChar_toNat (by omega)
    have hlen : col + (1 + rest.length) ≤ 9 := by
      simp only [List.length_cons] at hcol
      omega
    have htail : ∀ acc2 : Grid,
        SudokuParser.parseLineGo r ((rest.map fun v => intChars v).flatMap
          (fun s => ' ' :: s)) (col + 1) acc2 = setRowVals acc2 r (col + 1) rest := by
      intro acc2
      cases rest with
      | nil => rfl
      | cons v2 rest2 =>
        rw [List.map_cons, List.flatMap_cons, List.cons_append,
          SudokuParser.parseLineGo]
        rw [if_neg (by simp only [List.length_cons] at hlen; omega)]
        rw [if_neg (by decide), if_neg (by decide)]
        have hjoin : intChars v2 ++ (rest2.map fun v => intChars v).flatMap
            (fun s => ' ' :: s) = joinSpace ((v2 :: rest2).map fun v => intChars v) := by
          rw [List.map_cons, joinSpace_cons]
        rw [hjoin]
        exact ih (fun w hw => hv w (List.mem_cons_of_mem v hw)) (col + 1)
          (by simp only [List.length_cons] at hlen ⊢; omega) acc2
    rw [List.map_cons, hd, joinSpace_cons, List.singleton_append,
      SudokuParser.parseLineGo]
    rw [if_neg (by omega)]
    by_cases hz : v = 0
    · subst hz
      rw [if_pos (by decide)]
      rw [setRowVals]
      exact htail (Grid.set acc r col 0)
    · have hv1 : 1 ≤ v.toNat := by omega
      have hdot : (('.' : Char)).toNat = 46 := by decide
      have hzero : (('0' : Char)).toNat = 48 := by decide
      have hund : (('_' : Char)).toNat = 95 := by decide
      have hstar : (('*' : Char)).toNat = 42 := by decide
      rw [if_neg (by
        simp only [Bool.or_eq_true, beq_iff_eq]
        rintro (((heq | heq) | heq) | heq) <;>
          { have h2 := congrArg Char.toNat heq
            rw [hdn] at h2
            simp only [hdot, hzero, hund, hstar] at h2
            omega })]
      rw [if_pos (by
        simp only [Bool.and_eq_true, decide_eq_true_eq]
        constructor
        · rw [Char.le_def]
          show (49 : Nat) ≤ (digitChar v.toNat).toNat
          omega
        · rw [Char.le_def]
          show (digitChar v.toNat).toNat ≤ (57 : Nat)
          omega)]
      have harg : (((digitChar v.toNat).toNat : Nat) : Int) - 48 = v := by
        rw [hdn]
        omega
      rw [harg, setRowVals]
      exact htail (Grid.set acc r col v)

/-! ## Round-trip: structure of the serialized lines -/

theorem getLast?_cons_ne {c : Char} {l : List Char} (h : l ≠ []) :
    (c :: l).getLast? = l.getLast? := by
  rw [show c :: l = [c] ++ l from rfl, List.getLast?_append_of_ne_nil _ h]

theorem joinSpace_head {t : List Char} {ts : List (List Char)} (hne : t ≠ []) :
    (joinSpace (t :: ts)).head? = t.head? := by
  rw [joinSpace_cons]
  cases t with
  | nil => exact absurd rfl hne
  | cons c cs => rfl

theorem flatMap_space_eq {ts : List (List Char)} (hne : ts ≠ []) :
    ts.flatMap (fun s => ' ' :: s) = ' ' :: joinSpace ts := by
  cases ts with
  | nil => exact absurd rfl hne
  | cons t rest => rw [List.flatMap_cons, joinSpace_cons]; rfl

theorem joinSpace_ne_nil {t : List Char} {ts : List (List Char)} (hne : t ≠ []) :
    joinSpace (t :: ts) ≠ [] := by
  rw [joinSpace_cons]
  cases t with
  | nil => exact absurd rfl hne
  | cons c cs => simp

theorem joinSpace_getLast {ts : List (List Char)} (hne : ts ≠ [])
    (ht : ∀ t ∈ ts, t ≠ []) :
    ∃ t ∈ ts, (joinSpace ts).getLast? = t.getLast? := by
  induction ts with
  | nil => exact absurd rfl hne
  | cons t rest ih =>
    cases rest with
    | nil =>
      refine ⟨t, by simp, ?_⟩
      rw [joinSpace_cons]
      simp
    | cons t2 rest2 =>
      obtain ⟨w, hw, hlast⟩ := ih (by simp) (fun x hx => ht x (List.mem_cons_of_mem t hx))
      refine ⟨w, List.mem_cons_of_mem t hw, ?_⟩
      rw [joinSpace_cons, flatMap_space_eq (by simp),
        List.getLast?_append_of_ne_nil _ (by simp),
        getLast?_cons_ne (joinSpace_ne_nil (ht t2 (by simp)))]
      exact hlast

theorem joinSpace_mem {ts : List (List Char)} {c : Char} (h : c ∈ joinSpace ts) :
    c = ' ' ∨ ∃ t ∈ ts, c ∈ t := by
  cases ts with
  | nil => simp [joinSpace, List.intercalate] at h
  | cons t rest =>
    rw [joinSpace_cons, List.mem_append] at h
    rcases h with h | h
    · exact Or.inr ⟨t, by simp, h⟩
    · rw [List.mem_flatMap] at h
      obtain ⟨t2, ht2, hc⟩ := h
      rcases List.mem_cons.1 hc with rfl | hc
      · exact Or.inl rfl
      · exact Or.inr ⟨t2, List.mem_cons_of_mem t ht2, hc⟩

/-- Well-formed token lists: nonempty tokens of non-whitespace characters. -/
def tokensOk (ts : List (List Char)) : Prop :=
  ∀ t ∈ ts, t ≠ [] ∧ ∀ c ∈ t, SudokuParser.isSpaceChar c = false

theorem joinSpace_solid {ts : List (List Char)} (hne : ts ≠ []) (ht : tokensOk ts) :
    (∀ c ∈ (joinSpace ts).head?, SudokuParser.isSpaceChar c = false) ∧
    (∀ c ∈ (joinSpace ts).getLast?, SudokuParser.isSpaceChar c = false) ∧
    ('\n' ∉ joinSpace ts) := by
  refine ⟨?_, ?_, ?_⟩
  · intro c hc
    cases ts with
    | nil => exact absurd rfl hne
    | cons t rest =>
      rw [joinSpace_head (ht t (by simp)).1] at hc
      exact (ht t (by simp)).2 c (List.mem_of_mem_head? hc)
  · intro c hc
    obtain ⟨w, hw, hlast⟩ := joinSpace_getLast hne (fun t htm => (ht t htm).1)
    rw [hlast] at hc
    exact (ht w hw).2 c (List.mem_of_mem_getLast? hc)
  · intro hmem
    rcases joinSpace_mem hmem with heq | ⟨t, htm, hc⟩
    · exact absurd heq (by decide)
    · have := (ht t htm).2 _ hc
      exact absurd this (by decide)

/-- The tokens of one grid row. -/
def rowTokens (g : Grid) (r : Nat) : List (List Char) :=
  (List.range 9).map fun (c : Nat) => intChars (g.get r c)

/-- The tokens of one cage line. -/
def cageTokens (cage : Cage) : List (List Char) :=
  intChars cage.targetSum
    :: cage.cells.flatMap (fun cell => [intChars cell.row, intChars cell.col])

/-- The operator token of an inequality line. -/
def opToken (t : InequalityType) : List Char :=
  if t = .GREATER_THAN then ['>'] else ['<']

/-- The tokens of one inequality line. -/
def ineqTokens (iq : InequalityConstraint) : List (List Char) :=
  [intChars iq.cell1.row, intChars iq.cell1.col, opToken iq.type,
   intChars iq.cell2.row, intChars iq.cell2.col]

theorem intChars_tokenOk (i : Int) :
    intChars i ≠ [] ∧ ∀ c ∈ intChars i, SudokuParser.isSpaceChar c = false :=
  ⟨intChars_ne_nil i, fun c hc => (intChars_solid hc).1⟩

theorem rowTokens_ok (g : Grid) (r : Nat) : tokensOk (rowTokens g r) := by
  intro t ht
  rw [rowTokens] at ht
  rcases List.mem_map.1 ht with ⟨c, -, rfl⟩
  exact intChars_tokenOk _

theorem cageTokens_ok (cage : Cage) : tokensOk (cageTokens cage) := by
  intro t ht
  rw [cageTokens] at ht
  rcases List.mem_cons.1 ht with rfl | ht
  · exact intChars_tokenOk _
  · rcases List.mem_flatMap.1 ht with ⟨cell, -, hmem⟩
    simp only [List.mem_cons, List.not_mem_nil, or_false] at hmem
    rcases hmem with rfl | rfl <;> exact intChars_tokenOk _

theorem opToken_ok (t : InequalityType) :
    opToken t ≠ [] ∧ ∀ c ∈ opToken t, SudokuParser.isSpaceChar c = false := by
  cases t <;> exact ⟨by decide, by decide⟩

theorem ineqTokens_ok (iq : InequalityConstraint) : tokensOk (ineqTokens iq) := by
  intro t ht
  rw [ineqTokens] at ht
  simp only [List.mem_cons, List.not_mem_nil, or_false] at ht
  rcases ht with rfl | rfl | rfl | rfl | rfl
  · exact intChars_tokenOk _
  · exact intChars_tokenOk _
  · exact opToken_ok _
  · exact intChars_tokenOk _
  · exact intChars_tokenOk _

theorem cageLine_eq (cage : Cage) :
    SudokuGenerator.cageLine cage = joinSpace (cageTokens cage) ++ ['\n'] := by
  rw [SudokuGenerator.cageLine, cageTokens, joinSpace_cons, List.flatMap_assoc]
  simp [List.flatMap_cons]

theorem ineqLine_eq (iq : InequalityConstraint) :
    SudokuGenerator.ineqLine iq = joinSpace (ineqTokens iq) ++ ['\n'] := by
  rw [SudokuGenerator.ineqLine, ineqTokens, opToken]
  have hjs : ∀ a b cc d e : List Char, joinSpace [a, b, cc, d, e]
      = a ++ ' ' :: (b ++ ' ' :: (cc ++ ' ' :: (d ++ ' ' :: e))) := by
    intro a b cc d e
    rw [joinSpace_cons]
    simp
  rw [hjs]
  simp [List.append_assoc]

/-- The serialized text as a line list (blank separator lines included). -/
def serialLines (p : SudokuPuzzle) : List (List Char) :=
  ["GRID".toList] ++ ((List.range 9).map fun (r : Nat) => joinSpace (rowTokens p.grid r))
    ++ (if p.cages.isEmpty then [] else
      [[], "CAGES".toList] ++ p.cages.map (fun cage => joinSpace (cageTokens cage)))
    ++ (if p.inequalities.isEmpty then [] else
      [[], "INEQUALITIES".toList] ++ p.inequalities.map (fun iq => joinSpace (ineqTokens iq)))

theorem linesOf_append (a b : List (List Char)) :
    linesOf (a ++ b) = linesOf a ++ linesOf b := List.flatMap_append a b _

theorem toCustomFormat_eq (p : SudokuPuzzle) :
    SudokuGenerator.toCustomFormat p = linesOf (serialLines p) := by
  have hgrid : linesOf ["GRID".toList] = "GRID\n".toList := by decide
  have hrows : linesOf ((List.range 9).map fun (r : Nat) => joinSpace (rowTokens p.grid r))
      = SudokuGenerator.gridLines p.grid := by
    rw [linesOf, List.flatMap_map]
    rfl
  have hcages : linesOf (p.cages.map fun cage => joinSpace (cageTokens cage))
      = p.cages.flatMap SudokuGenerator.cageLine := by
    rw [linesOf, List.flatMap_map,
      show (fun cage => joinSpace (cageTokens cage) ++ ['\n'])
        = SudokuGenerator.cageLine from funext fun cage => (cageLine_eq cage).symm]
  have hineqs : linesOf (p.inequalities.map fun iq => joinSpace (ineqTokens iq))
      = p.inequalities.flatMap SudokuGenerator.ineqLine := by
    rw [linesOf, List.flatMap_map,
      show (fun iq => joinSpace (ineqTokens iq) ++ ['\n'])
        = SudokuGenerator.ineqLine from funext fun iq => (ineqLine_eq iq).symm]
  have hcagehdr : linesOf [([] : List Char), "CAGES".toList] = "\nCAGES\n".toList := by
    decide
  have hineqhdr : linesOf [([] : List Char), "INEQUALITIES".toList]
      = "\nINEQUALITIES\n".toList := by decide
  rw [SudokuGenerator.toCustomFormat, serialLines,
    linesOf_append, linesOf_append, linesOf_append, hgrid, hrows]
  by_cases hc : p.cages.isEmpty <;> by_cases hi : p.inequalities.isEmpty
  · rw [if_pos hc, if_pos hc, if_pos hi, if_pos hi]
    rfl
  · rw [if_pos hc, if_pos hc, if_neg hi, if_neg hi, linesOf_append, hineqhdr, hineqs]
    rfl
  · rw [if_neg hc, if_neg hc, if_pos hi, if_pos hi, linesOf_append, hcagehdr, hcages]
    rfl
  · rw [if_neg hc, if_neg hc, if_neg hi, if_neg hi,
      linesOf_append, linesOf_append, hcagehdr, hcages, hineqhdr, hineqs]

theorem serialLines_conds (p : SudokuPuzzle) :
    ∀ l ∈ serialLines p, ('\n' ∉ l) ∧
      (∀ c ∈ l.head?, SudokuParser.isSpaceChar c = false) ∧
      (∀ c ∈ l.getLast?, SudokuParser.isSpaceChar c = false) := by
  intro l hl
  rw [serialLines] at hl
  simp only [List.mem_append] at hl
  rcases hl with ((hl | hl) | hl) | hl
  · simp only [List.mem_singleton] at hl
    subst hl
    exact ⟨by decide, by decide, by decide⟩
  · rcases List.mem_map.1 hl with ⟨r, -, rfl⟩
    obtain ⟨h1, h2, h3⟩ := joinSpace_solid (by rw [rowTokens]; simp) (rowTokens_ok p.grid r)
    exact ⟨h3, h1, h2⟩
  · by_cases hc : p.cages.isEmpty
    · rw [if_pos hc] at hl
      simp at hl
    · rw [if_neg hc] at hl
      rcases List.mem_append.1 hl with hl | hl
      · simp only [List.mem_cons, List.not_mem_nil, or_false] at hl
        rcases hl with rfl | rfl
        · exact ⟨by decide, by simp, by simp⟩
        · exact ⟨by decide, by decide, by decide⟩
      · rcases List.mem_map.1 hl with ⟨cage, -, rfl⟩
        obtain ⟨h1, h2, h3⟩ := joinSpace_solid (by rw [cageTokens]; simp)
          (cageTokens_ok cage)
        exact ⟨h3, h1, h2⟩
  · by_cases hi : p.inequalities.isEmpty
    · rw [if_pos hi] at hl
      simp at hl
    · rw [if_neg hi] at hl
      rcases List.mem_append.1 hl with hl | hl
      · simp only [List.mem_cons, List.not_mem_nil, or_false] at hl
        rcases hl with rfl | rfl
        · exact ⟨by decide, by simp, by simp⟩
        · exact ⟨by decide, by decide, by decide⟩
      · rcases List.mem_map.1 hl with ⟨iq, -, rfl⟩
        obtain ⟨h1, h2, h3⟩ := joinSpace_solid (by rw [ineqTokens]; simp)
          (ineqTokens_ok iq)
        exact ⟨h3, h1, h2⟩

theorem splitLines_serial (p : SudokuPuzzle) :
    SudokuParser.splitLines (SudokuGenerator.toCustomFormat p)
      = ["GRID".toList]
        ++ ((List.range 9).map fun (r : Nat) => joinSpace (rowTokens p.grid r))
        ++ (if p.cages.isEmpty then [] else
          "CAGES".toList :: p.cages.map (fun cage => joinSpace (cageTokens cage)))
        ++ (if p.inequalities.isEmpty then [] else
          "INEQUALITIES".toList
            :: p.inequalities.map (fun iq => joinSpace (ineqTokens iq))) := by
  rw [toCustomFormat_eq, splitLines_linesOf (serialLines_conds p), serialLines]
  rw [List.filter_append, List.filter_append, List.filter_append]
  have hrowsne : ∀ r : Nat, joinSpace (rowTokens p.grid r) ≠ [] := by
    intro r
    show joinSpace ((List.range 9).map fun (c : Nat) => intChars (p.grid.get r c)) ≠ []
    rw [show List.range 9 = 0 :: [1, 2, 3, 4, 5, 6, 7, 8] from by decide, List.map_cons]
    exact joinSpace_ne_nil (intChars_ne_nil _)
  have h1 : List.filter (fun l => !l.isEmpty) [("GRID".toList : List Char)]
      = ["GRID".toList] := by decide
  have h2 : List.filter (fun l => !l.isEmpty)
      ((List.range 9).map fun (r : Nat) => joinSpace (rowTokens p.grid r))
      = (List.range 9).map fun (r : Nat) => joinSpace (rowTokens p.grid r) := by
    apply List.filter_eq_self.2
    intro l hl
    rcases List.mem_map.1 hl with ⟨r, -, rfl⟩
    simp [List.isEmpty_iff, hrowsne r]
  have hcne : ∀ cage : Cage, joinSpace (cageTokens cage) ≠ [] := by
    intro cage
    rw [cageTokens]
    exact joinSpace_ne_nil (intChars_ne_nil cage.targetSum)
  have hine : ∀ iq : InequalityConstraint, joinSpace (ineqTokens iq) ≠ [] := by
    intro iq
    rw [ineqTokens]
    exact joinSpace_ne_nil (intChars_ne_nil iq.cell1.row)
  have h3 : List.filter (fun l => !l.isEmpty)
      (if p.cages.isEmpty then ([] : List (List Char)) else
        [[], "CAGES".toList] ++ p.cages.map (fun cage => joinSpace (cageTokens cage)))
      = (if p.cages.isEmpty then [] else
        "CAGES".toList :: p.cages.map (fun cage => joinSpace (cageTokens cage))) := by
    by_cases hcp : p.cages.isEmpty
    · rw [if_pos hcp, if_pos hcp]
      rfl
    · rw [if_neg hcp, if_neg hcp, List.filter_append]
      have hh : List.filter (fun l => !l.isEmpty) [([] : List Char), "CAGES".toList]
          = ["CAGES".toList] := by decide
      have hmm : List.filter (fun l => !l.isEmpty)
          (p.cages.map (fun cage => joinSpace (cageTokens cage)))
          = p.cages.map (fun cage => joinSpace (cageTokens cage)) := by
        apply List.filter_eq_self.2
        intro l hl
        rcases List.mem_map.1 hl with ⟨cage, -, rfl⟩
        simp [List.isEmpty_iff, hcne cage]
      rw [hh, hmm]
      rfl
  have h4 : List.filter (fun l => !l.isEmpty)
      (if p.inequalities.isEmpty then ([] : List (List Char)) else
        [[], "INEQUALITIES".toList]
          ++ p.inequalities.map (fun iq => joinSpace (ineqTokens iq)))
      = (if p.inequalities.isEmpty then [] else
        "INEQUALITIES".toList
          :: p.inequalities.map (fun iq => joinSpace (ineqTokens iq))) := by
    by_cases hip : p.inequalities.isEmpty
    · rw [if_pos hip, if_pos hip]
      rfl
    · rw [if_neg hip, if_neg hip, List.filter_append]
      have hh : List.filter (fun l => !l.isEmpty) [([] : List Char), "INEQUALITIES".toList]
          = ["INEQUALITIES".toList] := by decide
      have hmm : List.filter (fun l => !l.isEmpty)
          (p.inequalities.map (fun iq => joinSpace (ineqTokens iq)))
          = p.inequalities.map (fun iq => joinSpace (ineqTokens iq)) := by
        apply List.filter_eq_self.2
        intro l hl
        rcases List.mem_map.1 hl with ⟨iq, -, rfl⟩
        simp [List.isEmpty_iff, hine iq]
      rw [hh, hmm]
      rfl
  rw [h1, h2, h3, h4]

/-! ## Round-trip: the parser walk -/

theorem upperLine_not_header {c : Char} {rest : List Char} (hc : c.toNat ≤ 57) :
    SudokuParser.upperLine (c :: rest) ≠ "GRID".toList ∧
    SudokuParser.upperLine (c :: rest) ≠ "CAGES".toList ∧
    SudokuParser.upperLine (c :: rest) ≠ "INEQUALITIES".toList := by
  have hupper : Char.toUpper c = c := toUpper_small (by omega)
  rw [SudokuParser.upperLine, List.map_cons, hupper]
  refine ⟨?_, ?_, ?_⟩ <;> intro heq <;>
    { have hch := congrArg List.head? heq
      simp at hch
      rw [hch] at hc
      exact absurd hc (by decide) }

theorem joinSpace_int_head (x : Int) (ts : List (List Char)) :
    ∃ c rest, joinSpace (intChars x :: ts) = c :: rest ∧ c.toNat ≤ 57 := by
  rcases hx : intChars x with - | ⟨c, cs⟩
  · exact absurd hx (intChars_ne_nil x)
  · refine ⟨c, cs ++ ts.flatMap (fun s => ' ' :: s), ?_, ?_⟩
    · rw [joinSpace_cons, List.cons_append]
    · have hmem : c ∈ intChars x := by rw [hx]; simp
      exact (intChars_solid hmem).2.2

theorem parseCustomGo_header_grid (rest : List (List Char)) (sec : SudokuParser.ParseSection)
    (gridRow : Nat) (p : SudokuPuzzle) :
    SudokuParser.parseCustomGo ("GRID".toList :: rest) sec gridRow p
      = SudokuParser.parseCustomGo rest .GRID 0 p := by
  simp only [SudokuParser.parseCustomGo]
  rw [if_pos (by decide)]

theorem parseCustomGo_header_cages (rest : List (List Char)) (sec : SudokuParser.ParseSection)
    (gridRow : Nat) (p : SudokuPuzzle) :
    SudokuParser.parseCustomGo ("CAGES".toList :: rest) sec gridRow p
      = SudokuParser.parseCustomGo rest .CAGES gridRow p := by
  simp only [SudokuParser.parseCustomGo]
  rw [if_neg (by decide), if_pos (by decide)]

theorem parseCustomGo_header_ineqs (rest : List (List Char)) (sec : SudokuParser.ParseSection)
    (gridRow : Nat) (p : SudokuPuzzle) :
    SudokuParser.parseCustomGo ("INEQUALITIES".toList :: rest) sec gridRow p
      = SudokuParser.parseCustomGo rest .INEQUALITIES gridRow p := by
  simp only [SudokuParser.parseCustomGo]
  rw [if_neg (by decide), if_neg (by decide), if_pos (by decide)]

theorem parseCustomGo_grid_step {line : List Char} {rest : List (List Char)}
    {gridRow : Nat} {p : SudokuPuzzle}
    (h1 : SudokuParser.upperLine line ≠ "GRID".toList)
    (h2 : SudokuParser.upperLine line ≠ "CAGES".toList)
    (h3 : SudokuParser.upperLine line ≠ "INEQUALITIES".toList)
    (hrow : gridRow < 9) :
    SudokuParser.parseCustomGo (line :: rest) .GRID gridRow p
      = SudokuParser.parseCustomGo rest .GRID (gridRow + 1)
          { p with grid := SudokuParser.parseLine line gridRow p.grid } := by
  simp only [SudokuParser.parseCustomGo]
  rw [if_neg h1, if_neg h2, if_neg h3, if_pos hrow]

theorem parseCustomGo_cages_step {line : List Char} {rest : List (List Char)}
    {gridRow : Nat} {p q : SudokuPuzzle}
    (h1 : SudokuParser.upperLine line ≠ "GRID".toList)
    (h2 : SudokuParser.upperLine line ≠ "CAGES".toList)
    (h3 : SudokuParser.upperLine line ≠ "INEQUALITIES".toList)
    (hq : SudokuParser.parseCageLine line p = some q) :
    SudokuParser.parseCustomGo (line :: rest) .CAGES gridRow p
      = SudokuParser.parseCustomGo rest .CAGES gridRow q := by
  simp only [SudokuParser.parseCustomGo]
  rw [if_neg h1, if_neg h2, if_neg h3]
  show (SudokuParser.parseCageLine line p).bind
    (fun q2 => SudokuParser.parseCustomGo rest .CAGES gridRow q2) = _
  rw [hq]
  rfl

theorem parseCustomGo_ineqs_step {line : List Char} {rest : List (List Char)}
    {gridRow : Nat} {p q : SudokuPuzzle}
    (h1 : SudokuParser.upperLine line ≠ "GRID".toList)
    (h2 : SudokuParser.upperLine line ≠ "CAGES".toList)
    (h3 : SudokuParser.upperLine line ≠ "INEQUALITIES".toList)
    (hq : SudokuParser.parseIneqLine line p = some q) :
    SudokuParser.parseCustomGo (line :: rest) .INEQUALITIES gridRow p
      = SudokuParser.parseCustomGo rest .INEQUALITIES gridRow q := by
  simp only [SudokuParser.parseCustomGo]
  rw [if_neg h1, if_neg h2, if_neg h3]
  show (SudokuParser.parseIneqLine line p).bind
    (fun q2 => SudokuParser.parseCustomGo rest .INEQUALITIES gridRow q2) = _
  rw [hq]
  rfl

theorem Grid.ext9 {g1 g2 : Grid} (h1 : g1.length = 9) (h2 : ∀ row ∈ g1, row.length = 9)
    (h3 : g2.length = 9) (h4 : ∀ row ∈ g2, row.length = 9)
    (h : ∀ r : Nat, r < 9 → ∀ c : Nat, c < 9 → g1.get r c = g2.get r c) : g1 = g2 := by
  apply List.ext_getElem (by omega)
  intro r hr1 hr2
  have hrow1 : (g1[r]).length = 9 := h2 _ (List.getElem_mem hr1)
  have hrow2 : (g2[r]).length = 9 := h4 _ (List.getElem_mem hr2)
  apply List.ext_getElem (by omega)
  intro c hc1 hc2
  have hget1 : g1.get r c = (g1[r])[c] := Grid.get_eq_getElem hr1 hc1
  have hget2 : g2.get r c = (g2[r])[c] := Grid.get_eq_getElem hr2 hc2
  rw [← hget1, ← hget2]
  exact h r (by omega) c (by omega)

theorem rowTokens_cons (g : Grid) (k : Nat) :
    rowTokens g k = intChars (g.get k 0)
      :: ([1, 2, 3, 4, 5, 6, 7, 8].map fun (c : Nat) => intChars (g.get k c)) := by
  rw [rowTokens, show List.range 9 = 0 :: [1, 2, 3, 4, 5, 6, 7, 8] from by decide,
    List.map_cons]

theorem parseLine_row {g acc : Grid} {r : Nat}
    (hv : ∀ c : Nat, c < 9 → 0 ≤ g.get r c ∧ g.get r c ≤ 9) :
    SudokuParser.parseLine (joinSpace (rowTokens g r)) r acc
      = setRowVals acc r 0 ((List.range 9).map fun c => g.get r c) := by
  rw [SudokuParser.parseLine, rowTokens]
  have hmm : ((List.range 9).map (fun c => g.get r c)).map (fun v => intChars v)
      = (List.range 9).map fun (c : Nat) => intChars (g.get r c) := by
    rw [List.map_map]
    rfl
  rw [← hmm]
  exact parseLineGo_join ((List.range 9).map fun c => g.get r c)
    (fun v hvm => by
      rcases List.mem_map.1 hvm with ⟨c, hc, rfl⟩
      exact hv c (List.mem_range.1 hc)) 0 (by simp) acc

/-- Writing each listed row of `g` into an accumulator grid. -/
def writeRows (g : Grid) (ks : List Nat) (acc : Grid) : Grid :=
  ks.foldl (fun a k => setRowVals a k 0 ((List.range 9).map fun c => g.get k c)) acc

theorem writeRows_shape {g : Grid} :
    ∀ (ks : List Nat) (acc : Grid), acc.length = 9 → (∀ row ∈ acc, row.length = 9) →
    (writeRows g ks acc).length = 9 ∧ ∀ row ∈ writeRows g ks acc, row.length = 9 := by
  intro ks
  induction ks with
  | nil => intro acc hl hr; exact ⟨hl, hr⟩
  | cons k rest ih =>
    intro acc hl hr
    rw [writeRows, List.foldl_cons]
    obtain ⟨h1, h2⟩ := setRowVals_shape hl hr k 0 _
    exact ih _ h1 h2

theorem writeRows_get {g : Grid} :
    ∀ (ks : List Nat) (acc : Grid), acc.length = 9 → (∀ row ∈ acc, row.length = 9) →
    ∀ r : Nat, r < 9 → ∀ c : Nat, c < 9 →
      (writeRows g ks acc).get r c = if r ∈ ks then g.get r c else acc.get r c := by
  intro ks
  induction ks with
  | nil => intro acc _ _ r _ c _; simp [writeRows]
  | cons k rest ih =>
    intro acc hl hr r hr9 c hc9
    rw [writeRows, List.foldl_cons]
    obtain ⟨h1, h2⟩ := setRowVals_shape hl hr k 0
      ((List.range 9).map fun c2 => g.get k c2)
    rw [show List.foldl (fun a k2 => setRowVals a k2 0
      ((List.range 9).map fun c2 => g.get k2 c2))
      (setRowVals acc k 0 ((List.range 9).map fun c2 => g.get k c2)) rest
      = writeRows g rest (setRowVals acc k 0
        ((List.range 9).map fun c2 => g.get k c2)) from rfl]
    rw [ih _ h1 h2 r hr9 c hc9]
    by_cases hmem : r ∈ rest
    · rw [if_pos hmem, if_pos (List.mem_cons_of_mem k hmem)]
    · rw [if_neg hmem]
      by_cases hrk : r = k
      · subst hrk
        rw [if_pos (by simp)]
        have hget := setRowVals_get_in (r := r) hr9
          ((List.range 9).map fun c2 => g.get r c2) acc hl hr 0 (by simp) c (by simp [hc9])
        rw [Nat.zero_add] at hget
        rw [hget]
        simp [List.getD_eq_getElem?_getD, List.getElem?_map, List.getElem?_range, hc9]
      · rw [setRowVals_get_out _ _ _ (Or.inr hrk)]
        rw [if_neg (by simp [hrk, hmem])]

theorem parseCustomGo_rows {g : Grid}
    (hval : ∀ r : Nat, r < 9 → ∀ c : Nat, c < 9 → 0 ≤ g.get r c ∧ g.get r c ≤ 9) :
    ∀ n k : Nat, k + n = 9 →
    ∀ (more : List (List Char)) (q : SudokuPuzzle),
      SudokuParser.parseCustomGo
        (((List.range' k n).map fun r => joinSpace (rowTokens g r)) ++ more)
        .GRID k q
      = SudokuParser.parseCustomGo more .GRID 9
          { q with grid := writeRows g (List.range' k n) q.grid } := by
  intro n
  induction n with
  | zero =>
    intro k hk more q
    rw [show k = 9 from by omega]
    rfl
  | succ m ih =>
    intro k hk more q
    rw [List.range'_succ, List.map_cons, List.cons_append]
    have hline := joinSpace_int_head (g.get k 0)
      ([1, 2, 3, 4, 5, 6, 7, 8].map fun (c : Nat) => intChars (g.get k c))
    rw [← rowTokens_cons] at hline
    obtain ⟨c0, rest0, hline, hc0⟩ := hline
    obtain ⟨hh1, hh2, hh3⟩ := @upperLine_not_header _ rest0 hc0
    rw [← hline] at hh1 hh2 hh3
    rw [parseCustomGo_grid_step hh1 hh2 hh3 (by omega)]
    rw [parseLine_row (fun c hc => hval k (by omega) c hc)]
    rw [ih (k + 1) (by omega) more _]
    rfl

theorem parseCageLine_tokens {cage : Cage} (hne : cage.cells ≠ []) (q : SudokuPuzzle) :
    SudokuParser.parseCageLine (joinSpace (cageTokens cage)) q
      = some (q.addCage cage) := by
  have htk : SudokuParser.split (joinSpace (cageTokens cage)) ' ' = cageTokens cage :=
    split_joinSpace (by rw [cageTokens]; simp) (cageTokens_ok cage)
  have hlen : (cage.cells.flatMap
      (fun cell => [intChars cell.row, intChars cell.col])).length
      = 2 * cage.cells.length := by
    induction cage.cells with
    | nil => rfl
    | cons cell rest ih =>
      rw [List.flatMap_cons, List.length_append, ih]
      simp only [List.length_cons, List.length_nil]
      omega
  have hpairs : ∀ cells : List Cell,
      SudokuParser.cellPairs (cells.flatMap fun cell =>
        [intChars cell.row, intChars cell.col]) = some cells := by
    intro cells
    induction cells with
    | nil => rfl
    | cons cell rest ih =>
      rw [List.flatMap_cons, List.cons_append, List.singleton_append,
        SudokuParser.cellPairs]
      rw [stoi_intChars, stoi_intChars, ih]
      rfl
  simp only [SudokuParser.parseCageLine]
  rw [htk]
  rw [if_pos (by
    rw [cageTokens]
    simp only [List.length_cons, hlen]
    constructor
    · have h0 : cage.cells.length ≠ 0 := fun h0 => hne (List.length_eq_zero.1 h0)
      omega
    · omega)]
  rw [show (cageTokens cage).headD [] = intChars cage.targetSum from by rw [cageTokens]; rfl]
  rw [show (cageTokens cage).tail = cage.cells.flatMap
    (fun cell => [intChars cell.row, intChars cell.col]) from by rw [cageTokens]; rfl]
  rw [stoi_intChars, hpairs]
  rfl

theorem parseIneqLine_tokens (iq : InequalityConstraint) (q : SudokuPuzzle) :
    SudokuParser.parseIneqLine (joinSpace (ineqTokens iq)) q
      = some (q.addInequality iq) := by
  have htk : SudokuParser.split (joinSpace (ineqTokens iq)) ' ' = ineqTokens iq :=
    split_joinSpace (by rw [ineqTokens]; simp) (ineqTokens_ok iq)
  simp only [SudokuParser.parseIneqLine]
  rw [htk]
  rw [if_pos (by rw [ineqTokens]; rfl)]
  rw [show (ineqTokens iq).getD 0 [] = intChars iq.cell1.row from by rw [ineqTokens]; rfl]
  rw [show (ineqTokens iq).getD 1 [] = intChars iq.cell1.col from by rw [ineqTokens]; rfl]
  rw [show (ineqTokens iq).getD 2 [] = opToken iq.type from by rw [ineqTokens]; rfl]
  rw [show (ineqTokens iq).getD 3 [] = intChars iq.cell2.row from by rw [ineqTokens]; rfl]
  rw [show (ineqTokens iq).getD 4 [] = intChars iq.cell2.col from by rw [ineqTokens]; rfl]
  rw [stoi_intChars, stoi_intChars, stoi_intChars, stoi_intChars]
  cases htype : iq.type with
  | GREATER_THAN =>
    have hiq : ({ cell1 := { row := iq.cell1.row, col := iq.cell1.col }, cell2 := { row := iq.cell2.row, col := iq.cell2.col }, type := InequalityType.GREATER_THAN } : InequalityConstraint) = iq := by
      rw [← htype]
    show (if opToken InequalityType.GREATER_THAN = ['>'] ∨ opToken InequalityType.GREATER_THAN = "gt".toList then (pure (q.addInequality { cell1 := { row := iq.cell1.row, col := iq.cell1.col }, cell2 := { row := iq.cell2.row, col := iq.cell2.col }, type := InequalityType.GREATER_THAN }) : Option SudokuPuzzle) else if opToken InequalityType.GREATER_THAN = ['<'] ∨ opToken InequalityType.GREATER_THAN = "lt".toList then pure (q.addInequality { cell1 := { row := iq.cell1.row, col := iq.cell1.col }, cell2 := { row := iq.cell2.row, col := iq.cell2.col }, type := InequalityType.LESS_THAN }) else pure q) = some (q.addInequality iq)
    rw [if_pos (Or.inl (show opToken InequalityType.GREATER_THAN = ['>'] from by decide))]
    rw [hiq]
    rfl
  | LESS_THAN =>
    have hiq : ({ cell1 := { row := iq.cell1.row, col := iq.cell1.col }, cell2 := { row := iq.cell2.row, col := iq.cell2.col }, type := InequalityType.LESS_THAN } : InequalityConstraint) = iq := by
      rw [← htype]
    show (if opToken InequalityType.LESS_THAN = ['>'] ∨ opToken InequalityType.LESS_THAN = "gt".toList then (pure (q.addInequality { cell1 := { row := iq.cell1.row, col := iq.cell1.col }, cell2 := { row := iq.cell2.row, col := iq.cell2.col }, type := InequalityType.GREATER_THAN }) : Option SudokuPuzzle) else if opToken InequalityType.LESS_THAN = ['<'] ∨ opToken InequalityType.LESS_THAN = "lt".toList then pure (q.addInequality { cell1 := { row := iq.cell1.row, col := iq.cell1.col }, cell2 := { row := iq.cell2.row, col := iq.cell2.col }, type := InequalityType.LESS_THAN }) else pure q) = some (q.addInequality iq)
    rw [if_neg (show ¬(opToken InequalityType.LESS_THAN = ['>'] ∨ opToken InequalityType.LESS_THAN = "gt".toList) from by decide)]
    rw [if_pos (Or.inl (show opToken InequalityType.LESS_THAN = ['<'] from by decide))]
    rw [hiq]
    rfl

/-! ## Round-trip: constraint folds and final assembly -/

/-- The `addCage` type transition. -/
def cageTrans : SudokuType → SudokuType
  | .STANDARD => .KILLER
  | .INEQUALITY => .KILLER_INEQUALITY
  | t => t

/-- The `addInequality` type transition. -/
def ineqTrans : SudokuType → SudokuType
  | .STANDARD => .INEQUALITY
  | .KILLER => .KILLER_INEQUALITY
  | t => t

theorem cageTrans_idem (t : SudokuType) : cageTrans (cageTrans t) = cageTrans t := by
  cases t <;> rfl

theorem ineqTrans_idem (t : SudokuType) : ineqTrans (ineqTrans t) = ineqTrans t := by
  cases t <;> rfl

theorem addCage_eq (q : SudokuPuzzle) (c : Cage) :
    q.addCage c = { grid := q.grid, type := cageTrans q.type, cages := q.cages ++ [c], inequalities := q.inequalities } := by
  rw [SudokuPuzzle.addCage]
  cases htype : q.type <;> rfl

theorem addInequality_eq (q : SudokuPuzzle) (iq : InequalityConstraint) :
    q.addInequality iq = { grid := q.grid, type := ineqTrans q.type, cages := q.cages, inequalities := q.inequalities ++ [iq] } := by
  rw [SudokuPuzzle.addInequality]
  cases htype : q.type <;> rfl

theorem foldl_addCage : ∀ (cages : List Cage) (q : SudokuPuzzle),
    cages.foldl SudokuPuzzle.addCage q
      = { grid := q.grid, type := (if cages.isEmpty then q.type else cageTrans q.type), cages := q.cages ++ cages, inequalities := q.inequalities } := by
  intro cages
  induction cages with
  | nil => intro q; simp
  | cons c rest ih =>
    intro q
    rw [List.foldl_cons, ih (q.addCage c), addCage_eq]
    rcases hrest : rest with - | ⟨c2, rest2⟩
    · simp
    · simp [cageTrans_idem]

theorem foldl_addInequality : ∀ (ineqs : List InequalityConstraint) (q : SudokuPuzzle),
    ineqs.foldl SudokuPuzzle.addInequality q
      = { grid := q.grid, type := (if ineqs.isEmpty then q.type else ineqTrans q.type), cages := q.cages, inequalities := q.inequalities ++ ineqs } := by
  intro ineqs
  induction ineqs with
  | nil => intro q; simp
  | cons iq rest ih =>
    intro q
    rw [List.foldl_cons, ih (q.addInequality iq), addInequality_eq]
    rcases hrest : rest with - | ⟨i2, rest2⟩
    · simp
    · simp [ineqTrans_idem]

theorem parseCustomGo_cages_fold :
    ∀ (cages : List Cage), (∀ cage ∈ cages, cage.cells ≠ []) →
    ∀ (more : List (List Char)) (gridRow : Nat) (q : SudokuPuzzle),
      SudokuParser.parseCustomGo
        ((cages.map fun cage => joinSpace (cageTokens cage)) ++ more)
        .CAGES gridRow q
      = SudokuParser.parseCustomGo more .CAGES gridRow
          (cages.foldl SudokuPuzzle.addCage q) := by
  intro cages
  induction cages with
  | nil => intro _ more gridRow q; rfl
  | cons cage rest ih =>
    intro hne more gridRow q
    rw [List.map_cons, List.cons_append]
    obtain ⟨c0, rest0, hline, hc0⟩ :=
      joinSpace_int_head cage.targetSum
        (cage.cells.flatMap fun cell => [intChars cell.row, intChars cell.col])
    rw [show (intChars cage.targetSum
      :: cage.cells.flatMap fun cell => [intChars cell.row, intChars cell.col])
      = cageTokens cage from rfl] at hline
    obtain ⟨hh1, hh2, hh3⟩ := @upperLine_not_header _ rest0 hc0
    rw [← hline] at hh1 hh2 hh3
    rw [parseCustomGo_cages_step hh1 hh2 hh3
      (parseCageLine_tokens (hne cage (by simp)) q)]
    rw [ih (fun x hx => hne x (List.mem_cons_of_mem cage hx)) more gridRow]
    rw [List.foldl_cons]

theorem parseCustomGo_ineqs_fold :
    ∀ (ineqs : List InequalityConstraint),
    ∀ (more : List (List Char)) (gridRow : Nat) (q : SudokuPuzzle),
      SudokuParser.parseCustomGo
        ((ineqs.map fun iq => joinSpace (ineqTokens iq)) ++ more)
        .INEQUALITIES gridRow q
      = SudokuParser.parseCustomGo more .INEQUALITIES gridRow
          (ineqs.foldl SudokuPuzzle.addInequality q) := by
  intro ineqs
  induction ineqs with
  | nil => intro more gridRow q; rfl
  | cons iq rest ih =>
    intro more gridRow q
    rw [List.map_cons, List.cons_append]
    obtain ⟨c0, rest0, hline, hc0⟩ :=
      joinSpace_int_head iq.cell1.row
        [intChars iq.cell1.col, opToken iq.type, intChars iq.cell2.row,
         intChars iq.cell2.col]
    rw [show (intChars iq.cell1.row :: [intChars iq.cell1.col, opToken iq.type,
      intChars iq.cell2.row, intChars iq.cell2.col]) = ineqTokens iq from rfl] at hline
    obtain ⟨hh1, hh2, hh3⟩ := @upperLine_not_header _ rest0 hc0
    rw [← hline] at hh1 hh2 hh3
    rw [parseCustomGo_ineqs_step hh1 hh2 hh3 (parseIneqLine_tokens iq q)]
    rw [ih more gridRow]
    rw [List.foldl_cons]

theorem parseCustomGo_nil (sec : SudokuParser.ParseSection) (gridRow : Nat)
    (q : SudokuPuzzle) : SudokuParser.parseCustomGo [] sec gridRow q = some q := rfl

theorem parseCustomFormat_roundtrip (p : SudokuPuzzle)
    (hlen : p.grid.length = 9) (hrows : ∀ row ∈ p.grid, row.length = 9)
    (hvals : ∀ r : Nat, r < 9 → ∀ c : Nat, c < 9 →
      0 ≤ p.grid.get r c ∧ p.grid.get r c ≤ 9)
    (hcages : ∀ cage ∈ p.cages, cage.cells ≠ [])
    (htype : p.type = expectedType p.cages p.inequalities) :
    SudokuParser.parseCustomFormat (SudokuGenerator.toCustomFormat p) = some p := by
  rw [SudokuParser.parseCustomFormat, splitLines_serial]
  rw [List.append_assoc, List.append_assoc, List.singleton_append]
  rw [parseCustomGo_header_grid]
  rw [List.range_eq_range']
  rw [parseCustomGo_rows hvals 9 0 rfl]
  have hempty1 : (emptyGrid : Grid).length = 9 := by decide
  have hempty2 : ∀ row ∈ (emptyGrid : Grid), row.length = 9 := by decide
  have hG : writeRows p.grid (List.range' 0 9) emptyGrid = p.grid := by
    obtain ⟨hw1, hw2⟩ := writeRows_shape (List.range' 0 9) emptyGrid hempty1 hempty2
    refine Grid.ext9 hw1 hw2 hlen hrows ?_
    intro r hr c hc
    rw [writeRows_get (List.range' 0 9) emptyGrid hempty1 hempty2 r hr c hc]
    rw [if_pos (by rw [List.mem_range'_1]; omega)]
  rw [show ({} : SudokuPuzzle).grid = emptyGrid from rfl]
  by_cases hc : p.cages.isEmpty
  · have hpc : p.cages = [] := List.isEmpty_iff.1 hc
    rw [if_pos hc]
    by_cases hi : p.inequalities.isEmpty
    · have hpi : p.inequalities = [] := List.isEmpty_iff.1 hi
      have hpt : p.type = .STANDARD := by
        rw [htype, expectedType, if_pos hc, if_pos hi]
      rw [if_pos hi]
      have hp : p = { grid := p.grid, type := SudokuType.STANDARD, cages := [], inequalities := [] } := by
        rw [← hpt, ← hpc, ← hpi]
      rw [hp, hG]
      rfl
    · have hpt : p.type = .INEQUALITY := by
        rw [htype, expectedType, if_pos hc, if_neg hi]
      rw [if_neg hi, List.nil_append, parseCustomGo_header_ineqs,
        ← List.append_nil (p.inequalities.map fun iq => joinSpace (ineqTokens iq)),
        parseCustomGo_ineqs_fold, parseCustomGo_nil, foldl_addInequality, if_neg hi]
      have hp : p = { grid := p.grid, type := SudokuType.INEQUALITY, cages := [], inequalities := p.inequalities } := by
        rw [← hpt, ← hpc]
      rw [hp, hG]
      rfl
  · rw [if_neg hc]
    by_cases hi : p.inequalities.isEmpty
    · have hpi : p.inequalities = [] := List.isEmpty_iff.1 hi
      have hpt : p.type = .KILLER := by
        rw [htype, expectedType, if_neg hc, if_pos hi]
      rw [if_pos hi, List.append_nil, parseCustomGo_header_cages,
        ← List.append_nil (p.cages.map fun cage => joinSpace (cageTokens cage)),
        parseCustomGo_cages_fold p.cages hcages, parseCustomGo_nil, foldl_addCage,
        if_neg hc]
      have hp : p = { grid := p.grid, type := SudokuType.KILLER, cages := p.cages, inequalities := [] } := by
        rw [← hpt, ← hpi]
      rw [hp, hG]
      rfl
    · have hpt : p.type = .KILLER_INEQUALITY := by
        rw [htype, expectedType, if_neg hc, if_neg hi]
      rw [if_neg hi, List.cons_append, parseCustomGo_header_cages,
        parseCustomGo_cages_fold p.cages hcages, parseCustomGo_header_ineqs,
        ← List.append_nil (p.inequalities.map fun iq => joinSpace (ineqTokens iq)),
        parseCustomGo_ineqs_fold, parseCustomGo_nil, foldl_addCage,
        foldl_addInequality, if_neg hc, if_neg hi]
      have hp : p = { grid := p.grid, type := SudokuType.KILLER_INEQUALITY, cages := p.cages, inequalities := p.inequalities } := by
        rw [← hpt]
      rw [hp, hG]
      rfl

theorem trimRight_append {a b : List Char}
    (h : ∃ c ∈ b, SudokuParser.isSpaceChar c = false) :
    ((a ++ b).reverse.dropWhile SudokuParser.isSpaceChar).reverse
      = a ++ (b.reverse.dropWhile SudokuParser.isSpaceChar).reverse := by
  rw [List.reverse_append, List.dropWhile_append]
  rw [if_neg (by
    obtain ⟨c, hcb, hcs⟩ := h
    simp only [List.isEmpty_iff, List.dropWhile_eq_nil_iff]
    intro hall
    have hcc := hall c (by simp [hcb])
    rw [hcs] at hcc
    cases hcc)]
  rw [List.reverse_append, List.reverse_reverse]

theorem toCustomFormat_shape (p : SudokuPuzzle) :
    SudokuGenerator.toCustomFormat p
      = "GRID".toList ++ ('\n' :: (SudokuGenerator.gridLines p.grid
        ++ ((if p.cages.isEmpty then [] else
          "\nCAGES\n".toList ++ p.cages.flatMap SudokuGenerator.cageLine)
        ++ (if p.inequalities.isEmpty then [] else
          "\nINEQUALITIES\n".toList
            ++ p.inequalities.flatMap SudokuGenerator.ineqLine)))) := by
  rw [SudokuGenerator.toCustomFormat]
  have hstr : ("GRID\n".toList : List Char) = "GRID".toList ++ ['\n'] := by decide
  rw [hstr]
  simp [List.append_assoc]

theorem trim_toCustomFormat (p : SudokuPuzzle) :
    ∃ z : List Char,
      SudokuParser.trim (SudokuGenerator.toCustomFormat p) = "GRID".toList ++ z := by
  obtain ⟨c0, rest0, hline, hc0⟩ :=
    joinSpace_int_head (p.grid.get 0 0)
      ([1, 2, 3, 4, 5, 6, 7, 8].map fun (c : Nat) => intChars (p.grid.get 0 c))
  rw [← rowTokens_cons] at hline
  have hc0mem : c0 ∈ joinSpace (rowTokens p.grid 0) := by rw [hline]; simp
  have hc0mem2 : c0 ∈ intChars (p.grid.get 0 0) := by
    have hh := @joinSpace_head (intChars (p.grid.get 0 0))
      ([1, 2, 3, 4, 5, 6, 7, 8].map fun (c : Nat) => intChars (p.grid.get 0 c))
      (intChars_ne_nil _)
    rw [← rowTokens_cons, hline] at hh
    simp only [List.head?_cons] at hh
    exact List.mem_of_mem_head? (by rw [← hh]; rfl)
  have hc0solid : SudokuParser.isSpaceChar c0 = false := (intChars_solid hc0mem2).1
  have hmemg : c0 ∈ SudokuGenerator.gridLines p.grid := by
    rw [SudokuGenerator.gridLines, List.mem_flatMap]
    refine ⟨0, by simp, ?_⟩
    rw [List.mem_append]
    left
    exact hc0mem
  rw [SudokuParser.trim, toCustomFormat_shape]
  have hdl : ("GRID".toList ++ ('\n' :: (SudokuGenerator.gridLines p.grid
      ++ ((if p.cages.isEmpty then [] else
        "\nCAGES\n".toList ++ p.cages.flatMap SudokuGenerator.cageLine)
      ++ (if p.inequalities.isEmpty then [] else
        "\nINEQUALITIES\n".toList
          ++ p.inequalities.flatMap SudokuGenerator.ineqLine))))).dropWhile
        SudokuParser.isSpaceChar
      = "GRID".toList ++ ('\n' :: (SudokuGenerator.gridLines p.grid
        ++ ((if p.cages.isEmpty then [] else
          "\nCAGES\n".toList ++ p.cages.flatMap SudokuGenerator.cageLine)
        ++ (if p.inequalities.isEmpty then [] else
          "\nINEQUALITIES\n".toList
            ++ p.inequalities.flatMap SudokuGenerator.ineqLine)))) := by
    rw [List.dropWhile_append]
    rw [if_neg (by decide)]
    rw [show ("GRID".toList).dropWhile SudokuParser.isSpaceChar
      = "GRID".toList from by decide]
  rw [hdl]
  rw [trimRight_append ⟨c0, by
    rw [List.mem_cons]
    right
    rw [List.mem_append]
    left
    exact hmemg, hc0solid⟩]
  exact ⟨_, rfl⟩

theorem parseFromString_custom (p : SudokuPuzzle) :
    SudokuParser.parseFromString (SudokuGenerator.toCustomFormat p)
      = SudokuParser.parseCustomFormat (SudokuGenerator.toCustomFormat p) := by
  obtain ⟨z, hz⟩ := trim_toCustomFormat p
  simp only [SudokuParser.parseFromString]
  rw [if_pos (Or.inl ⟨[], z, by rw [hz, List.nil_append]⟩)]

/-- A concrete killer-inequality puzzle used as a round-trip test vector. -/
def pRound : SudokuPuzzle :=
  { grid := demoGrid, type := .KILLER_INEQUALITY,
    cages := [{ cells := [{ row := 0, col := 0 }, { row := 0, col := 1 }], targetSum := 8 }],
    inequalities := [{ cell1 := { row := 2, col := 2 }, cell2 := { row := 3, col := 2 }, type := .LESS_THAN }] }

/-- A puzzle with a cage whose cell list is empty: the serializer writes the
cage as a lone sum with no cells, and the parser drops that line, so the
round trip loses the cage (and with it the `KILLER` type). -/
def pBadC8 : SudokuPuzzle :=
  { grid := emptyGrid, type := .KILLER, cages := [{ cells := [], targetSum := 5 }] }

/-- C8 (amended): for puzzles whose grid is a 9×9 matrix of values in
`[0, 9]`, whose cages all have a nonempty cell list, and whose type matches
the constraint collections, parsing the custom-format serialization returns
exactly the original puzzle (even the constraint order is preserved).  The
unrestricted claim fails for empty-cell cages, which the serializer/parser
pair drops (`parse_serialize_counterexample`). -/
theorem parse_serialize_roundtrip (p : SudokuPuzzle)
    (hlen : p.grid.length = 9) (hrows : ∀ row ∈ p.grid, row.length = 9)
    (hvals : ∀ r : Nat, r < 9 → ∀ c : Nat, c < 9 →
      0 ≤ p.grid.get r c ∧ p.grid.get r c ≤ 9)
    (hcages : ∀ cage ∈ p.cages, cage.cells ≠ [])
    (htype : p.type = expectedType p.cages p.inequalities) :
    SudokuParser.parseFromString (SudokuGenerator.toCustomFormat p) = some p := by
  rw [parseFromString_custom]
  exact parseCustomFormat_roundtrip p hlen hrows hvals hcages htype

theorem parse_serialize_roundtrip_witness :
    SudokuParser.parseFromString (SudokuGenerator.toCustomFormat pRound)
      = some pRound :=
  parse_serialize_roundtrip pRound (by rfl) (by decide)
    (by decide) (by decide) (by decide)

set_option maxRecDepth 10000 in
/-- C8 counterexample: `pBadC8` satisfies the claim's hypotheses (its cage
cells — there are none — are trivially in range, and its type matches its
collections), yet the round trip does not return it: the empty cage line is
dropped and the result is a plain standard puzzle. -/
theorem parse_serialize_counterexample :
    (∀ cage ∈ pBadC8.cages, ∀ cell ∈ cage.cells, cell.isValid = true) ∧
    pBadC8.type = expectedType pBadC8.cages pBadC8.inequalities ∧
    SudokuParser.parseFromString (SudokuGenerator.toCustomFormat pBadC8)
      = some { grid := emptyGrid } ∧
    SudokuParser.parseFromString (SudokuGenerator.toCustomFormat pBadC8)
      ≠ some pBadC8 := by
  refine ⟨by decide, by decide, by decide, by decide⟩

/-! ## A brute-force reference SAT solver

MiniSat itself is external to the repository; `bruteSat` is an executable
solver over the finitely many variables occurring in a formula, used to
instantiate the solver-behaviour hypotheses of the generator theorems. -/

/-- Read a variable off an explicit partial assignment list (false if absent). -/
def lookupVar (pairs : List (Int × Bool)) (v : Int) : Bool :=
  ((pairs.find? (fun pr => pr.1 == v)).map Prod.snd).getD false

/-- All total assignments to a finite variable list, as explicit lists. -/
def allAssignLists : List Int → List (List (Int × Bool))
  | [] => [[]]
  | v :: rest => (allAssignLists rest).flatMap fun t => [(v, false) :: t, (v, true) :: t]

/-- The variables occurring in a CNF. -/
def cnfVars (f : Cnf) : List Int := (f.flatMap fun c => c.map Prod.fst).dedup

/-- Brute-force solver: try every assignment to the occurring variables. -/
def bruteSat : SatSolver := fun f =>
  (((allAssignLists (cnfVars f)).find? (fun t => cnfSat (lookupVar t) f)).map
    (fun t => lookupVar t), 0)

/-! ## The puzzle generator (SudokuGenerator.cpp) -/

/-- `GeneratorConfig` from SudokuGenerator.h. -/
structure GeneratorConfig where
  type : SudokuType := .KILLER_INEQUALITY
  minCages : Int := 15
  maxCages : Int := 25
  minCageSize : Int := 2
  maxCageSize : Int := 5
  minInequalities : Int := 20
  maxInequalities : Int := 40
  minGivens : Int := 0
  maxGivens : Int := 0
  seed : Nat := 0
  ensureUniqueSolution : Bool := true
  fillAllCells : Bool := false
  difficulty : Int := 50
deriving DecidableEq

/-- A deterministic model of the generator's random facilities (`std::mt19937`
driving `std::uniform_int_distribution` and `std::shuffle`): an abstract state
type, a seeding function, and deterministic draws.  The two bundled laws are
the C++ standard's guarantees the generator relies on: a
`uniform_int_distribution<size_t>(0, n-1)` draw lies below `n`, and
`std::shuffle` rearranges its range into a permutation. -/
structure RngModel (R : Type) where
  seedFn : Nat → R
  uniformInt : Int → Int → R → Int × R
  uniformIdx : Nat → R → Nat × R
  shuffleSel : Nat → R → List Nat × R
  uniformIdx_lt : ∀ n r, 0 < n → (uniformIdx n r).1 < n
  shuffleSel_perm : ∀ n r, ((shuffleSel n r).1).Perm (List.range n)

/-- `std::shuffle` on a list: apply the model's index permutation. -/
def shuffleL {R : Type} {α : Type} (M : RngModel R) (d : α) (l : List α) (r : R) :
    List α × R :=
  let pr := M.shuffleSel l.length r
  (pr.1.map fun i => l.getD i d, pr.2)

/-- The degenerate deterministic model: every draw returns its lowest value and
every shuffle is the identity. -/
def trivialRng : RngModel Unit where
  seedFn := fun _ => ()
  uniformInt := fun a _ _ => (a, ())
  uniformIdx := fun _ _ => (0, ())
  shuffleSel := fun n _ => (List.range n, ())
  uniformIdx_lt := fun _ _ h => h
  shuffleSel_perm := fun _ _ => List.Perm.refl _

namespace SudokuGenerator

/-- The 81 cells in row-major order. -/
def allCells : List Cell :=
  (List.range 9).flatMap fun r => (List.range 9).map fun c =>
    { row := (r : Int), col := (c : Int) }

/-- The candidate pool of `generateCompleteSolution`: every (cell, value). -/
def candidatesList : List (Cell × Int) :=
  (List.range 9).flatMap fun r => (List.range 9).flatMap fun c =>
    valsList.map fun v => (({ row := (r : Int), col := (c : Int) } : Cell), v)

/-- The row/column/box conflict test of `generateCompleteSolution`. -/
def noConflict (g : Grid) (cell : Cell) (v : Int) : Bool :=
  ((List.range 9).all fun c => !(g.get cell.row.toNat c == v)) &&
  ((List.range 9).all fun r => !(g.get r cell.col.toNat == v)) &&
  ((List.range 3).all fun dr => (List.range 3).all fun dc =>
    !(g.get (cell.row.toNat / 3 * 3 + dr) (cell.col.toNat / 3 * 3 + dc) == v))

/-- The seeding loop of `generateCompleteSolution`: walk the shuffled
candidates, placing conflict-free values until 11 are set. -/
def placeCandidates : List (Cell × Int) → Nat → Grid → Grid
  | [], _, g => g
  | (cell, val) :: rest, setCount, g =>
    if 11 ≤ setCount then g
    else if !(g.get cell.row.toNat cell.col.toNat == 0) then
      placeCandidates rest setCount g
    else if noConflict g cell val then
      placeCandidates rest (setCount + 1) (Grid.set g cell.row.toNat cell.col.toNat val)
    else placeCandidates rest setCount g

/-- `SudokuGenerator::generateCompleteSolution`. -/
def generateCompleteSolution {R : Type} (M : RngModel R) (sat : SatSolver) (r : R) :
    SudokuSolution × R :=
  let pr := shuffleL M (({ row := 0, col := 0 } : Cell), (0 : Int)) candidatesList r
  let seeded : SudokuPuzzle := { grid := placeCandidates pr.1 0 emptyGrid }
  (solveWith sat seeded false, pr.2)

/-- Step 1 of `generateWithSolution` with its fallback to solving the empty
puzzle. -/
def completeSolution {R : Type} (M : RngModel R) (sat : SatSolver) (r : R) :
    SudokuSolution × R :=
  let pr := generateCompleteSolution M sat r
  if pr.1.solved then pr else (solveWith sat {} false, pr.2)

/-- `SudokuGenerator::getAdjacentCells` (4-connected neighbours in range). -/
def adjacentCells (cell : Cell) : List Cell :=
  ([(-1, 0), (1, 0), (0, -1), (0, 1)] : List (Int × Int)).filterMap fun d =>
    let nr := cell.row + d.1
    let nc := cell.col + d.2
    if 0 ≤ nr && nr < 9 && 0 ≤ nc && nc < 9 then
      some { row := nr, col := nc }
    else none

/-- Append a neighbour unless already collected (the inner dedup loop). -/
def insertNew (adj : Cell) (acc : List Cell) : List Cell :=
  if adj ∈ acc then acc else acc ++ [adj]

/-- Collect the unused neighbours of the current cage cells, first occurrence
order, duplicates dropped. -/
def collectNeighbors (cage used : List Cell) : List Cell :=
  cage.foldl (fun acc cell =>
    (adjacentCells cell).foldl (fun acc2 adj =>
      if adj ∈ used then acc2 else insertNew adj acc2) acc) []

/-- `std::set` insertion on the used-cell set. -/
def cageInsert (c : Cell) (used : List Cell) : List Cell :=
  if c ∈ used then used else c :: used

/-- The BFS-like growth loop of `generateConnectedCage` (fuel = the remaining
of the 100 allowed attempts). -/
def growCage {R : Type} (M : RngModel R) (sol : Grid) (targetSize : Int) :
    Nat → List Cell → List Cell → R → List Cell × List Cell × R
  | 0, cage, used, r => (cage, used, r)
  | fuel + 1, cage, used, r =>
    if (cage.length : Int) < targetSize then
      let neighbors := collectNeighbors cage used
      if neighbors.isEmpty then (cage, used, r)
      else
        let pr := M.uniformIdx neighbors.length r
        let next := neighbors.getD pr.1 { row := 0, col := 0 }
        let nextVal := sol.get next.row.toNat next.col.toNat
        if cage.any (fun cell => sol.get cell.row.toNat cell.col.toNat == nextVal) then
          growCage M sol targetSize fuel cage used pr.2
        else
          growCage M sol targetSize fuel (cage ++ [next]) (cageInsert next used) pr.2
    else (cage, used, r)

/-- `SudokuGenerator::generateConnectedCage`. -/
def generateConnectedCage {R : Type} (M : RngModel R) (sol : Grid) (used : List Cell)
    (targetSize : Int) (r : R) : List Cell × List Cell × R :=
  let availableCells := allCells.filter fun c => decide (c ∉ used)
  if availableCells.isEmpty then ([], used, r)
  else
    let pr := M.uniformIdx availableCells.length r
    let start := availableCells.getD pr.1 { row := 0, col := 0 }
    growCage M sol targetSize 100 [start] (cageInsert start used) pr.2

/-- `SudokuGenerator::calculateCageSum`. -/
def calculateCageSum (cells : List Cell) (sol : Grid) : Int :=
  (cells.map fun cell => sol.get cell.row.toNat cell.col.toNat).sum

/-- The cage loop of `SudokuGenerator::generateCages` (fuel = numCages). -/
def generateCagesGo {R : Type} (M : RngModel R) (sol : Grid) (minSize maxSize : Int) :
    Nat → SudokuPuzzle → List Cell → R → SudokuPuzzle × R
  | 0, p, _, r => (p, r)
  | n + 1, p, used, r =>
    let pr := M.uniformInt minSize maxSize r
    let res := generateConnectedCage M sol used pr.1 pr.2
    let p1 := if 2 ≤ res.1.length then
        p.addCage { cells := res.1, targetSum := calculateCageSum res.1 sol }
      else p
    generateCagesGo M sol minSize maxSize n p1 res.2.1 res.2.2

/-- The cover-everything loop of `SudokuGenerator::generateCagesFillingAll`
(the C++ adds cages of size `≥ 2` and of size exactly `1` alike and breaks
when no cell is left to start from; the loop adds a fresh cell each pass, so
100 fuel is never the binding bound). -/
def generateCagesFillAllGo {R : Type} (M : RngModel R) (sol : Grid)
    (minSize maxSize : Int) :
    Nat → SudokuPuzzle → List Cell → R → SudokuPuzzle × R
  | 0, p, _, r => (p, r)
  | fuel + 1, p, used, r =>
    if used.length < 81 then
      let pr := M.uniformInt minSize maxSize r
      let remaining : Int := 81 - (used.length : Int)
      let ts0 := if remaining < pr.1 then remaining else pr.1
      let ts := if ts0 < minSize && minSize ≤ remaining then minSize else ts0
      let res := generateConnectedCage M sol used ts pr.2
      if 1 ≤ res.1.length then
        generateCagesFillAllGo M sol minSize maxSize fuel
          (p.addCage { cells := res.1, targetSum := calculateCageSum res.1 sol })
          res.2.1 res.2.2
      else (p, res.2.2)
    else (p, r)

/-- The adjacent (horizontal then vertical) cell pairs collected by
`generateInequalities`, row-major. -/
def allPairs : List (Cell × Cell) :=
  (List.range 9).flatMap fun r => (List.range 9).flatMap fun c =>
    (if c + 1 < 9 then
      [(({ row := (r : Int), col := (c : Int) } : Cell),
        ({ row := (r : Int), col := (c : Int) + 1 } : Cell))]
     else []) ++
    (if r + 1 < 9 then
      [(({ row := (r : Int), col := (c : Int) } : Cell),
        ({ row := (r : Int) + 1, col := (c : Int) } : Cell))]
     else [])

/-- The selection loop of `generateInequalities`: walk the shuffled pairs,
adding an inequality for each unequal-valued pair until enough are added. -/
def addIneqsGo (sol : Grid) (numIneq : Int) :
    List (Cell × Cell) → Int → SudokuPuzzle → SudokuPuzzle
  | [], _, p => p
  | pr :: rest, added, p =>
    if numIneq ≤ added then p
    else
      let v1 := sol.get pr.1.row.toNat pr.1.col.toNat
      let v2 := sol.get pr.2.row.toNat pr.2.col.toNat
      if v1 ≠ v2 then
        let ty : InequalityType := if v2 < v1 then .GREATER_THAN else .LESS_THAN
        addIneqsGo sol numIneq rest (added + 1)
          (p.addInequality { cell1 := pr.1, cell2 := pr.2, type := ty })
      else addIneqsGo sol numIneq rest added p

/-- `SudokuGenerator::generateInequalities`. -/
def generateInequalities {R : Type} (M : RngModel R) (sol : Grid) (numIneq : Int)
    (p : SudokuPuzzle) (r : R) : SudokuPuzzle × R :=
  let pr := shuffleL M (({ row := 0, col := 0 } : Cell), ({ row := 0, col := 0 } : Cell))
    allPairs r
  (addIneqsGo sol numIneq pr.1 0 p, pr.2)

/-- The write loop of `addGivens`. -/
def addGivensGo (sol : Grid) (numGivens : Int) :
    List Cell → Int → SudokuPuzzle → SudokuPuzzle
  | [], _, p => p
  | cell :: rest, added, p =>
    if numGivens ≤ added then p
    else
      let g1 := Grid.set p.grid cell.row.toNat cell.col.toNat
        (sol.get cell.row.toNat cell.col.toNat)
      addGivensGo sol numGivens rest (added + 1) { p with grid := g1 }

/-- `SudokuGenerator::addGivens`. -/
def addGivens {R : Type} (M : RngModel R) (sol : Grid) (numGivens : Int)
    (p : SudokuPuzzle) (r : R) : SudokuPuzzle × R :=
  let cells := allCells.filter fun c => p.grid.get c.row.toNat c.col.toNat == 0
  let pr := shuffleL M ({ row := 0, col := 0 } : Cell) cells r
  (addGivensGo sol numGivens pr.1 0 p, pr.2)

/-- The first uniqueness-repair loop of `generateWithSolution` (at most 10
passes, adding 5 inequalities or 3 givens per pass). -/
def repairLoop1 {R : Type} (M : RngModel R) (sat : SatSolver) (config : GeneratorConfig)
    (sol : Grid) :
    Nat → SudokuPuzzle → SudokuSolution → R → SudokuPuzzle × SudokuSolution × R
  | 0, p, t, r => (p, t, r)
  | n + 1, p, t, r =>
    if t.solved && !t.isUnique then
      let pr :=
        if config.type == SudokuType.INEQUALITY || config.type == SudokuType.KILLER_INEQUALITY
        then generateInequalities M sol 5 p r
        else addGivens M sol 3 p r
      repairLoop1 M sat config sol n pr.1 (solveWith sat pr.1 true) pr.2
    else (p, t, r)

/-- The second uniqueness-repair loop (one given per pass, at most 81). -/
def repairLoop2 {R : Type} (M : RngModel R) (sat : SatSolver) (sol : Grid) :
    Nat → SudokuPuzzle → SudokuSolution → R → SudokuPuzzle × SudokuSolution × R
  | 0, p, t, r => (p, t, r)
  | n + 1, p, t, r =>
    if t.solved && !t.isUnique then
      let pr := addGivens M sol 1 p r
      repairLoop2 M sat sol n pr.1 (solveWith sat pr.1 true) pr.2
    else (p, t, r)

/-- The not-removed, not-currently-tried entries of an original constraint
vector, in original order. -/
def keepFiltered {α : Type} (orig : List α) (removed : List Nat) (skip : Nat) : List α :=
  (orig.enum.filter fun ia => decide (ia.1 ∉ removed ∧ ia.1 ≠ skip)).map Prod.snd

/-- The not-removed entries of an original constraint vector, in order. -/
def keepAll {α : Type} (orig : List α) (removed : List Nat) : List α :=
  (orig.enum.filter fun ia => decide (ia.1 ∉ removed)).map Prod.snd

/-- The inequality phase of `minimizeConstraints`. -/
def minIneqGo (sat : SatSolver) (orig : List InequalityConstraint) :
    List Nat → List Nat → SudokuPuzzle → SudokuPuzzle
  | [], _, p => p
  | idx :: rest, removed, p =>
    let trial := { p with inequalities := keepFiltered orig removed idx }
    let t := solveWith sat trial true
    if t.solved && t.isUnique then minIneqGo sat orig rest (removed ++ [idx]) trial
    else minIneqGo sat orig rest removed { p with inequalities := keepAll orig removed }

/-- The cage phase of `minimizeConstraints`. -/
def minCageGo (sat : SatSolver) (orig : List Cage) :
    List Nat → List Nat → SudokuPuzzle → SudokuPuzzle
  | [], _, p => p
  | idx :: rest, removed, p =>
    let trial := { p with cages := keepFiltered orig removed idx }
    let t := solveWith sat trial true
    if t.solved && t.isUnique then minCageGo sat orig rest (removed ++ [idx]) trial
    else minCageGo sat orig rest removed { p with cages := keepAll orig removed }

/-- The given-value phase of `minimizeConstraints`. -/
def minGivensGo (sat : SatSolver) : List Cell → SudokuPuzzle → SudokuPuzzle
  | [], p => p
  | cell :: rest, p =>
    let trial := { p with grid := Grid.set p.grid cell.row.toNat cell.col.toNat 0 }
    let t := solveWith sat trial true
    if !t.solved || !t.isUnique then minGivensGo sat rest p
    else minGivensGo sat rest trial

/-- The inequality-removal block of `minimizeConstraints` (shuffle the index
vector, then try each removal). -/
def minPhase1 {R : Type} (M : RngModel R) (sat : SatSolver) (st : SudokuPuzzle × R) :
    SudokuPuzzle × R :=
  if st.1.inequalities.isEmpty then st
  else
    let pr := shuffleL M 0 (List.range st.1.inequalities.length) st.2
    (minIneqGo sat st.1.inequalities pr.1 [] st.1, pr.2)

/-- The cage-removal block of `minimizeConstraints`. -/
def minPhase2 {R : Type} (M : RngModel R) (sat : SatSolver) (st : SudokuPuzzle × R) :
    SudokuPuzzle × R :=
  if st.1.cages.isEmpty then st
  else
    let pr := shuffleL M 0 (List.range st.1.cages.length) st.2
    (minCageGo sat st.1.cages pr.1 [] st.1, pr.2)

/-- The given-removal block of `minimizeConstraints`. -/
def minPhase3 {R : Type} (M : RngModel R) (sat : SatSolver) (st : SudokuPuzzle × R) :
    SudokuPuzzle × R :=
  let givenCells := allCells.filter fun c =>
    !(st.1.grid.get c.row.toNat c.col.toNat == 0)
  if givenCells.isEmpty then st
  else
    let pr := shuffleL M ({ row := 0, col := 0 } : Cell) givenCells st.2
    (minGivensGo sat pr.1 st.1, pr.2)

/-- `SudokuGenerator::minimizeConstraints` (part_005 lines 483-615; note the
implementation takes no difficulty parameter): the three removal blocks in
order — inequalities, cages, then givens. -/
def minimizeConstraints {R : Type} (M : RngModel R) (sat : SatSolver)
    (p : SudokuPuzzle) (r : R) : SudokuPuzzle × R :=
  minPhase3 M sat (minPhase2 M sat (minPhase1 M sat (p, r)))

/-- Step 2 of `generateWithSolution`: cage constraints for killer-style types. -/
def genStep2 {R : Type} (M : RngModel R) (config : GeneratorConfig) (solGrid : Grid)
    (st : SudokuPuzzle × R) : SudokuPuzzle × R :=
  if config.type == SudokuType.KILLER || config.type == SudokuType.KILLER_INEQUALITY then
    if config.fillAllCells then
      generateCagesFillAllGo M solGrid config.minCageSize config.maxCageSize 100 st.1 [] st.2
    else
      let pr := M.uniformInt config.minCages config.maxCages st.2
      generateCagesGo M solGrid config.minCageSize config.maxCageSize pr.1.toNat st.1 [] pr.2
  else st

/-- Step 2b of `generateWithSolution`: inequality constraints. -/
def genStep3 {R : Type} (M : RngModel R) (config : GeneratorConfig) (solGrid : Grid)
    (st : SudokuPuzzle × R) : SudokuPuzzle × R :=
  if config.type == SudokuType.INEQUALITY || config.type == SudokuType.KILLER_INEQUALITY
  then
    let pr := M.uniformInt config.minInequalities config.maxInequalities st.2
    generateInequalities M solGrid pr.1 st.1 pr.2
  else st

/-- Step 3 of `generateWithSolution`: optional given values. -/
def genStep4 {R : Type} (M : RngModel R) (config : GeneratorConfig) (solGrid : Grid)
    (st : SudokuPuzzle × R) : SudokuPuzzle × R :=
  if 0 < config.maxGivens then
    let pr := M.uniformInt config.minGivens config.maxGivens st.2
    addGivens M solGrid pr.1 st.1 pr.2
  else st

/-- Steps 4-5 of `generateWithSolution`: the uniqueness-repair loops followed
by constraint minimization, all skipped unless `ensureUniqueSolution`. -/
def genStep5 {R : Type} (M : RngModel R) (sat : SatSolver) (config : GeneratorConfig)
    (solGrid : Grid) (st : SudokuPuzzle × R) : SudokuPuzzle × R :=
  if config.ensureUniqueSolution then
    let t0 := solveWith sat st.1 true
    let st4 := repairLoop1 M sat config solGrid 10 st.1 t0 st.2
    let st5 := repairLoop2 M sat solGrid 81 st4.1 st4.2.1 st4.2.2
    minimizeConstraints M sat st5.1 st5.2.2
  else st

/-- The body of `generateWithSolution` after the optional re-seeding. -/
def generateGo {R : Type} (M : RngModel R) (sat : SatSolver) (config : GeneratorConfig)
    (r : R) : SudokuPuzzle × SudokuSolution × R :=
  let step1 := completeSolution M sat r
  let solution := step1.1
  let res := genStep5 M sat config solution.grid
    (genStep4 M config solution.grid
      (genStep3 M config solution.grid
        (genStep2 M config solution.grid (({} : SudokuPuzzle), step1.2))))
  (res.1, solution, res.2)

/-- `SudokuGenerator::generateWithSolution` (the member RNG is re-seeded first
when the config carries a nonzero seed). -/
def generateWithSolution {R : Type} (M : RngModel R) (sat : SatSolver)
    (config : GeneratorConfig) (r0 : R) : SudokuPuzzle × SudokuSolution × R :=
  generateGo M sat config (if config.seed ≠ 0 then M.seedFn config.seed else r0)

/-- `SudokuGenerator::generate(config)`. -/
def generate {R : Type} (M : RngModel R) (sat : SatSolver) (config : GeneratorConfig)
    (r0 : R) : SudokuPuzzle × R :=
  let res := generateWithSolution M sat config r0
  (res.1, res.2.2)

end SudokuGenerator

/-! ## Correctness of the brute-force solver -/

theorem mem_cnfVars {f : Cnf} {v : Int} :
    v ∈ cnfVars f ↔ ∃ cl ∈ f, ∃ l ∈ cl, l.1 = v := by
  simp [cnfVars, List.mem_dedup, List.mem_flatMap, List.mem_map]

theorem cnfSat_agree {A B : Assignment} {f : Cnf}
    (h : ∀ v ∈ cnfVars f, A v = B v) : cnfSat A f = cnfSat B f := by
  rw [Bool.eq_iff_iff, cnfSat_iff, cnfSat_iff]
  constructor
  · intro hall cl hcl
    rcases clauseSat_iff.1 (hall cl hcl) with ⟨l, hl, hsat⟩
    refine clauseSat_iff.2 ⟨l, hl, ?_⟩
    have hv := h l.1 (mem_cnfVars.2 ⟨cl, hcl, l, hl, rfl⟩)
    rw [litSat] at hsat ⊢
    rw [← hv]
    exact hsat
  · intro hall cl hcl
    rcases clauseSat_iff.1 (hall cl hcl) with ⟨l, hl, hsat⟩
    refine clauseSat_iff.2 ⟨l, hl, ?_⟩
    have hv := h l.1 (mem_cnfVars.2 ⟨cl, hcl, l, hl, rfl⟩)
    rw [litSat] at hsat ⊢
    rw [hv]
    exact hsat

/-- The explicit assignment list recording `A` on a variable list. -/
def assignListOf (A : Assignment) (vars : List Int) : List (Int × Bool) :=
  vars.map fun v => (v, A v)

theorem assignListOf_mem (A : Assignment) :
    ∀ vars : List Int, assignListOf A vars ∈ allAssignLists vars
  | [] => by simp [assignListOf, allAssignLists]
  | v :: rest => by
    simp only [assignListOf, List.map_cons, allAssignLists, List.mem_flatMap]
    refine ⟨assignListOf A rest, assignListOf_mem A rest, ?_⟩
    cases hA : A v <;> simp [hA, assignListOf]

theorem lookupVar_assignListOf {A : Assignment} {vars : List Int} {v : Int}
    (hv : v ∈ vars) : lookupVar (assignListOf A vars) v = A v := by
  induction vars with
  | nil => cases hv
  | cons w rest ih =>
    rw [assignListOf, List.map_cons, lookupVar]
    by_cases hw : w = v
    · rw [List.find?_cons_of_pos _ (by simp [hw])]
      simp [hw]
    · rw [List.find?_cons_of_neg _ (by simp [hw])]
      have hv2 : v ∈ rest := by
        rcases List.mem_cons.1 hv with h | h
        · exact absurd h.symm hw
        · exact h
      have hr := ih hv2
      rw [assignListOf, lookupVar] at hr
      exact hr

theorem bruteSat_sound {f : Cnf} {A : Assignment} {tm : Nat}
    (h : bruteSat f = (some A, tm)) : cnfSat A f = true := by
  have h1 : ((allAssignLists (cnfVars f)).find? (fun t => cnfSat (lookupVar t) f)).map
      (fun t => lookupVar t) = some A := by
    simpa [bruteSat] using congrArg Prod.fst h
  rcases Option.map_eq_some'.1 h1 with ⟨t, hfind, hA⟩
  have hsat := List.find?_some hfind
  rw [← hA]
  exact hsat

theorem bruteSat_complete {f : Cnf} {A : Assignment} (h : cnfSat A f = true) :
    ∃ B : Assignment, ∃ tm : Nat, bruteSat f = (some B, tm) := by
  have hagree : cnfSat (lookupVar (assignListOf A (cnfVars f))) f = cnfSat A f :=
    cnfSat_agree fun v hv => lookupVar_assignListOf hv
  have hsome : ((allAssignLists (cnfVars f)).find? (fun t => cnfSat (lookupVar t) f)).isSome := by
    rw [List.find?_isSome]
    exact ⟨_, assignListOf_mem A (cnfVars f), by rw [hagree]; exact h⟩
  rcases Option.isSome_iff_exists.1 hsome with ⟨t, ht⟩
  exact ⟨lookupVar t, 0, by simp [bruteSat, ht]⟩

/-! ## Configuration-only facts about the generator -/

/-- C5: the difficulty knob has no effect whatsoever on generation — the
implemented `minimizeConstraints` takes no difficulty argument and
`generateWithSolution` never reads the field, so the claimed
"at most difficulty/100 of the removal candidates" bound (in particular, no
removal attempts at difficulty 0) is not implemented. -/
theorem generate_ignores_difficulty {R : Type} (M : RngModel R) (sat : SatSolver)
    (config : GeneratorConfig) (d1 d2 : Int) (r0 : R) :
    SudokuGenerator.generateWithSolution M sat { config with difficulty := d1 } r0
      = SudokuGenerator.generateWithSolution M sat { config with difficulty := d2 } r0 := rfl

/-- C10: with a nonzero seed the member RNG is re-seeded from the config, so
two runs from arbitrary prior RNG states return identical puzzles and
identical solutions — in particular equally many cages and inequalities. -/
theorem generate_seed_deterministic {R : Type} (M : RngModel R) (sat : SatSolver)
    (config : GeneratorConfig) (h : config.seed ≠ 0) (r1 r2 : R) :
    SudokuGenerator.generateWithSolution M sat config r1
      = SudokuGenerator.generateWithSolution M sat config r2 ∧
    (SudokuGenerator.generateWithSolution M sat config r1).1.cages.length
      = (SudokuGenerator.generateWithSolution M sat config r2).1.cages.length ∧
    (SudokuGenerator.generateWithSolution M sat config r1).1.inequalities.length
      = (SudokuGenerator.generateWithSolution M sat config r2).1.inequalities.length := by
  have he : SudokuGenerator.generateWithSolution M sat config r1
      = SudokuGenerator.generateWithSolution M sat config r2 := by
    rw [SudokuGenerator.generateWithSolution, SudokuGenerator.generateWithSolution,
      if_pos h, if_pos h]
  exact ⟨he, by rw [he], by rw [he]⟩

/-- A seeded configuration for the determinism witness. -/
def cfgSeeded : GeneratorConfig := { seed := 7 }

theorem generate_seed_deterministic_witness :
    cfgSeeded.seed ≠ 0 ∧
    SudokuGenerator.generateWithSolution trivialRng bruteSat cfgSeeded ()
      = SudokuGenerator.generateWithSolution trivialRng bruteSat cfgSeeded () :=
  ⟨by decide, (generate_seed_deterministic trivialRng bruteSat cfgSeeded (by decide) () ()).1⟩

/-! ## Generator invariants: basic facts -/

/-- Solver soundness: a returned model satisfies the formula. -/
def SatSound (sat : SatSolver) : Prop :=
  ∀ f A t, sat f = (some A, t) → cnfSat A f = true

/-- Solver completeness: a satisfiable formula gets a model back. -/
def SatComplete (sat : SatSolver) : Prop :=
  ∀ f A, cnfSat A f = true → ∃ B : Assignment, ∃ t : Nat, sat f = (some B, t)

theorem bruteSat_is_sound : SatSound bruteSat := fun _ _ _ h => bruteSat_sound h

theorem bruteSat_is_complete : SatComplete bruteSat := fun _ _ h => bruteSat_complete h

theorem map_getD_range {α : Type} (d : α) (l : List α) :
    (List.range l.length).map (fun i => l.getD i d) = l := by
  apply List.ext_getElem
  · simp
  · intro i h1 h2
    simp only [List.getElem_map, List.getElem_range]
    rw [List.getD_eq_getElem l d h2]

theorem shuffleL_perm {R : Type} {α : Type} (M : RngModel R) (d : α) (l : List α)
    (r : R) : ((shuffleL M d l r).1).Perm l := by
  have hperm := M.shuffleSel_perm l.length r
  have hmap := hperm.map (fun i => l.getD i d)
  rw [map_getD_range] at hmap
  exact hmap

theorem mem_shuffleL {R : Type} {α : Type} {M : RngModel R} {d : α} {l : List α}
    {r : R} {x : α} (h : x ∈ (shuffleL M d l r).1) : x ∈ l :=
  (shuffleL_perm M d l r).mem_iff.1 h

namespace SudokuGenerator

set_option maxRecDepth 4000 in
theorem allCells_valid : ∀ c ∈ allCells, c.isValid = true := by decide

set_option maxRecDepth 4000 in
theorem mem_allCells : ∀ r : Nat, r < 9 → ∀ c : Nat, c < 9 →
    ({ row := (r : Int), col := (c : Int) } : Cell) ∈ allCells := by decide

set_option maxRecDepth 10000 in
theorem allPairs_valid : ∀ pr ∈ allPairs,
    pr.1.isValid = true ∧ pr.2.isValid = true := by decide

theorem emptyGrid_get (r c : Nat) : Grid.get emptyGrid r c = 0 := by
  rw [Grid.get_eq, emptyGrid, List.getElem?_replicate]
  by_cases hr : r < 9
  · rw [if_pos hr]
    simp only [Option.getD_some]
    rw [List.getElem?_replicate]
    by_cases hc : c < 9
    · rw [if_pos hc]
      rfl
    · rw [if_neg hc]
      rfl
  · rw [if_neg hr]
    simp

theorem emptyGrid_shape : (emptyGrid : Grid).length = 9 ∧
    ∀ row ∈ (emptyGrid : Grid), row.length = 9 := by
  constructor
  · rw [emptyGrid, List.length_replicate]
  · intro row hrow
    rw [emptyGrid] at hrow
    rw [List.eq_of_mem_replicate hrow, List.length_replicate]

theorem decodeGrid_shape (A : Assignment) : (decodeGrid A).length = 9 ∧
    ∀ row ∈ decodeGrid A, row.length = 9 := by
  constructor
  · simp [decodeGrid]
  · intro row hrow
    simp only [decodeGrid, List.mem_map, List.mem_range] at hrow
    rcases hrow with ⟨r, -, hrow⟩
    rw [← hrow]
    simp

/-- A well-formed source grid for the generator: verifier-basic-valid and of
9×9 shape (what `decodeGrid` of a model always produces). -/
def GoodGrid (s : Grid) : Prop :=
  SudokuSolver.verifyBasicConstraints s = true ∧ s.length = 9 ∧
    ∀ row ∈ s, row.length = 9

/-- The value relation an inequality constraint asserts about a grid. -/
def ineqHolds (s : Grid) (iq : InequalityConstraint) : Prop :=
  match iq.type with
  | .GREATER_THAN => s.get iq.cell2.row.toNat iq.cell2.col.toNat
      < s.get iq.cell1.row.toNat iq.cell1.col.toNat
  | .LESS_THAN => s.get iq.cell1.row.toNat iq.cell1.col.toNat
      < s.get iq.cell2.row.toNat iq.cell2.col.toNat

/-- The generator's running invariant: every constraint of the puzzle under
construction is derived from (and hence satisfied by) the fixed complete
solution grid `s`, and the given grid is a partial copy of `s`. -/
structure ConsistentWith (s : Grid) (p : SudokuPuzzle) : Prop where
  glen : p.grid.length = 9
  grows : ∀ row ∈ p.grid, row.length = 9
  gcells : ∀ r : Nat, r < 9 → ∀ c : Nat, c < 9 →
    p.grid.get r c = 0 ∨ p.grid.get r c = s.get r c
  cages : ∀ cage ∈ p.cages,
    (∀ cell ∈ cage.cells, cell.isValid = true) ∧
    (cage.cells.map fun cell => s.get cell.row.toNat cell.col.toNat).Nodup ∧
    (cage.cells.map fun cell => s.get cell.row.toNat cell.col.toNat).sum
      = cage.targetSum
  ineqs : ∀ iq ∈ p.inequalities,
    iq.cell1.isValid = true ∧ iq.cell2.isValid = true ∧ ineqHolds s iq

theorem cons_empty (s : Grid) : ConsistentWith s {} where
  glen := emptyGrid_shape.1
  grows := emptyGrid_shape.2
  gcells := fun r _ c _ => Or.inl (emptyGrid_get r c)
  cages := fun cage hmem => absurd hmem (List.not_mem_nil cage)
  ineqs := fun iq hmem => absurd hmem (List.not_mem_nil iq)

theorem cons_addCage {s : Grid} {p : SudokuPuzzle} (hp : ConsistentWith s p)
    {cage : Cage} (hv : ∀ cell ∈ cage.cells, cell.isValid = true)
    (hnd : (cage.cells.map fun cell => s.get cell.row.toNat cell.col.toNat).Nodup)
    (hsum : (cage.cells.map fun cell => s.get cell.row.toNat cell.col.toNat).sum
      = cage.targetSum) :
    ConsistentWith s (p.addCage cage) where
  glen := hp.glen
  grows := hp.grows
  gcells := hp.gcells
  cages := by
    intro cg hmem
    rw [SudokuPuzzle.addCage] at hmem
    rcases List.mem_append.1 hmem with h | h
    · exact hp.cages cg h
    · rw [List.mem_singleton.1 h]
      exact ⟨hv, hnd, hsum⟩
  ineqs := hp.ineqs

theorem cons_addInequality {s : Grid} {p : SudokuPuzzle} (hp : ConsistentWith s p)
    {iq : InequalityConstraint} (h1 : iq.cell1.isValid = true)
    (h2 : iq.cell2.isValid = true) (hh : ineqHolds s iq) :
    ConsistentWith s (p.addInequality iq) where
  glen := hp.glen
  grows := hp.grows
  gcells := hp.gcells
  cages := hp.cages
  ineqs := by
    intro i hmem
    rw [SudokuPuzzle.addInequality] at hmem
    rcases List.mem_append.1 hmem with h | h
    · exact hp.ineqs i h
    · rw [List.mem_singleton.1 h]
      exact ⟨h1, h2, hh⟩

theorem cons_setGiven {s : Grid} {p : SudokuPuzzle} (hp : ConsistentWith s p)
    (r c : Nat) :
    ConsistentWith s { p with grid := Grid.set p.grid r c (s.get r c) } where
  glen := by
    have := Grid.shape_set hp.glen hp.grows r c (s.get r c)
    exact this.1
  grows := by
    have := Grid.shape_set hp.glen hp.grows r c (s.get r c)
    exact this.2
  gcells := by
    intro r2 hr2 c2 hc2
    by_cases hcase : r = r2 ∧ c = c2
    · obtain ⟨rfl, rfl⟩ := hcase
      right
      rw [Grid.get_set_eq (by rw [hp.glen]; omega)
        (by rw [Grid.row_len hp.glen hp.grows (show r < 9 by omega)]; omega)]
    · rw [Grid.get_set_ne (by tauto)]
      exact hp.gcells r2 hr2 c2 hc2
  cages := hp.cages
  ineqs := hp.ineqs

theorem cons_setZero {s : Grid} {p : SudokuPuzzle} (hp : ConsistentWith s p)
    (r c : Nat) :
    ConsistentWith s { p with grid := Grid.set p.grid r c 0 } where
  glen := (Grid.shape_set hp.glen hp.grows r c 0).1
  grows := (Grid.shape_set hp.glen hp.grows r c 0).2
  gcells := by
    intro r2 hr2 c2 hc2
    by_cases hcase : r = r2 ∧ c = c2
    · obtain ⟨rfl, rfl⟩ := hcase
      left
      rw [Grid.get_set_eq (by rw [hp.glen]; omega)
        (by rw [Grid.row_len hp.glen hp.grows (show r < 9 by omega)]; omega)]
    · rw [Grid.get_set_ne (by tauto)]
      exact hp.gcells r2 hr2 c2 hc2
  cages := hp.cages
  ineqs := hp.ineqs

end SudokuGenerator

namespace SudokuGenerator

theorem getD_mem {α : Type} {l : List α} {j : Nat} (hj : j < l.length) (d : α) :
    l.getD j d ∈ l := by
  rw [List.getD_eq_getElem l d hj]
  exact List.getElem_mem hj

theorem adjacentCells_valid {cell : Cell} :
    ∀ x ∈ adjacentCells cell, x.isValid = true := by
  intro x hx
  simp only [adjacentCells, List.mem_filterMap] at hx
  rcases hx with ⟨d, -, hd⟩
  by_cases hg : (0 ≤ cell.row + d.1 && cell.row + d.1 < 9 && 0 ≤ cell.col + d.2
      && cell.col + d.2 < 9) = true
  · rw [if_pos hg] at hd
    have hx2 : ({ row := cell.row + d.1, col := cell.col + d.2 } : Cell) = x :=
      Option.some_injective _ hd
    rw [← hx2]
    simp only [Cell.isValid]
    simp only [Bool.and_eq_true, decide_eq_true_eq] at hg ⊢
    exact hg
  · rw [if_neg hg] at hd
    cases hd

theorem foldl_collect_mem {used : List Cell} :
    ∀ (adjs acc : List Cell) (x : Cell),
      x ∈ adjs.foldl (fun acc2 adj => if adj ∈ used then acc2 else insertNew adj acc2) acc →
      x ∈ acc ∨ x ∈ adjs
  | [], _, _, h => Or.inl h
  | adj :: rest, acc, x, h => by
    rcases foldl_collect_mem rest _ x h with h2 | h2
    · have h2b : x ∈ (if adj ∈ used then acc else insertNew adj acc) := h2
      by_cases hu : adj ∈ used
      · rw [if_pos hu] at h2b
        exact Or.inl h2b
      · rw [if_neg hu, insertNew] at h2b
        by_cases ha : adj ∈ acc
        · rw [if_pos ha] at h2b
          exact Or.inl h2b
        · rw [if_neg ha] at h2b
          rcases List.mem_append.1 h2b with h3 | h3
          · exact Or.inl h3
          · exact Or.inr (by rw [List.mem_singleton.1 h3]; exact List.mem_cons_self _ _)
    · exact Or.inr (List.mem_cons_of_mem _ h2)

theorem collectNeighbors_mem {cage used : List Cell} {x : Cell}
    (h : x ∈ collectNeighbors cage used) :
    ∃ cell ∈ cage, x ∈ adjacentCells cell := by
  rw [collectNeighbors] at h
  have main : ∀ (cl : List Cell) (acc : List Cell),
      x ∈ cl.foldl (fun acc cell => (adjacentCells cell).foldl
        (fun acc2 adj => if adj ∈ used then acc2 else insertNew adj acc2) acc) acc →
      x ∈ acc ∨ ∃ cell ∈ cl, x ∈ adjacentCells cell := by
    intro cl
    induction cl with
    | nil => exact fun acc h2 => Or.inl h2
    | cons cell rest ih =>
      intro acc h2
      rcases ih _ h2 with h3 | h3
      · rcases foldl_collect_mem (adjacentCells cell) acc x h3 with h4 | h4
        · exact Or.inl h4
        · exact Or.inr ⟨cell, List.mem_cons_self _ _, h4⟩
      · rcases h3 with ⟨cell2, hm, hadj⟩
        exact Or.inr ⟨cell2, List.mem_cons_of_mem _ hm, hadj⟩
  rcases main cage [] h with h2 | h2
  · cases h2
  · exact h2

theorem growCage_inv {R : Type} {M : RngModel R} {sol : Grid} {ts : Int}
    (fuel : Nat) :
    ∀ (cage used : List Cell) (r : R),
      (∀ cell ∈ cage, cell.isValid = true) →
      ((cage.map fun cell => sol.get cell.row.toNat cell.col.toNat).Nodup) →
      (∀ cell ∈ (growCage M sol ts fuel cage used r).1, cell.isValid = true) ∧
      ((growCage M sol ts fuel cage used r).1.map fun cell =>
        sol.get cell.row.toNat cell.col.toNat).Nodup := by
  induction fuel with
  | zero => exact fun cage used r hv hnd => ⟨hv, hnd⟩
  | succ fuel ih =>
    intro cage used r hv hnd
    simp only [growCage]
    by_cases hsize : ((cage.length : Int) < ts)
    · rw [if_pos hsize]
      set nb := collectNeighbors cage used with hnb
      by_cases hne : nb.isEmpty
      · rw [if_pos hne]
        exact ⟨hv, hnd⟩
      · rw [if_neg hne]
        have hlen : 0 < nb.length := by
          rcases hl : nb with - | ⟨a, rest⟩
          · rw [hl] at hne
            simp at hne
          · simp [hl]
        set nx := nb.getD (M.uniformIdx nb.length r).1 { row := 0, col := 0 } with hnx
        have hnmem : nx ∈ nb := getD_mem (M.uniformIdx_lt _ r hlen) _
        by_cases hdup : cage.any (fun cell => sol.get cell.row.toNat cell.col.toNat
            == sol.get nx.row.toNat nx.col.toNat) = true
        · rw [if_pos hdup]
          exact ih cage used _ hv hnd
        · rw [if_neg hdup]
          apply ih
          · intro cell hc
            rcases List.mem_append.1 hc with h2 | h2
            · exact hv cell h2
            · rw [List.mem_singleton.1 h2]
              rcases collectNeighbors_mem (hnb ▸ hnmem) with ⟨cell2, -, hadj⟩
              exact adjacentCells_valid _ hadj
          · rw [List.map_append, List.nodup_append]
            refine ⟨hnd, List.nodup_singleton _, ?_⟩
            intro v hvmem hvsing
            rw [List.map_singleton, List.mem_singleton] at hvsing
            rcases List.mem_map.1 hvmem with ⟨cell, hcmem, hceq⟩
            simp only [Bool.not_eq_true, List.any_eq_false] at hdup
            have h4 := hdup cell hcmem
            simp only [hceq, hvsing] at h4
            simp at h4
    · rw [if_neg hsize]
      exact ⟨hv, hnd⟩

theorem generateConnectedCage_inv {R : Type} {M : RngModel R} {sol : Grid}
    {used : List Cell} {ts : Int} {r : R} :
    (∀ cell ∈ (generateConnectedCage M sol used ts r).1, cell.isValid = true) ∧
    ((generateConnectedCage M sol used ts r).1.map fun cell =>
      sol.get cell.row.toNat cell.col.toNat).Nodup := by
  rw [generateConnectedCage]
  by_cases he : (allCells.filter fun c => decide (c ∉ used)).isEmpty
  · rw [if_pos he]
    exact ⟨fun cell h => absurd h (List.not_mem_nil cell), List.nodup_nil⟩
  · rw [if_neg he]
    have hlen : 0 < (allCells.filter fun c => decide (c ∉ used)).length := by
      rcases hl : allCells.filter fun c => decide (c ∉ used) with - | ⟨a, rest⟩
      · rw [hl] at he
        simp at he
      · simp [hl]
    have hsmem : (allCells.filter fun c => decide (c ∉ used)).getD
        (M.uniformIdx (allCells.filter fun c => decide (c ∉ used)).length r).1
        { row := 0, col := 0 } ∈ allCells.filter fun c => decide (c ∉ used) :=
      getD_mem (M.uniformIdx_lt _ r hlen) _
    apply growCage_inv
    · intro cell hc
      rw [List.mem_singleton.1 hc]
      exact allCells_valid _ (List.mem_of_mem_filter hsmem)
    · simp

end SudokuGenerator

namespace SudokuGenerator

theorem generateCagesGo_cons {R : Type} {M : RngModel R} {s : Grid} {mn mx : Int}
    (n : Nat) :
    ∀ (p : SudokuPuzzle) (used : List Cell) (r : R), ConsistentWith s p →
      ConsistentWith s (generateCagesGo M s mn mx n p used r).1 := by
  induction n with
  | zero => exact fun p used r hp => hp
  | succ n ih =>
    intro p used r hp
    simp only [generateCagesGo]
    apply ih
    by_cases hlen : 2 ≤ (generateConnectedCage M s used
        (M.uniformInt mn mx r).1 (M.uniformInt mn mx r).2).1.length
    · rw [if_pos hlen]
      exact cons_addCage hp generateConnectedCage_inv.1 generateConnectedCage_inv.2 rfl
    · rw [if_neg hlen]
      exact hp

theorem generateCagesFillAllGo_cons {R : Type} {M : RngModel R} {s : Grid}
    {mn mx : Int} (fuel : Nat) :
    ∀ (p : SudokuPuzzle) (used : List Cell) (r : R), ConsistentWith s p →
      ConsistentWith s (generateCagesFillAllGo M s mn mx fuel p used r).1 := by
  induction fuel with
  | zero => exact fun p used r hp => hp
  | succ fuel ih =>
    intro p used r hp
    simp only [generateCagesFillAllGo]
    by_cases hu : used.length < 81
    · rw [if_pos hu]
      set pr := M.uniformInt mn mx r with hpr
      set remaining : Int := 81 - (used.length : Int) with hrem
      set ts0 := if remaining < pr.1 then remaining else pr.1 with hts0
      set ts := if ts0 < mn && mn ≤ remaining then mn else ts0 with hts
      by_cases hlen : 1 ≤ (generateConnectedCage M s used ts pr.2).1.length
      · rw [if_pos hlen]
        apply ih
        exact cons_addCage hp generateConnectedCage_inv.1 generateConnectedCage_inv.2 rfl
      · rw [if_neg hlen]
        exact hp
    · rw [if_neg hu]
      exact hp

theorem addIneqsGo_cons {s : Grid} {numIneq : Int} :
    ∀ (pairsList : List (Cell × Cell)) (added : Int) (p : SudokuPuzzle),
      ConsistentWith s p →
      (∀ pr ∈ pairsList, pr.1.isValid = true ∧ pr.2.isValid = true) →
      ConsistentWith s (addIneqsGo s numIneq pairsList added p)
  | [], _, p, hp, _ => hp
  | pr :: rest, added, p, hp, hvalid => by
    simp only [addIneqsGo]
    by_cases hstop : numIneq ≤ added
    · rw [if_pos hstop]
      exact hp
    · rw [if_neg hstop]
      by_cases hne : s.get pr.1.row.toNat pr.1.col.toNat ≠ s.get pr.2.row.toNat pr.2.col.toNat
      · rw [if_pos hne]
        apply addIneqsGo_cons rest _ _ ?_ (fun q hq => hvalid q (List.mem_cons_of_mem _ hq))
        apply cons_addInequality hp (hvalid pr (List.mem_cons_self _ _)).1
          (hvalid pr (List.mem_cons_self _ _)).2
        by_cases hlt : s.get pr.2.row.toNat pr.2.col.toNat < s.get pr.1.row.toNat pr.1.col.toNat
        · rw [if_pos hlt]
          exact hlt
        · rw [if_neg hlt]
          show s.get pr.1.row.toNat pr.1.col.toNat < s.get pr.2.row.toNat pr.2.col.toNat
          omega
      · rw [if_neg hne]
        exact addIneqsGo_cons rest _ _ hp (fun q hq => hvalid q (List.mem_cons_of_mem _ hq))

theorem generateInequalities_cons {R : Type} {M : RngModel R} {s : Grid}
    {numIneq : Int} {p : SudokuPuzzle} {r : R} (hp : ConsistentWith s p) :
    ConsistentWith s (generateInequalities M s numIneq p r).1 := by
  rw [generateInequalities]
  exact addIneqsGo_cons _ 0 p hp fun q hq => allPairs_valid q (mem_shuffleL hq)

theorem addGivensGo_cons {s : Grid} {numGivens : Int} :
    ∀ (cells : List Cell) (added : Int) (p : SudokuPuzzle), ConsistentWith s p →
      ConsistentWith s (addGivensGo s numGivens cells added p)
  | [], _, p, hp => hp
  | cell :: rest, added, p, hp => by
    simp only [addGivensGo]
    by_cases hstop : numGivens ≤ added
    · rw [if_pos hstop]
      exact hp
    · rw [if_neg hstop]
      exact addGivensGo_cons rest _ _ (cons_setGiven hp _ _)

theorem addGivens_cons {R : Type} {M : RngModel R} {s : Grid} {numGivens : Int}
    {p : SudokuPuzzle} {r : R} (hp : ConsistentWith s p) :
    ConsistentWith s (addGivens M s numGivens p r).1 := by
  rw [addGivens]
  exact addGivensGo_cons _ 0 p hp

end SudokuGenerator

namespace SudokuGenerator

theorem verifyGivens_build {p : SudokuPuzzle} {g : Grid}
    (h : ∀ r : Nat, r < 9 → ∀ c : Nat, c < 9 →
      1 ≤ p.grid.get r c → p.grid.get r c ≤ 9 → g.get r c = p.grid.get r c) :
    SudokuSolver.verifyGivenValues p g = true := by
  rw [SudokuSolver.verifyGivenValues]
  simp only [List.all_eq_true, List.mem_range]
  intro r hr c hc
  simp only [Bool.or_eq_true, Bool.not_eq_true', Bool.and_eq_false_iff,
    decide_eq_false_iff_not, beq_iff_eq]
  by_cases hgiven : 1 ≤ p.grid.get r c ∧ p.grid.get r c ≤ 9
  · exact Or.inr (h r hr c hc hgiven.1 hgiven.2)
  · left
    omega

theorem verifyCages_build {p : SudokuPuzzle} {g : Grid}
    (h : ∀ cage ∈ p.cages,
      (cage.cells.map fun cell => g.get cell.row.toNat cell.col.toNat).Nodup ∧
      (cage.cells.map fun cell => g.get cell.row.toNat cell.col.toNat).sum
        = cage.targetSum) :
    SudokuSolver.verifyCageConstraints p g = true := by
  rw [SudokuSolver.verifyCageConstraints, List.all_eq_true]
  intro cage hmem
  rw [Bool.and_eq_true, allDistinct_iff_nodup]
  exact ⟨(h cage hmem).1, beq_iff_eq.2 (h cage hmem).2⟩

theorem verifyIneqs_build {p : SudokuPuzzle} {g : Grid}
    (h : ∀ iq ∈ p.inequalities, ineqHolds g iq) :
    SudokuSolver.verifyInequalityConstraints p g = true := by
  rw [SudokuSolver.verifyInequalityConstraints, List.all_eq_true]
  intro iq hmem
  have h2 := h iq hmem
  rw [ineqHolds] at h2
  cases htype : iq.type with
  | GREATER_THAN =>
    rw [htype] at h2
    simpa using h2
  | LESS_THAN =>
    rw [htype] at h2
    simpa using h2

theorem verify_build {s : Grid} {p : SudokuPuzzle} (hgood : GoodGrid s)
    (hcons : ConsistentWith s p) {sol : SudokuSolution}
    (hgrid : sol.grid = s) (hsolved : sol.solved = true) :
    SudokuSolver.verifySolution p sol = true := by
  rw [SudokuSolver.verifySolution, hgrid, hsolved]
  simp only [Bool.and_eq_true, Bool.or_eq_true]
  refine ⟨⟨⟨⟨trivial, hgood.1⟩, ?_⟩, ?_⟩, ?_⟩
  · apply verifyGivens_build
    intro r hr c hc h1 h9
    rcases hcons.gcells r hr c hc with h0 | he
    · omega
    · rw [he]
  · exact Or.inr (verifyCages_build fun cage hmem =>
      ⟨(hcons.cages cage hmem).2.1, (hcons.cages cage hmem).2.2⟩)
  · exact Or.inr (verifyIneqs_build fun iq hmem => (hcons.ineqs iq hmem).2.2)

theorem cons_satisfiable {s : Grid} {p : SudokuPuzzle} (hgood : GoodGrid s)
    (hcons : ConsistentWith s p) :
    cnfSat (canonAssign p s) (encodePuzzle p).1 = true := by
  refine canonAssign_satisfies hgood.1 ?_ ?_ ?_
  · intro r c hr hc h1 h9
    rcases hcons.gcells r hr c hc with h0 | he
    · omega
    · rw [he]
  · exact fun cage hmem _ => hcons.cages cage hmem
  · intro iq hmem _
    have h2 := (hcons.ineqs iq hmem).2.2
    rw [ineqHolds] at h2
    exact h2

theorem solve_solved_of_cons {sat : SatSolver} (hcomp : SatComplete sat)
    {s : Grid} {p : SudokuPuzzle} (hgood : GoodGrid s) (hcons : ConsistentWith s p)
    (cu : Bool) : (solveWith sat p cu).solved = true := by
  rcases hcomp _ _ (cons_satisfiable hgood hcons) with ⟨A, t, hA⟩
  rw [solveWith_first hA cu]
  cases cu
  · rw [if_neg (by simp)]
  · rw [if_pos rfl]

theorem solveWith_solved_inv {sat : SatSolver} {p : SudokuPuzzle} {cu : Bool}
    (h : (solveWith sat p cu).solved = true) :
    ∃ A : Assignment, ∃ t : Nat, sat (encodePuzzle p).1 = (some A, t) ∧
      (solveWith sat p cu).grid = decodeGrid A := by
  rcases hs : sat (encodePuzzle p).1 with ⟨o, t⟩
  cases o with
  | none =>
    rw [solveWith_none hs cu] at h
    cases h
  | some A =>
    refine ⟨A, t, rfl, ?_⟩
    rw [solveWith_first hs cu]
    cases cu
    · rw [if_neg (by simp)]
    · rw [if_pos rfl]

/-- A puzzle whose 81 cells are all given. -/
def fullGiven (p : SudokuPuzzle) : Prop :=
  ∀ r : Nat, r < 9 → ∀ c : Nat, c < 9 →
    1 ≤ p.grid.get r c ∧ p.grid.get r c ≤ 9

theorem solve_unique_of_full {sat : SatSolver} (hsound : SatSound sat)
    (hcomp : SatComplete sat) {s : Grid} {p : SudokuPuzzle} (hgood : GoodGrid s)
    (hcons : ConsistentWith s p) (hfull : fullGiven p) :
    (solveWith sat p true).isUnique = true := by
  rcases hcomp _ _ (cons_satisfiable hgood hcons) with ⟨A, t1, hA⟩
  have hAsat := hsound _ _ _ hA
  have hprim := sat_forces_primCanon hAsat (fun r c hr hc => hfull r hr c hc)
  have hdec : decodeGrid A = p.grid :=
    decodeGrid_eq_of hcons.glen hcons.grows fun r c hr hc =>
      decodeCell_canon hprim hr hc (hfull r hr c hc).1 (hfull r hr c hc).2
  rw [solveWith_first hA true, if_pos rfl]
  show (sat ((encodePuzzle p).1 ++ [blockingClause (decodeGrid A)])).1.isNone = true
  rw [hdec]
  rcases hsec : sat ((encodePuzzle p).1 ++ [blockingClause p.grid]) with ⟨o, t2⟩
  cases o with
  | none => rfl
  | some B =>
    have hBsat := hsound _ _ _ hsec
    rw [block_given_unsat hfull] at hBsat
    cases hBsat

end SudokuGenerator

namespace SudokuGenerator

/-- Number of still-empty cells of the puzzle grid. -/
def emptyCount (p : SudokuPuzzle) : Nat :=
  (allCells.filter fun c => p.grid.get c.row.toNat c.col.toNat == 0).length

theorem length_filter_mono {α : Type} :
    ∀ (l : List α) (q pr : α → Bool), (∀ x ∈ l, q x = true → pr x = true) →
      (l.filter q).length ≤ (l.filter pr).length
  | [], _, _, _ => le_refl _
  | y :: rest, q, pr, h => by
    rw [List.filter_cons, List.filter_cons]
    have ih := length_filter_mono rest q pr fun x hx => h x (List.mem_cons_of_mem _ hx)
    by_cases hq : q y = true
    · rw [if_pos hq, if_pos (h y (List.mem_cons_self _ _) hq)]
      simpa using ih
    · rw [if_neg hq]
      by_cases hp2 : pr y = true
      · rw [if_pos hp2]
        simp only [List.length_cons]
        omega
      · rw [if_neg hp2]
        exact ih

theorem length_filter_lt {α : Type} :
    ∀ (l : List α) (q pr : α → Bool), (∀ x ∈ l, q x = true → pr x = true) →
      (∃ x ∈ l, pr x = true ∧ q x = false) →
      (l.filter q).length < (l.filter pr).length
  | [], _, _, _, hw => by
    rcases hw with ⟨x, hx, -⟩
    cases hx
  | y :: rest, q, pr, h, hw => by
    rw [List.filter_cons, List.filter_cons]
    rcases hw with ⟨x, hx, hpx, hqx⟩
    rcases List.mem_cons.1 hx with rfl | hx2
    · rw [if_pos hpx, if_neg (by rw [hqx]; simp)]
      have := length_filter_mono rest q pr fun z hz => h z (List.mem_cons_of_mem _ hz)
      simp only [List.length_cons]
      omega
    · have ih := length_filter_lt rest q pr (fun z hz => h z (List.mem_cons_of_mem _ hz))
        ⟨x, hx2, hpx, hqx⟩
      by_cases hq : q y = true
      · rw [if_pos hq, if_pos (h y (List.mem_cons_self _ _) hq)]
        simpa using ih
      · rw [if_neg hq]
        by_cases hp2 : pr y = true
        · rw [if_pos hp2]
          simp only [List.length_cons]
          omega
        · rw [if_neg hp2]
          exact ih

theorem addGivensGo_stop {s : Grid} {numGivens : Int} :
    ∀ (cells : List Cell) (added : Int) (p : SudokuPuzzle), numGivens ≤ added →
      addGivensGo s numGivens cells added p = p
  | [], _, _, _ => rfl
  | cell :: rest, added, p, h => by
    simp only [addGivensGo]
    rw [if_pos h]

theorem addGivens_one {R : Type} {M : RngModel R} {s : Grid} {p : SudokuPuzzle} {r : R}
    (hne : (allCells.filter fun c => p.grid.get c.row.toNat c.col.toNat == 0) ≠ []) :
    ∃ c0 ∈ allCells.filter fun c => p.grid.get c.row.toNat c.col.toNat == 0,
      (addGivens M s 1 p r).1 = { p with grid := Grid.set p.grid c0.row.toNat c0.col.toNat (s.get c0.row.toNat c0.col.toNat) } := by
  rw [addGivens]
  rcases hsh : (shuffleL M ({ row := 0, col := 0 } : Cell)
      (allCells.filter fun c => p.grid.get c.row.toNat c.col.toNat == 0) r).1
    with - | ⟨c0, rest⟩
  · exfalso
    have hperm := shuffleL_perm M ({ row := 0, col := 0 } : Cell)
      (allCells.filter fun c => p.grid.get c.row.toNat c.col.toNat == 0) r
    rw [hsh] at hperm
    exact hne (List.Perm.eq_nil hperm.symm)
  · refine ⟨c0, ?_, ?_⟩
    · have hperm := shuffleL_perm M ({ row := 0, col := 0 } : Cell)
        (allCells.filter fun c => p.grid.get c.row.toNat c.col.toNat == 0) r
      exact hperm.mem_iff.1 (by rw [hsh]; exact List.mem_cons_self _ _)
    · have h2 : addGivensGo s 1 (c0 :: rest) 0 p = { p with grid := Grid.set p.grid c0.row.toNat c0.col.toNat (s.get c0.row.toNat c0.col.toNat) } := by
        simp only [addGivensGo]
        rw [if_neg (by omega)]
        exact addGivensGo_stop rest (0 + 1) _ (by omega)
      exact h2

theorem addGivens_decreases {R : Type} {M : RngModel R} {s : Grid} {p : SudokuPuzzle}
    {r : R} (hgood : GoodGrid s) (hcons : ConsistentWith s p)
    (hne : emptyCount p ≠ 0) :
    emptyCount (addGivens M s 1 p r).1 < emptyCount p := by
  have hlist : (allCells.filter fun c => p.grid.get c.row.toNat c.col.toNat == 0) ≠ [] := by
    intro h0
    rw [emptyCount, h0] at hne
    exact hne rfl
  rcases addGivens_one (M := M) (r := r) (s := s) hlist with ⟨c0, hc0, heq⟩
  obtain ⟨hc0mem, hc0empty⟩ := List.mem_filter.1 hc0
  have hc0v := allCells_valid c0 hc0mem
  obtain ⟨-, hc0r, hc0c⟩ := cell_coord hc0v
  have hrange := (verifyBasic_explode hgood.1).1 c0.row.toNat c0.col.toNat hc0r hc0c
  have hrowlen : c0.col.toNat < (p.grid.getD c0.row.toNat []).length := by
    rw [Grid.row_len hcons.glen hcons.grows hc0r]
    omega
  have hrlen : c0.row.toNat < p.grid.length := by
    rw [hcons.glen]
    omega
  rw [heq, emptyCount, emptyCount]
  apply length_filter_lt
  · intro x hx hq
    by_cases hsame : c0.row.toNat = x.row.toNat ∧ c0.col.toNat = x.col.toNat
    · exfalso
      rw [← hsame.1, ← hsame.2] at hq
      rw [Grid.get_set_eq hrlen hrowlen] at hq
      rw [beq_iff_eq] at hq
      omega
    · rw [Grid.get_set_ne (by tauto)] at hq
      exact hq
  · refine ⟨c0, hc0mem, hc0empty, ?_⟩
    rw [Grid.get_set_eq hrlen hrowlen]
    rw [beq_eq_false_iff_ne]
    omega

theorem full_of_emptyCount_zero {s : Grid} {p : SudokuPuzzle} (hgood : GoodGrid s)
    (hcons : ConsistentWith s p) (h0 : emptyCount p = 0) : fullGiven p := by
  intro r hr c hc
  have hnil : (allCells.filter fun cc => p.grid.get cc.row.toNat cc.col.toNat == 0) = [] :=
    List.length_eq_zero.1 h0
  have hmem := mem_allCells r hr c hc
  have hval : ¬(p.grid.get r c == 0) = true := by
    intro hq
    have : ({ row := (r : Int), col := (c : Int) } : Cell) ∈
        allCells.filter fun cc => p.grid.get cc.row.toNat cc.col.toNat == 0 := by
      rw [List.mem_filter]
      exact ⟨hmem, by simpa using hq⟩
    rw [hnil] at this
    cases this
  rcases hcons.gcells r hr c hc with he | he
  · exfalso
    apply hval
    rw [he]
    rfl
  · rw [he]
    exact (verifyBasic_explode hgood.1).1 r c hr hc

theorem repairLoop1_spec {R : Type} {M : RngModel R} {sat : SatSolver}
    {config : GeneratorConfig} {s : Grid} (fuel : Nat) :
    ∀ (p : SudokuPuzzle) (t : SudokuSolution) (r : R), ConsistentWith s p →
      t = solveWith sat p true →
      ConsistentWith s (repairLoop1 M sat config s fuel p t r).1 ∧
      (repairLoop1 M sat config s fuel p t r).2.1
        = solveWith sat (repairLoop1 M sat config s fuel p t r).1 true := by
  induction fuel with
  | zero => exact fun p t r hp ht => ⟨hp, ht⟩
  | succ fuel ih =>
    intro p t r hp ht
    simp only [repairLoop1]
    by_cases hcond : (t.solved && !t.isUnique) = true
    · rw [if_pos hcond]
      by_cases htype : (config.type == SudokuType.INEQUALITY
          || config.type == SudokuType.KILLER_INEQUALITY) = true
      · rw [if_pos htype]
        exact ih _ _ _ (generateInequalities_cons hp) rfl
      · rw [if_neg htype]
        exact ih _ _ _ (addGivens_cons hp) rfl
    · rw [if_neg hcond]
      exact ⟨hp, ht⟩

theorem repairLoop2_spec {R : Type} {M : RngModel R} {sat : SatSolver}
    (hsound : SatSound sat) (hcomp : SatComplete sat) {s : Grid}
    (hgood : GoodGrid s) (fuel : Nat) :
    ∀ (p : SudokuPuzzle) (t : SudokuSolution) (r : R), ConsistentWith s p →
      t = solveWith sat p true → emptyCount p ≤ fuel →
      ConsistentWith s (repairLoop2 M sat s fuel p t r).1 ∧
      (repairLoop2 M sat s fuel p t r).2.1
        = solveWith sat (repairLoop2 M sat s fuel p t r).1 true ∧
      ((repairLoop2 M sat s fuel p t r).2.1).isUnique = true := by
  induction fuel with
  | zero =>
    intro p t r hp ht hcount
    refine ⟨hp, ht, ?_⟩
    have hfull : fullGiven p := full_of_emptyCount_zero hgood hp (by omega)
    rw [ht]
    exact solve_unique_of_full hsound hcomp hgood hp hfull
  | succ fuel ih =>
    intro p t r hp ht hcount
    simp only [repairLoop2]
    by_cases hcond : (t.solved && !t.isUnique) = true
    · rw [if_pos hcond]
      have hne : emptyCount p ≠ 0 := by
        intro h0
        have hfull := full_of_emptyCount_zero hgood hp h0
        have huniq := solve_unique_of_full hsound hcomp hgood hp hfull
        rw [← ht] at huniq
        rw [Bool.and_eq_true, huniq] at hcond
        simp at hcond
      refine ih _ _ _ (addGivens_cons hp) rfl ?_
      have := addGivens_decreases (M := M) (r := r) hgood hp hne
      omega
    · rw [if_neg hcond]
      refine ⟨hp, ht, ?_⟩
      have hsolved : t.solved = true := by
        rw [ht]
        exact solve_solved_of_cons hcomp hgood hp true
      by_contra hu
      rw [Bool.not_eq_true] at hu
      apply hcond
      rw [Bool.and_eq_true, hsolved, hu]
      exact ⟨rfl, rfl⟩

end SudokuGenerator

namespace SudokuGenerator

theorem keepFiltered_eq {α : Type} (orig : List α) (removed : List Nat) (skip : Nat) :
    keepFiltered orig removed skip = keepAll orig (removed ++ [skip]) := by
  rw [keepFiltered, keepAll]
  congr 1
  apply List.filter_congr
  intro ia _
  rw [decide_eq_decide]
  simp [List.mem_append, not_or]

theorem enum_snd_mem {α : Type} {l : List α} {ia : Nat × α} (h : ia ∈ l.enum) :
    ia.2 ∈ l := by
  rcases ia with ⟨i, a⟩
  rw [List.enum_eq_zip_range] at h
  exact (List.of_mem_zip h).2

theorem keepAll_sub {α : Type} {orig : List α} {removed : List Nat} {x : α}
    (h : x ∈ keepAll orig removed) : x ∈ orig := by
  rw [keepAll] at h
  rcases List.mem_map.1 h with ⟨ia, hmem, rfl⟩
  exact enum_snd_mem (List.mem_of_mem_filter hmem)

theorem keepFiltered_sub {α : Type} {orig : List α} {removed : List Nat} {skip : Nat}
    {x : α} (h : x ∈ keepFiltered orig removed skip) : x ∈ orig := by
  rw [keepFiltered_eq] at h
  exact keepAll_sub h

theorem keepAll_nil {α : Type} (orig : List α) : keepAll orig [] = orig := by
  rw [keepAll]
  have h : (orig.enum.filter fun ia => decide ((ia.1 : Nat) ∉ ([] : List Nat)))
      = orig.enum := by
    apply List.filter_eq_self.2
    intro ia _
    simp
  rw [h]
  exact List.enum_map_snd orig

theorem minIneqGo_spec {sat : SatSolver} {s : Grid}
    {orig : List InequalityConstraint}
    (horig : ∀ iq ∈ orig, iq.cell1.isValid = true ∧ iq.cell2.isValid = true ∧
      ineqHolds s iq) :
    ∀ (idxs removed : List Nat) (p : SudokuPuzzle), ConsistentWith s p →
      (solveWith sat p true).isUnique = true →
      p.inequalities = keepAll orig removed →
      ConsistentWith s (minIneqGo sat orig idxs removed p) ∧
      (solveWith sat (minIneqGo sat orig idxs removed p) true).isUnique = true
  | [], _, p, hp, hu, _ => ⟨hp, hu⟩
  | idx :: rest, removed, p, hp, hu, hinv => by
    simp only [minIneqGo]
    by_cases htest : ((solveWith sat { p with inequalities := keepFiltered orig removed idx } true).solved
        && (solveWith sat { p with inequalities := keepFiltered orig removed idx } true).isUnique) = true
    · rw [if_pos htest]
      apply minIneqGo_spec horig rest (removed ++ [idx]) _ ?_ ?_ ?_
      · exact ⟨hp.glen, hp.grows, hp.gcells, hp.cages,
          fun iq hiq => horig iq (keepFiltered_sub hiq)⟩
      · rw [Bool.and_eq_true] at htest
        exact htest.2
      · show keepFiltered orig removed idx = _
        exact keepFiltered_eq orig removed idx
    · rw [if_neg htest]
      have hrestore : { p with inequalities := keepAll orig removed } = p := by
        rw [← hinv]
      rw [hrestore]
      exact minIneqGo_spec horig rest removed p hp hu hinv

theorem minCageGo_spec {sat : SatSolver} {s : Grid} {orig : List Cage}
    (horig : ∀ cage ∈ orig,
      (∀ cell ∈ cage.cells, cell.isValid = true) ∧
      (cage.cells.map fun cell => s.get cell.row.toNat cell.col.toNat).Nodup ∧
      (cage.cells.map fun cell => s.get cell.row.toNat cell.col.toNat).sum
        = cage.targetSum) :
    ∀ (idxs removed : List Nat) (p : SudokuPuzzle), ConsistentWith s p →
      (solveWith sat p true).isUnique = true →
      p.cages = keepAll orig removed →
      ConsistentWith s (minCageGo sat orig idxs removed p) ∧
      (solveWith sat (minCageGo sat orig idxs removed p) true).isUnique = true
  | [], _, p, hp, hu, _ => ⟨hp, hu⟩
  | idx :: rest, removed, p, hp, hu, hinv => by
    simp only [minCageGo]
    by_cases htest : ((solveWith sat { p with cages := keepFiltered orig removed idx } true).solved
        && (solveWith sat { p with cages := keepFiltered orig removed idx } true).isUnique) = true
    · rw [if_pos htest]
      apply minCageGo_spec horig rest (removed ++ [idx]) _ ?_ ?_ ?_
      · exact ⟨hp.glen, hp.grows, hp.gcells,
          (fun cage hc => horig cage (keepFiltered_sub hc)), hp.ineqs⟩
      · rw [Bool.and_eq_true] at htest
        exact htest.2
      · show keepFiltered orig removed idx = _
        exact keepFiltered_eq orig removed idx
    · rw [if_neg htest]
      have hrestore : { p with cages := keepAll orig removed } = p := by
        rw [← hinv]
      rw [hrestore]
      exact minCageGo_spec horig rest removed p hp hu hinv

theorem minGivensGo_spec {sat : SatSolver} {s : Grid} :
    ∀ (cells : List Cell) (p : SudokuPuzzle), ConsistentWith s p →
      (solveWith sat p true).isUnique = true →
      ConsistentWith s (minGivensGo sat cells p) ∧
      (solveWith sat (minGivensGo sat cells p) true).isUnique = true
  | [], p, hp, hu => ⟨hp, hu⟩
  | cell :: rest, p, hp, hu => by
    simp only [minGivensGo]
    by_cases htest : ((!(solveWith sat { p with grid := Grid.set p.grid cell.row.toNat cell.col.toNat 0 } true).solved)
        || (!(solveWith sat { p with grid := Grid.set p.grid cell.row.toNat cell.col.toNat 0 } true).isUnique)) = true
    · rw [if_pos htest]
      exact minGivensGo_spec rest p hp hu
    · rw [if_neg htest]
      have h2 : (solveWith sat { p with grid := Grid.set p.grid cell.row.toNat cell.col.toNat 0 } true).isUnique = true := by
        by_contra hbad
        apply htest
        rw [Bool.or_eq_true]
        right
        rw [Bool.not_eq_true] at hbad
        rw [hbad]
        rfl
      exact minGivensGo_spec rest _ (cons_setZero hp _ _) h2

theorem minPhase1_spec {R : Type} {M : RngModel R} {sat : SatSolver} {s : Grid}
    {st : SudokuPuzzle × R} (hp : ConsistentWith s st.1)
    (hu : (solveWith sat st.1 true).isUnique = true) :
    ConsistentWith s (minPhase1 M sat st).1 ∧
    (solveWith sat (minPhase1 M sat st).1 true).isUnique = true := by
  rw [minPhase1]
  by_cases he : st.1.inequalities.isEmpty
  · rw [if_pos he]
    exact ⟨hp, hu⟩
  · rw [if_neg he]
    exact minIneqGo_spec (fun iq hiq => hp.ineqs iq hiq) _ [] st.1 hp hu
      (keepAll_nil _).symm

theorem minPhase2_spec {R : Type} {M : RngModel R} {sat : SatSolver} {s : Grid}
    {st : SudokuPuzzle × R} (hp : ConsistentWith s st.1)
    (hu : (solveWith sat st.1 true).isUnique = true) :
    ConsistentWith s (minPhase2 M sat st).1 ∧
    (solveWith sat (minPhase2 M sat st).1 true).isUnique = true := by
  rw [minPhase2]
  by_cases he : st.1.cages.isEmpty
  · rw [if_pos he]
    exact ⟨hp, hu⟩
  · rw [if_neg he]
    exact minCageGo_spec (fun cage hc => hp.cages cage hc) _ [] st.1 hp hu
      (keepAll_nil _).symm

theorem minPhase3_spec {R : Type} {M : RngModel R} {sat : SatSolver} {s : Grid}
    {st : SudokuPuzzle × R} (hp : ConsistentWith s st.1)
    (hu : (solveWith sat st.1 true).isUnique = true) :
    ConsistentWith s (minPhase3 M sat st).1 ∧
    (solveWith sat (minPhase3 M sat st).1 true).isUnique = true := by
  rw [minPhase3]
  by_cases he : (allCells.filter fun c =>
      !(st.1.grid.get c.row.toNat c.col.toNat == 0)).isEmpty
  · rw [if_pos he]
    exact ⟨hp, hu⟩
  · rw [if_neg he]
    exact minGivensGo_spec _ st.1 hp hu

theorem minimizeConstraints_spec {R : Type} {M : RngModel R} {sat : SatSolver}
    {s : Grid} {p : SudokuPuzzle} {r : R} (hp : ConsistentWith s p)
    (hu : (solveWith sat p true).isUnique = true) :
    ConsistentWith s (minimizeConstraints M sat p r).1 ∧
    (solveWith sat (minimizeConstraints M sat p r).1 true).isUnique = true := by
  rw [minimizeConstraints]
  have h1 := @minPhase1_spec R M sat s (p, r) hp hu
  have h2 := @minPhase2_spec R M sat s _ h1.1 h1.2
  exact @minPhase3_spec R M sat s _ h2.1 h2.2

end SudokuGenerator

/-! ## End-to-end generator correctness -/

theorem empty_puzzle_sat :
    cnfSat (canonAssign {} demoGrid) (encodePuzzle ({} : SudokuPuzzle)).1 = true := by
  refine canonAssign_satisfies (by decide) ?_ ?_ ?_
  · intro r c hr hc h1 h9
    have h0 : ({} : SudokuPuzzle).grid.get r c = 0 := SudokuGenerator.emptyGrid_get r c
    rw [h0] at h1
    omega
  · intro cage hmem
    exact absurd hmem (List.not_mem_nil cage)
  · intro iq hmem
    exact absurd hmem (List.not_mem_nil iq)

namespace SudokuGenerator

theorem solveWith_good {sat : SatSolver} (hsound : SatSound sat) {p : SudokuPuzzle}
    {cu : Bool} (h : (solveWith sat p cu).solved = true) :
    GoodGrid (solveWith sat p cu).grid := by
  rcases solveWith_solved_inv h with ⟨A, t, hA, hgrid⟩
  have hsat := hsound _ _ _ hA
  obtain ⟨hcell, hrow, hcol, hbox, -, -, -⟩ := encode_parts hsat
  rw [hgrid]
  exact ⟨verifyBasic_of_sat hcell hrow hcol hbox, (decodeGrid_shape A).1,
    (decodeGrid_shape A).2⟩

theorem completeSolution_spec {R : Type} {M : RngModel R} {sat : SatSolver}
    (hsound : SatSound sat) (hcomp : SatComplete sat) (r : R) :
    (completeSolution M sat r).1.solved = true ∧
    GoodGrid (completeSolution M sat r).1.grid := by
  rw [completeSolution]
  by_cases hs : (generateCompleteSolution M sat r).1.solved = true
  · rw [if_pos hs]
    exact ⟨hs, solveWith_good hsound hs⟩
  · rw [if_neg hs]
    rcases hcomp _ _ empty_puzzle_sat with ⟨A, t, hA⟩
    have hsolved : (solveWith sat ({} : SudokuPuzzle) false).solved = true := by
      rw [solveWith_first hA false, if_neg (by simp)]
    exact ⟨hsolved, solveWith_good hsound hsolved⟩

theorem genStep2_cons {R : Type} {M : RngModel R} {config : GeneratorConfig}
    {s : Grid} {st : SudokuPuzzle × R} (hp : ConsistentWith s st.1) :
    ConsistentWith s (genStep2 M config s st).1 := by
  rw [genStep2]
  by_cases h1 : (config.type == SudokuType.KILLER
      || config.type == SudokuType.KILLER_INEQUALITY) = true
  · rw [if_pos h1]
    by_cases h2 : config.fillAllCells = true
    · rw [if_pos h2]
      exact generateCagesFillAllGo_cons _ _ _ _ hp
    · rw [if_neg h2]
      exact generateCagesGo_cons _ _ _ _ hp
  · rw [if_neg h1]
    exact hp

theorem genStep3_cons {R : Type} {M : RngModel R} {config : GeneratorConfig}
    {s : Grid} {st : SudokuPuzzle × R} (hp : ConsistentWith s st.1) :
    ConsistentWith s (genStep3 M config s st).1 := by
  rw [genStep3]
  by_cases h1 : (config.type == SudokuType.INEQUALITY
      || config.type == SudokuType.KILLER_INEQUALITY) = true
  · rw [if_pos h1]
    exact generateInequalities_cons hp
  · rw [if_neg h1]
    exact hp

theorem genStep4_cons {R : Type} {M : RngModel R} {config : GeneratorConfig}
    {s : Grid} {st : SudokuPuzzle × R} (hp : ConsistentWith s st.1) :
    ConsistentWith s (genStep4 M config s st).1 := by
  rw [genStep4]
  by_cases h1 : 0 < config.maxGivens
  · rw [if_pos h1]
    exact addGivens_cons hp
  · rw [if_neg h1]
    exact hp

theorem allCells_length : allCells.length = 81 := by decide

theorem genStep5_spec {R : Type} {M : RngModel R} {sat : SatSolver}
    (hsound : SatSound sat) (hcomp : SatComplete sat) {config : GeneratorConfig}
    {s : Grid} (hgood : GoodGrid s) {st : SudokuPuzzle × R}
    (hp : ConsistentWith s st.1) :
    ConsistentWith s (genStep5 M sat config s st).1 ∧
    (config.ensureUniqueSolution = true →
      (solveWith sat (genStep5 M sat config s st).1 true).isUnique = true) := by
  rw [genStep5]
  by_cases hE : config.ensureUniqueSolution = true
  · rw [if_pos hE]
    obtain ⟨h4c, h4t⟩ := @repairLoop1_spec R M sat config _ 10 st.1
      (solveWith sat st.1 true) st.2 hp rfl
    have hcount : emptyCount (repairLoop1 M sat config s 10 st.1
        (solveWith sat st.1 true) st.2).1 ≤ 81 := by
      rw [emptyCount]
      calc (allCells.filter _).length ≤ allCells.length := List.length_filter_le _ _
        _ = 81 := allCells_length
    obtain ⟨h5c, h5t, h5u⟩ := repairLoop2_spec hsound hcomp hgood 81 _ _ _ h4c h4t hcount
    have hu5 : (solveWith sat (repairLoop2 M sat s 81
        (repairLoop1 M sat config s 10 st.1 (solveWith sat st.1 true) st.2).1
        (repairLoop1 M sat config s 10 st.1 (solveWith sat st.1 true) st.2).2.1
        (repairLoop1 M sat config s 10 st.1 (solveWith sat st.1 true) st.2).2.2).1
        true).isUnique = true := by
      rw [← h5t]
      exact h5u
    obtain ⟨h6c, h6u⟩ := minimizeConstraints_spec h5c hu5
    exact ⟨h6c, fun _ => h6u⟩
  · rw [if_neg hE]
    exact ⟨hp, fun hcontra => absurd hcontra hE⟩

theorem generateGo_spec {R : Type} (M : RngModel R) (sat : SatSolver)
    (hsound : SatSound sat) (hcomp : SatComplete sat) (config : GeneratorConfig)
    (r : R) :
    SudokuSolver.verifySolution (generateGo M sat config r).1
      (generateGo M sat config r).2.1 = true ∧
    (config.ensureUniqueSolution = true →
      (solveWith sat (generateGo M sat config r).1 true).solved = true ∧
      (solveWith sat (generateGo M sat config r).1 true).isUnique = true) := by
  obtain ⟨hsolved, hgood⟩ := completeSolution_spec (M := M) hsound hcomp r
  have hc0 : ConsistentWith (completeSolution M sat r).1.grid ({} : SudokuPuzzle) :=
    cons_empty _
  have hc2 := @genStep2_cons R M config _
    (({} : SudokuPuzzle), (completeSolution M sat r).2) hc0
  have hc3 := @genStep3_cons R M config _ _ hc2
  have hc4 := @genStep4_cons R M config _ _ hc3
  obtain ⟨hc5, hu5⟩ := genStep5_spec (M := M) hsound hcomp hgood hc4
  constructor
  · exact verify_build hgood hc5 rfl hsolved
  · intro hE
    exact ⟨solve_solved_of_cons hcomp hgood hc5 true, hu5 hE⟩

end SudokuGenerator

/-- C3: under a sound and complete SAT oracle, every generator run returns a
puzzle whose constraints the returned complete solution verifies; and when
`ensureUniqueSolution` is set, the returned puzzle solves with
`uniqueness = UNIQUE` (the repair loops terminate because a fully-given
puzzle is trivially unique, and minimization only keeps removals preserving
uniqueness). -/
theorem generator_correct {R : Type} (M : RngModel R) (sat : SatSolver)
    (config : GeneratorConfig) (r0 : R)
    (hsound : SatSound sat) (hcomp : SatComplete sat) :
    SudokuSolver.verifySolution
      (SudokuGenerator.generateWithSolution M sat config r0).1
      (SudokuGenerator.generateWithSolution M sat config r0).2.1 = true ∧
    (config.ensureUniqueSolution = true →
      (solveWith sat (SudokuGenerator.generateWithSolution M sat config r0).1
        true).solved = true ∧
      (solveWith sat (SudokuGenerator.generateWithSolution M sat config r0).1
        true).isUnique = true) := by
  rw [SudokuGenerator.generateWithSolution]
  exact SudokuGenerator.generateGo_spec M sat hsound hcomp config _

theorem generator_correct_witness :
    SudokuSolver.verifySolution
      (SudokuGenerator.generateWithSolution trivialRng bruteSat {} ()).1
      (SudokuGenerator.generateWithSolution trivialRng bruteSat {} ()).2.1 = true ∧
    (({} : GeneratorConfig).ensureUniqueSolution = true →
      (solveWith bruteSat
        (SudokuGenerator.generateWithSolution trivialRng bruteSat {} ()).1
        true).solved = true ∧
      (solveWith bruteSat
        (SudokuGenerator.generateWithSolution trivialRng bruteSat {} ()).1
        true).isUnique = true) :=
  generator_correct trivialRng bruteSat {} () bruteSat_is_sound bruteSat_is_complete

/-! ## The permutation cage-sum encoder (part_007's `SudokuEncoder::encodeCageSum`)

The older encoder enumerates, for each admissible value combination, every
assignment of its values to the cage's cells: `std::sort` on the (already
strictly increasing) combination followed by the `std::next_permutation`
do-while loop visits each permutation of the combination exactly once, which
is modelled with `List.permutations` over the sorted combination. -/

/-- The valid assignments contributed by one combination: each permutation of
the sorted combination, paired positionally with the cage cells. -/
def assignmentsOf (cells : List Cell) (combo : List Int) : List (List (Cell × Int)) :=
  ((List.insertionSort (· ≤ ·) combo).permutations).map fun perm => cells.zip perm

/-- part_007's `SudokuEncoder::encodeCageSum`: an empty combination list gives
the empty clause; a single valid assignment is asserted by unit clauses; and
otherwise one fresh variable per assignment, an at-least-one clause over them,
and implications from each assignment variable to its cell values. -/
def encodeCageSumPerm (cage : Cage) (next : Int) : Cnf × Int :=
  match generateSumCombinations cage.cells.length cage.targetSum with
  | [] => ([([] : Clause)], next)
  | cs =>
    match cs.flatMap (assignmentsOf cage.cells) with
    | [a0] => (a0.map fun pr => [(getVar pr.1.row pr.1.col pr.2, true)], next)
    | vas =>
      let k := vas.length
      let assignVars := (List.range k).map fun (i : Nat) => next + (i : Int)
      ((assignVars.map fun v => (v, true)) ::
        ((vas.zip assignVars).flatMap fun pa =>
          pa.1.map fun pr => [(pa.2, false), (getVar pr.1.row pr.1.col pr.2, true)]),
       next + (k : Int))

/-- part_007's `SudokuEncoder::encodeCageConstraints`: same skeleton as the
combination version, with the permutation sum encoder. -/
def encodeCageConstraintsPerm (cages : List Cage) (next : Int) : Cnf × Int :=
  match cages with
  | [] => ([], next)
  | cage :: rest =>
    if cage.isValid then
      let res := encodeCageSumPerm cage next
      let restRes := encodeCageConstraintsPerm rest res.2
      (res.1 ++ encodeCageUniqueness cage ++ restRes.1, restRes.2)
    else encodeCageConstraintsPerm rest next

/-- The CNF part_007's `solve` builds: identical basic, given and inequality
clauses, with the permutation cage encoding. -/
def encodePuzzlePerm (p : SudokuPuzzle) : Cnf × Int :=
  let base := cellClauses ++ rowClauses ++ colClauses ++ boxClauses ++ givenClauses p
  let cageRes := if p.hasKillerConstraints then encodeCageConstraintsPerm p.cages 729
    else ([], 729)
  let ineqCls := if p.hasInequalityConstraints then
    encodeInequalityConstraints p.inequalities else []
  (base ++ cageRes.1 ++ ineqCls, cageRes.2)

/-- part_007's `SudokuEncoder::solve` (no uniqueness re-solve) over the
permutation encoding. -/
def solveWithPerm (sat : SatSolver) (p : SudokuPuzzle) : SudokuSolution :=
  match sat (encodePuzzlePerm p).1 with
  | (none, t) =>
    { solved := false, errorMessage := "No solution exists for the given puzzle.",
      solveTimeMs := t }
  | (some A, t1) => { grid := decodeGrid A, solved := true, solveTimeMs := t1 }

/-- The valid assignment matching a grid: each cage cell paired with its own
grid value. -/
def canonCageAssign (cage : Cage) (g : Grid) : List (Cell × Int) :=
  cage.cells.zip (cage.cells.map fun cell => g.get cell.row.toNat cell.col.toNat)

/-- The full valid-assignment list of a cage in the permutation encoding. -/
def vasOf (cage : Cage) : List (List (Cell × Int)) :=
  (generateSumCombinations cage.cells.length cage.targetSum).flatMap
    (assignmentsOf cage.cells)

/-- The canonical extension for the permutation encoding: an assignment
variable is true exactly when its valid assignment pairs each cage cell with
its value in the grid `g`. -/
def extendCagesPerm (cages : List Cage) (g : Grid) (next : Int) (A : Assignment) :
    Assignment :=
  match cages with
  | [] => A
  | cage :: rest =>
    if cage.isValid then
      if (generateSumCombinations cage.cells.length cage.targetSum).isEmpty then
        extendCagesPerm rest g next A
      else if (vasOf cage).length = 1 then extendCagesPerm rest g next A
      else
        extendCagesPerm rest g (next + ((vasOf cage).length : Int))
          (fun v =>
            if next ≤ v && v < next + ((vasOf cage).length : Int) then
              (vasOf cage)[(v - next).toNat]? == some (canonCageAssign cage g)
            else A v)
    else extendCagesPerm rest g next A

/-! ## Models are canonical on the primaries; decoding only reads primaries -/

theorem model_primCanon {A : Assignment} (hcell : cnfSat A cellClauses = true) :
    PrimCanon A (decodeGrid A) := by
  intro v h0 h7
  set r : Nat := (v / 81).toNat with hrdef
  set c : Nat := ((v % 81) / 9).toNat with hcdef
  set val : Int := v % 9 + 1 with hvaldef
  have hr : r < 9 := by omega
  have hc : c < 9 := by omega
  have hval1 : 1 ≤ val := by omega
  have hval9 : val ≤ 9 := by omega
  have hvar : getVar r c val = v := by
    unfold getVar
    have h1 : ((v / 81).toNat : Int) = v / 81 := Int.toNat_of_nonneg (by omega)
    have h2 : (((v % 81) / 9).toNat : Int) = (v % 81) / 9 := Int.toNat_of_nonneg (by omega)
    rw [hrdef, hcdef, h1, h2]
    omega
  have hblock := cellBlock_of_sat hcell hr hc
  obtain ⟨hdm, hdA⟩ := decodeCell_spec hblock
  have hcanon : canonPrimary (decodeGrid A) v = ((decodeGrid A).get r c == val) := by
    rw [canonPrimary, if_pos (by simp only [Bool.and_eq_true, decide_eq_true_eq]; omega)]
  rw [hcanon, decodeGrid_get hr hc]
  by_cases heq : decodeCell A r c = val
  · rw [← hvar]
    have hg2 : ((decodeCell A r c == val) : Bool) = true := by simp [heq]
    rw [hg2, ← heq]
    exact hdA
  · have hAv : A v = false := by
      by_contra hAt
      rw [Bool.not_eq_false] at hAt
      exact cellBlock_unique hblock hdm (mem_valsList.2 ⟨hval1, hval9⟩) heq hdA
        (by rw [hvar]; exact hAt)
    rw [hAv]
    have hne : (decodeCell A r c == val) = false := by simp [heq]
    rw [hne]

theorem find?_congr2 {α : Type} {p q : α → Bool} :
    ∀ l : List α, (∀ a ∈ l, p a = q a) → l.find? p = l.find? q
  | [], _ => rfl
  | a :: rest, h => by
    rw [List.find?_cons, List.find?_cons, h a (List.mem_cons_self _ _)]
    cases hqa : q a
    · exact find?_congr2 rest fun b hb => h b (List.mem_cons_of_mem _ hb)
    · rfl

theorem decodeCell_agree {A B : Assignment}
    (h : ∀ v : Int, 0 ≤ v → v < 729 → A v = B v) {r c : Nat} (hr : r < 9) (hc : c < 9) :
    decodeCell A r c = decodeCell B r c := by
  rw [decodeCell, decodeCell]
  have hfind : valsList.find? (fun v => A (getVar r c v))
      = valsList.find? (fun v => B (getVar r c v)) := by
    apply find?_congr2
    intro a ha
    rcases mem_valsList.1 ha with ⟨h1, h9⟩
    obtain ⟨hb0, hb7⟩ := getVar_lt_729 (by omega : (0:Int) ≤ (r:Int)) (by omega)
      (by omega : (0:Int) ≤ (c:Int)) (by omega) h1 h9
    rw [h _ hb0 hb7]
  rw [hfind]

theorem decodeGrid_agree {A B : Assignment}
    (h : ∀ v : Int, 0 ≤ v → v < 729 → A v = B v) : decodeGrid A = decodeGrid B := by
  rw [decodeGrid, decodeGrid]
  apply List.map_congr_left
  intro r hr
  apply List.map_congr_left
  intro c hc
  exact decodeCell_agree h (List.mem_range.1 hr) (List.mem_range.1 hc)

/-- Splitting a model of the permutation-encoded puzzle into its parts. -/
theorem permEncode_parts {A : Assignment} {p : SudokuPuzzle}
    (h : cnfSat A (encodePuzzlePerm p).1 = true) :
    cnfSat A cellClauses = true ∧ cnfSat A rowClauses = true ∧
    cnfSat A colClauses = true ∧ cnfSat A boxClauses = true ∧
    cnfSat A (givenClauses p) = true ∧
    (p.cages ≠ [] → cnfSat A (encodeCageConstraintsPerm p.cages 729).1 = true) ∧
    (p.inequalities ≠ [] → cnfSat A (encodeInequalityConstraints p.inequalities) = true) := by
  have hsub : ∀ g : Cnf, g ⊆ (encodePuzzlePerm p).1 → cnfSat A g = true :=
    fun g hg => cnfSat_of_sub hg h
  simp only [encodePuzzlePerm] at hsub
  refine ⟨?_, ?_, ?_, ?_, ?_, ?_, ?_⟩
  · exact hsub _ (fun x hx => by simp [hx])
  · exact hsub _ (fun x hx => by simp [hx])
  · exact hsub _ (fun x hx => by simp [hx])
  · exact hsub _ (fun x hx => by simp [hx])
  · exact hsub _ (fun x hx => by simp [hx])
  · intro hne
    refine hsub _ (fun x hx => ?_)
    have hk : p.hasKillerConstraints = true := by
      simp [SudokuPuzzle.hasKillerConstraints, hne]
    simp [hk, hx]
  · intro hne
    refine hsub _ (fun x hx => ?_)
    have hk : p.hasInequalityConstraints = true := by
      simp [SudokuPuzzle.hasInequalityConstraints, hne]
    simp [hk, hx]

/-- A valid cage's permutation clauses occur (for some offset) inside the list
emitted by `encodeCageConstraintsPerm`. -/
theorem cage_clauses_sub_perm {cages : List Cage} {next : Int} {cage : Cage}
    (hmem : cage ∈ cages) (hval : cage.isValid = true) :
    ∃ n : Int, (encodeCageSumPerm cage n).1 ++ encodeCageUniqueness cage
      ⊆ (encodeCageConstraintsPerm cages next).1 := by
  induction cages generalizing next with
  | nil => cases hmem
  | cons c rest ih =>
    rcases List.mem_cons.1 hmem with rfl | hmem2
    · refine ⟨next, ?_⟩
      rw [encodeCageConstraintsPerm, if_pos hval]
      intro x hx
      rcases List.mem_append.1 hx with hx | hx
      · simp [hx]
      · simp [hx]
    · by_cases hcval : c.isValid
      · rcases @ih ((encodeCageSumPerm c next).2) hmem2 with ⟨n, hn⟩
        refine ⟨n, ?_⟩
        rw [encodeCageConstraintsPerm, if_pos hcval]
        intro x hx
        simp only [List.append_assoc, List.mem_append]
        right; right
        exact hn hx
      · rcases @ih next hmem2 with ⟨n, hn⟩
        refine ⟨n, ?_⟩
        rw [encodeCageConstraintsPerm, if_neg hcval]
        exact hn

/-! ## Soundness of the permutation cage encoding -/

theorem mem_assignmentsOf {cells : List Cell} {combo : List Int} {a : List (Cell × Int)}
    (h : a ∈ assignmentsOf cells combo) :
    ∃ perm : List Int, perm.Perm combo ∧ a = cells.zip perm := by
  rw [assignmentsOf] at h
  rcases List.mem_map.1 h with ⟨perm, hperm, rfl⟩
  rw [List.mem_permutations] at hperm
  exact ⟨perm, hperm.trans (List.perm_insertionSort (· ≤ ·) combo), rfl⟩

theorem canon_assignment_mem {cells : List Cell} {g : Grid} {combo : List Int}
    (hperm : (cells.map fun cell => g.get cell.row.toNat cell.col.toNat).Perm combo) :
    cells.zip (cells.map fun cell => g.get cell.row.toNat cell.col.toNat)
      ∈ assignmentsOf cells combo := by
  rw [assignmentsOf]
  refine List.mem_map.2 ⟨_, ?_, rfl⟩
  rw [List.mem_permutations]
  exact hperm.trans (List.perm_insertionSort (· ≤ ·) combo).symm

theorem mem_vas {cage : Cage} {a : List (Cell × Int)}
    (h : a ∈ (generateSumCombinations cage.cells.length cage.targetSum).flatMap
      (assignmentsOf cage.cells)) :
    ∃ combo ∈ generateSumCombinations cage.cells.length cage.targetSum,
      ∃ perm : List Int, perm.Perm combo ∧ a = cage.cells.zip perm := by
  rcases List.mem_flatMap.1 h with ⟨combo, hc, ha⟩
  rcases mem_assignmentsOf ha with ⟨perm, hp, rfl⟩
  exact ⟨combo, hc, perm, hp, rfl⟩

theorem assignment_decodes {A : Assignment} (hcell : cnfSat A cellClauses = true)
    {cage : Cage} (hcv : ∀ cell ∈ cage.cells, cell.isValid = true)
    {combo perm : List Int}
    (hc : combo ∈ generateSumCombinations cage.cells.length cage.targetSum)
    (hperm : perm.Perm combo)
    (hsat : ∀ pr ∈ cage.cells.zip perm, A (getVar pr.1.row pr.1.col pr.2) = true) :
    (cage.cells.map fun cell => decodeCell A cell.row.toNat cell.col.toNat) = perm := by
  obtain ⟨hlen, hsum2, hinc, hbnd⟩ := mem_generateSumCombinations.1 hc
  have hplen : perm.length = cage.cells.length := by
    rw [hperm.length_eq, hlen]
  apply List.ext_getElem
  · rw [List.length_map, hplen]
  · intro i h1 h2
    rw [List.length_map] at h1
    have hzlen : i < (cage.cells.zip perm).length := by
      rw [List.length_zip]
      omega
    have hpair : (cage.cells[i], perm[i]) ∈ cage.cells.zip perm := by
      have hz := List.getElem_zip (i := i) (h := hzlen)
      rw [← hz]
      exact List.getElem_mem hzlen
    have hA := hsat _ hpair
    have hcvi := hcv _ (List.getElem_mem h1)
    obtain ⟨⟨e1, e2⟩, b1, b2⟩ := cell_coord hcvi
    rw [List.getElem_map]
    have hpv : perm[i] ∈ combo := hperm.mem_iff.1 (List.getElem_mem h2)
    rcases hbnd _ hpv with ⟨hp1, hp9⟩
    apply decodeCell_eq (cellBlock_of_sat hcell b1 b2) (mem_valsList.2 ⟨hp1, hp9⟩)
    rw [e1, e2]
    exact hA

theorem zip_vars_mem {α : Type} {l : List α} {next : Int} {pa : α × Int}
    (h : pa ∈ l.zip ((List.range l.length).map fun (j : Nat) => next + (j : Int))) :
    ∃ i : Nat, ∃ hi : i < l.length, pa = (l[i], next + (i : Int)) := by
  rcases List.mem_iff_getElem.1 h with ⟨i, hil, hie⟩
  have hlen : i < l.length := by
    rw [List.length_zip] at hil
    omega
  have hilen : i < ((List.range l.length).map fun (j : Nat) => next + (j : Int)).length := by
    simpa using hlen
  refine ⟨i, hlen, ?_⟩
  rw [← hie, List.getElem_zip]
  simp

theorem mem_zip_vars {α : Type} {l : List α} {next : Int} {i : Nat} (hi : i < l.length) :
    (l[i], next + (i : Int))
      ∈ l.zip ((List.range l.length).map fun (j : Nat) => next + (j : Int)) := by
  have hizip : i < (l.zip ((List.range l.length).map fun (j : Nat) =>
      next + (j : Int))).length := by
    simp [List.length_zip]
    omega
  have hilen : i < ((List.range l.length).map fun (j : Nat) => next + (j : Int)).length := by
    simpa using hi
  have hz := List.getElem_zip (i := i) (h := hizip)
  have hv2 : ((List.range l.length).map fun (j : Nat) => next + (j : Int))[i]
      = next + (i : Int) := by
    simp
  rw [hv2] at hz
  rw [← hz]
  exact List.getElem_mem hizip

/-- Soundness of one cage's permutation sum clauses: the decoded cage values
are (as a list) one of the enumerated permutations, hence sum to the target. -/
theorem perm_cage_sound {A : Assignment} {cage : Cage} {next : Int}
    (hcell : cnfSat A cellClauses = true)
    (hs : cnfSat A (encodeCageSumPerm cage next).1 = true)
    (hcv : ∀ cell ∈ cage.cells, cell.isValid = true) :
    (cage.cells.map fun cell => decodeCell A cell.row.toNat cell.col.toNat).sum
      = cage.targetSum := by
  suffices h : ∃ combo ∈ generateSumCombinations cage.cells.length cage.targetSum,
      ∃ perm : List Int, perm.Perm combo ∧
      (cage.cells.map fun cell => decodeCell A cell.row.toNat cell.col.toNat) = perm by
    rcases h with ⟨combo, hc, perm, hperm, hdec⟩
    obtain ⟨-, hsum2, -, -⟩ := mem_generateSumCombinations.1 hc
    rw [hdec, hperm.sum_eq, hsum2]
  unfold encodeCageSumPerm at hs
  split at hs
  · exfalso
    simp [cnfSat, clauseSat] at hs
  · next cs heq =>
    split at hs
    · next a0 heq2 =>
      have ha0 : a0 ∈ (generateSumCombinations cage.cells.length cage.targetSum).flatMap
          (assignmentsOf cage.cells) := by
        rw [heq2]
        exact List.mem_singleton_self a0
      rcases mem_vas ha0 with ⟨combo, hc, perm, hperm, ha0eq⟩
      refine ⟨combo, hc, perm, hperm, ?_⟩
      apply assignment_decodes hcell hcv hc hperm
      intro pr hpr
      rw [← ha0eq] at hpr
      have hclmem : [(getVar pr.1.row pr.1.col pr.2, true)]
          ∈ a0.map fun q => [(getVar q.1.row q.1.col q.2, true)] :=
        List.mem_map.2 ⟨pr, hpr, rfl⟩
      have hcs := (cnfSat_iff.1 hs) _ hclmem
      rw [clauseSat_iff] at hcs
      rcases hcs with ⟨l, hl, hlsat⟩
      rw [List.mem_singleton.1 hl] at hlsat  -- hmm direction
      simpa [litSat] using hlsat
    · next hne =>
      simp only at hs
      rw [cnfSat_iff] at hs
      set vas := (generateSumCombinations cage.cells.length cage.targetSum).flatMap
        (assignmentsOf cage.cells) with hvas
      have hhead := hs _ (List.mem_cons_self _ _)
      rw [clauseSat_iff] at hhead
      rcases hhead with ⟨l, hl, hlsat⟩
      rcases List.mem_map.1 hl with ⟨w, hw, rfl⟩
      rcases List.mem_map.1 hw with ⟨i, hi, rfl⟩
      rw [List.mem_range] at hi
      have hAi : A (next + (i : Int)) = true := by simpa [litSat] using hlsat
      have hvmem : vas[i] ∈ vas := List.getElem_mem hi
      rcases mem_vas hvmem with ⟨combo, hc, perm, hperm, hveq⟩
      refine ⟨combo, hc, perm, hperm, ?_⟩
      apply assignment_decodes hcell hcv hc hperm
      intro pr hpr
      rw [← hveq] at hpr
      have hclmem : [((next + (i : Int) : Int), false),
          (getVar pr.1.row pr.1.col pr.2, true)]
          ∈ (vas.zip ((List.range vas.length).map fun (j : Nat) =>
              next + (j : Int))).flatMap fun pa =>
            pa.1.map fun q => [(pa.2, false), (getVar q.1.row q.1.col q.2, true)] := by
        rw [List.mem_flatMap]
        exact ⟨(vas[i], next + (i : Int)), mem_zip_vars hi,
          List.mem_map.2 ⟨pr, hpr, rfl⟩⟩
      have hcs := hs _ (List.mem_cons_of_mem _ hclmem)
      rw [clauseSat_iff] at hcs
      rcases hcs with ⟨l, hl, hlsat⟩
      simp only [List.mem_cons, List.not_mem_nil, or_false] at hl
      rcases hl with rfl | rfl
      · rw [litSat, hAi] at hlsat
        simp at hlsat
      · simpa [litSat] using hlsat

/-! ## Completeness of the permutation cage encoding -/

theorem zip_map_self_mem {α β : Type} {l : List α} {f : α → β} {pr : α × β}
    (h : pr ∈ l.zip (l.map f)) : pr.1 ∈ l ∧ pr.2 = f pr.1 := by
  rcases List.mem_iff_getElem.1 h with ⟨i, hil, hie⟩
  have hi : i < l.length := by
    rw [List.length_zip, List.length_map] at hil
    omega
  have himap : i < (l.map f).length := by
    rw [List.length_map]
    exact hi
  rw [List.getElem_zip] at hie
  rw [← hie]
  exact ⟨List.getElem_mem hi, by rw [List.getElem_map]⟩

theorem primCanon_cell_lit {A : Assignment} {g : Grid} (hAp : PrimCanon A g)
    {cell : Cell} (hv : cell.isValid = true) {val : Int} (h1 : 1 ≤ val) (h9 : val ≤ 9) :
    A (getVar cell.row cell.col val) = (g.get cell.row.toNat cell.col.toNat == val) := by
  obtain ⟨⟨e1, e2⟩, b1, b2⟩ := cell_coord hv
  rw [← e1, ← e2]
  exact primCanon_getVar hAp b1 b2 h1 h9

theorem canonCageAssign_mem {cage : Cage} {g : Grid}
    (hg : ∀ r c : Nat, r < 9 → c < 9 → 1 ≤ g.get r c ∧ g.get r c ≤ 9)
    (hcv : ∀ cell ∈ cage.cells, cell.isValid = true)
    (hnd : (cage.cells.map fun cell => g.get cell.row.toNat cell.col.toNat).Nodup)
    (hsum : (cage.cells.map fun cell => g.get cell.row.toNat cell.col.toNat).sum
      = cage.targetSum) :
    canonCageAssign cage g
      ∈ (generateSumCombinations cage.cells.length cage.targetSum).flatMap
        (assignmentsOf cage.cells) := by
  rw [List.mem_flatMap]
  exact ⟨cageSortedVals cage g, cageSortedVals_mem hg hcv hnd hsum,
    canon_assignment_mem (List.perm_insertionSort (· ≤ ·) _).symm⟩

theorem canonCageAssign_sat {A : Assignment} {g : Grid} {cage : Cage}
    (hAp : PrimCanon A g)
    (hg : ∀ r c : Nat, r < 9 → c < 9 → 1 ≤ g.get r c ∧ g.get r c ≤ 9)
    (hcv : ∀ cell ∈ cage.cells, cell.isValid = true) :
    ∀ pr ∈ canonCageAssign cage g, A (getVar pr.1.row pr.1.col pr.2) = true := by
  intro pr hpr
  obtain ⟨hm, he⟩ := zip_map_self_mem hpr
  obtain ⟨-, b1, b2⟩ := cell_coord (hcv _ hm)
  rcases hg _ _ b1 b2 with ⟨h1, h9⟩
  rw [he, primCanon_cell_lit hAp (hcv _ hm) h1 h9]
  simp

theorem extendCagesPerm_lt {cages : List Cage} {g : Grid} {next : Int} {A : Assignment}
    {v : Int} (hv : v < next) : extendCagesPerm cages g next A v = A v := by
  induction cages generalizing next A with
  | nil => rfl
  | cons cage rest ih =>
    rw [extendCagesPerm]
    split
    · split
      · exact ih hv
      · split
        · exact ih hv
        · rw [ih (by omega)]
          exact if_neg (by rw [Bool.and_eq_true]; simp only [decide_eq_true_eq]; omega)
    · exact ih hv

theorem extendCagesPerm_primCanon {cages : List Cage} {g : Grid} {next : Int}
    {A : Assignment} (h729 : 729 ≤ next) (hAp : PrimCanon A g) :
    PrimCanon (extendCagesPerm cages g next A) g := fun v h0 h7 =>
  (extendCagesPerm_lt (by omega)).trans (hAp v h0 h7)

theorem encodeCageSumPerm_empty {cage : Cage}
    (h : generateSumCombinations cage.cells.length cage.targetSum = []) (next : Int) :
    encodeCageSumPerm cage next = ([([] : Clause)], next) := by
  unfold encodeCageSumPerm
  rw [h]

theorem encodeCageSumPerm_single {cage : Cage} {a0 : List (Cell × Int)}
    (hne : generateSumCombinations cage.cells.length cage.targetSum ≠ [])
    (h1 : vasOf cage = [a0]) (next : Int) :
    encodeCageSumPerm cage next
      = (a0.map fun pr => [(getVar pr.1.row pr.1.col pr.2, true)], next) := by
  rw [vasOf] at h1
  unfold encodeCageSumPerm
  split
  · next heqnil => exact absurd heqnil hne
  · next cs heqcs =>
    split
    · next b0 heq2 =>
      rw [h1] at heq2
      have hb : a0 = b0 := by
        injection heq2
      rw [hb]
    · next hne2 =>
      exact absurd h1 (hne2 a0)

theorem encodeCageSumPerm_multi {cage : Cage}
    (hne : generateSumCombinations cage.cells.length cage.targetSum ≠ [])
    (h2 : (vasOf cage).length ≠ 1) (next : Int) :
    encodeCageSumPerm cage next
      = (((((List.range (vasOf cage).length).map fun (i : Nat) =>
            next + (i : Int)).map fun v => (v, true)) ::
          (((vasOf cage).zip ((List.range (vasOf cage).length).map fun (i : Nat) =>
            next + (i : Int))).flatMap fun pa =>
            pa.1.map fun pr => [(pa.2, false), (getVar pr.1.row pr.1.col pr.2, true)])),
         next + ((vasOf cage).length : Int)) := by
  unfold encodeCageSumPerm
  split
  · next heqnil => exact absurd heqnil hne
  · next cs heqcs =>
    split
    · next b0 heq2 =>
      exfalso
      apply h2
      rw [vasOf, heq2]
      rfl
    · next hne2 =>
      rfl

theorem encodeCageSumPerm_sat {A : Assignment} {g : Grid} {cage : Cage} {next : Int}
    (hAp : PrimCanon A g)
    (hg : ∀ r c : Nat, r < 9 → c < 9 → 1 ≤ g.get r c ∧ g.get r c ≤ 9)
    (hcv : ∀ cell ∈ cage.cells, cell.isValid = true)
    (hnd : (cage.cells.map fun cell => g.get cell.row.toNat cell.col.toNat).Nodup)
    (hsum : (cage.cells.map fun cell => g.get cell.row.toNat cell.col.toNat).sum
      = cage.targetSum)
    (haux : 2 ≤ (vasOf cage).length → ∀ i : Nat, i < (vasOf cage).length →
      A (next + (i : Int)) = ((vasOf cage)[i]? == some (canonCageAssign cage g))) :
    cnfSat A (encodeCageSumPerm cage next).1 = true := by
  have hmem := cageSortedVals_mem hg hcv hnd hsum
  have hagmem : canonCageAssign cage g ∈ vasOf cage := canonCageAssign_mem hg hcv hnd hsum
  have hagsat := canonCageAssign_sat hAp hg hcv
  have hne : generateSumCombinations cage.cells.length cage.targetSum ≠ [] :=
    fun h0 => by rw [h0] at hmem; cases hmem
  by_cases h1 : (vasOf cage).length = 1
  · rcases hv1 : vasOf cage with - | ⟨a0, vrest⟩
    · rw [hv1] at h1
      simp at h1
    · have hrest : vrest = [] := by
        rw [hv1] at h1
        simp only [List.length_cons] at h1
        exact List.eq_nil_of_length_eq_zero (by omega)
      rw [hrest] at hv1
      rw [encodeCageSumPerm_single hne hv1 next]
      have hag0 : a0 = canonCageAssign cage g := by
        rw [hv1] at hagmem
        exact (List.mem_singleton.1 hagmem).symm
      rw [cnfSat_iff]
      intro cl hcl
      rcases List.mem_map.1 hcl with ⟨pr, hpr, rfl⟩
      rw [clauseSat_iff]
      refine ⟨(getVar pr.1.row pr.1.col pr.2, true), List.mem_singleton_self _, ?_⟩
      have hprin : pr ∈ canonCageAssign cage g := by
        rw [← hag0]
        exact hpr
      simp [litSat, hagsat pr hprin]
  · rw [encodeCageSumPerm_multi hne h1 next]
    have hlen2 : 2 ≤ (vasOf cage).length := by
      rcases hv0 : vasOf cage with - | ⟨x, - | ⟨y, t⟩⟩
      · rw [hv0] at hagmem
        cases hagmem
      · rw [hv0] at h1
        simp at h1
      · simp only [List.length_cons]
        omega
    have hauxval : ∀ j : Nat, (hj : j < (vasOf cage).length) →
        A (next + (j : Int)) = ((vasOf cage)[j] == canonCageAssign cage g) := by
      intro j hj
      rw [haux hlen2 j hj, List.getElem?_eq_getElem hj]
      simp
    rcases List.mem_iff_getElem.1 hagmem with ⟨i0, hi0, hi0eq⟩
    simp only
    rw [cnfSat_iff]
    intro cl hcl
    rcases List.mem_cons.1 hcl with rfl | hcl2
    · rw [clauseSat_iff]
      refine ⟨(next + (i0 : Int), true), ?_, ?_⟩
      · exact List.mem_map.2 ⟨next + (i0 : Int),
          List.mem_map.2 ⟨i0, List.mem_range.2 hi0, rfl⟩, rfl⟩
      · rw [litSat]
        simp only
        rw [hauxval i0 hi0, hi0eq]
        simp
    · rcases List.mem_flatMap.1 hcl2 with ⟨pa, hpa, hclm⟩
      rcases zip_vars_mem hpa with ⟨j, hj, rfl⟩
      rcases List.mem_map.1 hclm with ⟨pr, hpr, rfl⟩
      rw [clauseSat_iff]
      by_cases hAj : A (next + (j : Int)) = true
      · have hvj : (vasOf cage)[j] = canonCageAssign cage g := by
          have h3 := hauxval j hj
          rw [hAj] at h3
          have h4 := h3.symm
          rw [beq_iff_eq] at h4
          exact h4
        refine ⟨(getVar pr.1.row pr.1.col pr.2, true), by simp, ?_⟩
        have hprin : pr ∈ canonCageAssign cage g := by
          rw [← hvj]
          exact hpr
        simp [litSat, hagsat pr hprin]
      · refine ⟨((next + (j : Int) : Int), false), by simp, ?_⟩
        rw [Bool.not_eq_true] at hAj
        simp [litSat, hAj]

theorem encodeCageConstraintsPerm_sat {g : Grid} {cages : List Cage} {next : Int}
    {A : Assignment} (h729 : 729 ≤ next) (hAp : PrimCanon A g)
    (hg : ∀ r c : Nat, r < 9 → c < 9 → 1 ≤ g.get r c ∧ g.get r c ≤ 9)
    (hcage : ∀ cage ∈ cages, cage.isValid = true →
      (∀ cell ∈ cage.cells, cell.isValid = true) ∧
      (cage.cells.map fun cell => g.get cell.row.toNat cell.col.toNat).Nodup ∧
      (cage.cells.map fun cell => g.get cell.row.toNat cell.col.toNat).sum
        = cage.targetSum) :
    cnfSat (extendCagesPerm cages g next A)
      (encodeCageConstraintsPerm cages next).1 = true := by
  induction cages generalizing next A with
  | nil => rfl
  | cons cage rest ih =>
    rw [encodeCageConstraintsPerm, extendCagesPerm]
    by_cases hv : cage.isValid
    · rw [if_pos hv, if_pos hv]
      obtain ⟨hcv, hnd, hsum⟩ := hcage cage (by simp) hv
      have hmem := cageSortedVals_mem hg hcv hnd hsum
      have hcombosne : generateSumCombinations cage.cells.length cage.targetSum ≠ [] :=
        fun h0 => by rw [h0] at hmem; cases hmem
      have hagmem := canonCageAssign_mem hg hcv hnd hsum
      rw [if_neg (fun hq => hcombosne (by simpa using hq))]
      show cnfSat _ ((encodeCageSumPerm cage next).1 ++ encodeCageUniqueness cage
        ++ (encodeCageConstraintsPerm rest (encodeCageSumPerm cage next).2).1) = true
      by_cases h1 : (vasOf cage).length = 1
      · rw [if_pos h1]
        have hApf : PrimCanon (extendCagesPerm rest g next A) g :=
          extendCagesPerm_primCanon h729 hAp
        have hnext : (encodeCageSumPerm cage next).2 = next := by
          rcases hv1 : vasOf cage with - | ⟨a0, vrest⟩
          · rw [hv1] at h1
            simp at h1
          · have hrest : vrest = [] := by
              rw [hv1] at h1
              simp only [List.length_cons] at h1
              exact List.eq_nil_of_length_eq_zero (by omega)
            rw [hrest] at hv1
            rw [encodeCageSumPerm_single hcombosne hv1 next]
        rw [hnext]
        rw [cnfSat_append, cnfSat_append, Bool.and_eq_true, Bool.and_eq_true]
        refine ⟨⟨?_, ?_⟩, ?_⟩
        · refine encodeCageSumPerm_sat hApf hg hcv hnd hsum ?_
          intro h2
          rw [h1] at h2
          omega
        · exact encodeCageUniqueness_sat hApf hcv hnd
        · exact ih h729 hAp fun c hc hcval => hcage c (List.mem_cons_of_mem _ hc) hcval
      · rw [if_neg h1]
        have hnext : (encodeCageSumPerm cage next).2
            = next + (((vasOf cage)).length : Int) := by
          rw [encodeCageSumPerm_multi hcombosne h1 next]
        rw [hnext]
        have hA2p : PrimCanon (fun v =>
            if next ≤ v && v < next + (((vasOf cage)).length : Int) then
              (vasOf cage)[(v - next).toNat]? == some (canonCageAssign cage g)
            else A v) g := by
          intro v h0 h7
          show (if (decide (next ≤ v) && decide (v < next + (((vasOf cage)).length : Int)))
              = true then
              (((vasOf cage)[(v - next).toNat]? == some (canonCageAssign cage g)) : Bool)
            else A v) = canonPrimary g v
          rw [if_neg (by rw [Bool.and_eq_true]; simp only [decide_eq_true_eq]; omega)]
          exact hAp v h0 h7
        have hApf : PrimCanon (extendCagesPerm rest g
            (next + (((vasOf cage)).length : Int)) (fun v =>
              if next ≤ v && v < next + (((vasOf cage)).length : Int) then
                (vasOf cage)[(v - next).toNat]? == some (canonCageAssign cage g)
              else A v)) g :=
          extendCagesPerm_primCanon (by omega) hA2p
        rw [cnfSat_append, cnfSat_append, Bool.and_eq_true, Bool.and_eq_true]
        refine ⟨⟨?_, ?_⟩, ?_⟩
        · refine encodeCageSumPerm_sat hApf hg hcv hnd hsum ?_
          intro hlen2 i hi
          have hlt : next + (i : Int) < next + (((vasOf cage)).length : Int) := by
            omega
          rw [extendCagesPerm_lt hlt]
          show (if (decide (next ≤ next + (i : Int)) && decide (next + (i : Int)
              < next + (((vasOf cage)).length : Int))) = true then
              (((vasOf cage)[((next + (i : Int)) - next).toNat]?
                == some (canonCageAssign cage g)) : Bool)
            else A (next + (i : Int))) = _
          rw [if_pos (by rw [Bool.and_eq_true]; constructor <;> simp only [decide_eq_true_eq] <;> omega)]
          have hidx : ((next + (i : Int)) - next).toNat = i := by omega
          rw [hidx]
        · exact encodeCageUniqueness_sat hApf hcv hnd
        · exact ih (by omega) hA2p
            fun c hc hcval => hcage c (List.mem_cons_of_mem _ hc) hcval
    · rw [if_neg hv, if_neg hv]
      exact ih h729 hAp fun c hc hcval => hcage c (List.mem_cons_of_mem _ hc) hcval

/-! ## Equisatisfiability of the two cage encodings -/

theorem comb_model_to_perm {p : SudokuPuzzle}
    (hcv : ∀ cage ∈ p.cages, ∀ cell ∈ cage.cells, cell.isValid = true)
    {A : Assignment} (hA : cnfSat A (encodePuzzle p).1 = true) :
    ∃ B : Assignment, cnfSat B (encodePuzzlePerm p).1 = true ∧
      (∀ v : Int, 0 ≤ v → v < 729 → B v = A v) := by
  obtain ⟨hcell, hrow, hcol, hbox, hgiven, hcagesA, hineqsA⟩ := encode_parts hA
  have hAp := model_primCanon hcell
  have hbasic := verifyBasic_of_sat hcell hrow hcol hbox
  obtain ⟨hg, hrows, hcols, hboxes⟩ := verifyBasic_explode hbasic
  have hgvn := verifyGivens_explode (verifyGivens_of_sat hcell hgiven)
  have hcage : ∀ cage ∈ p.cages, cage.isValid = true →
      (∀ cell ∈ cage.cells, cell.isValid = true) ∧
      (cage.cells.map fun cell => (decodeGrid A).get cell.row.toNat cell.col.toNat).Nodup ∧
      (cage.cells.map fun cell => (decodeGrid A).get cell.row.toNat cell.col.toNat).sum
        = cage.targetSum := by
    intro cage hmem hval
    have hne : p.cages ≠ [] := fun h0 => by rw [h0] at hmem; cases hmem
    rcases @cage_clauses_sub p.cages 729 cage hmem hval with ⟨n, hsub⟩
    have hscnf := cnfSat_of_sub (List.Subset.trans (List.subset_append_left _ _) hsub)
      (hcagesA hne)
    have hucnf := cnfSat_of_sub (List.Subset.trans (List.subset_append_right _ _) hsub)
      (hcagesA hne)
    obtain ⟨hnd, hsum⟩ := cage_sound hcell hscnf hucnf (hcv cage hmem)
    have hre : (cage.cells.map fun cell => (decodeGrid A).get cell.row.toNat cell.col.toNat)
        = cage.cells.map fun cell => decodeCell A cell.row.toNat cell.col.toNat := by
      refine List.map_congr_left fun cell hc => ?_
      obtain ⟨-, h3, h4⟩ := cell_coord (hcv cage hmem cell hc)
      exact decodeGrid_get h3 h4
    rw [hre]
    exact ⟨hcv cage hmem, hnd, hsum⟩
  have hiq : ∀ iq ∈ p.inequalities, iq.isValid = true →
      (match iq.type with
        | .GREATER_THAN => (decodeGrid A).get iq.cell2.row.toNat iq.cell2.col.toNat
            < (decodeGrid A).get iq.cell1.row.toNat iq.cell1.col.toNat
        | .LESS_THAN => (decodeGrid A).get iq.cell1.row.toNat iq.cell1.col.toNat
            < (decodeGrid A).get iq.cell2.row.toNat iq.cell2.col.toNat) := by
    intro iq hmem hval
    have hne : p.inequalities ≠ [] := fun h0 => by rw [h0] at hmem; cases hmem
    have hicnf := cnfSat_of_sub (ineq_clauses_sub hmem hval) (hineqsA hne)
    have hmain := ineq_sound hcell hicnf hval
    have hv1 : iq.cell1.isValid = true := by
      simp only [InequalityConstraint.isValid, Bool.and_eq_true] at hval
      exact hval.1.1
    have hv2 : iq.cell2.isValid = true := by
      simp only [InequalityConstraint.isValid, Bool.and_eq_true] at hval
      exact hval.1.2
    obtain ⟨-, h13, h14⟩ := cell_coord hv1
    obtain ⟨-, h23, h24⟩ := cell_coord hv2
    cases htype : iq.type with
    | GREATER_THAN =>
      rw [htype] at hmain
      rw [decodeGrid_get h23 h24, decodeGrid_get h13 h14]
      simpa using hmain
    | LESS_THAN =>
      rw [htype] at hmain
      rw [decodeGrid_get h13 h14, decodeGrid_get h23 h24]
      simpa using hmain
  refine ⟨extendCagesPerm p.cages (decodeGrid A) 729 A, ?_,
    fun v h0 h7 => extendCagesPerm_lt (by omega)⟩
  have hBp : PrimCanon (extendCagesPerm p.cages (decodeGrid A) 729 A) (decodeGrid A) :=
    extendCagesPerm_primCanon le_rfl hAp
  show cnfSat _ ((cellClauses ++ rowClauses ++ colClauses ++ boxClauses ++ givenClauses p)
      ++ (if p.hasKillerConstraints then encodeCageConstraintsPerm p.cages 729
        else ([], 729)).1
      ++ (if p.hasInequalityConstraints then encodeInequalityConstraints p.inequalities
        else [])) = true
  have h1 := cellClauses_sat hBp hg
  have h2 := rowClauses_sat hBp hg hrows
  have h3 := colClauses_sat hBp hg hcols
  have h4 := boxClauses_sat hBp hg hboxes
  have h5 := givenClauses_sat hBp hgvn
  have h6 : cnfSat (extendCagesPerm p.cages (decodeGrid A) 729 A)
      (if p.hasKillerConstraints then encodeCageConstraintsPerm p.cages 729
        else ([], 729)).1 = true := by
    by_cases hk : p.hasKillerConstraints
    · rw [if_pos hk]
      exact encodeCageConstraintsPerm_sat le_rfl hAp hg hcage
    · rw [if_neg hk]
      rfl
  have h7 : cnfSat (extendCagesPerm p.cages (decodeGrid A) 729 A)
      (if p.hasInequalityConstraints then encodeInequalityConstraints p.inequalities
        else []) = true := by
    by_cases hk : p.hasInequalityConstraints
    · rw [if_pos hk]
      exact encodeInequalityConstraints_sat hBp hiq
    · rw [if_neg hk]
      rfl
  simp only [cnfSat_append, h1, h2, h3, h4, h5, h6, h7, Bool.and_self]

theorem perm_model_to_comb {p : SudokuPuzzle}
    (hcv : ∀ cage ∈ p.cages, ∀ cell ∈ cage.cells, cell.isValid = true)
    {B : Assignment} (hB : cnfSat B (encodePuzzlePerm p).1 = true) :
    ∃ A : Assignment, cnfSat A (encodePuzzle p).1 = true ∧
      (∀ v : Int, 0 ≤ v → v < 729 → A v = B v) := by
  obtain ⟨hcell, hrow, hcol, hbox, hgiven, hcagesB, hineqsB⟩ := permEncode_parts hB
  have hBp := model_primCanon hcell
  have hbasic := verifyBasic_of_sat hcell hrow hcol hbox
  obtain ⟨hg, hrows, hcols, hboxes⟩ := verifyBasic_explode hbasic
  have hgvn := verifyGivens_explode (verifyGivens_of_sat hcell hgiven)
  have hcage : ∀ cage ∈ p.cages, cage.isValid = true →
      (∀ cell ∈ cage.cells, cell.isValid = true) ∧
      (cage.cells.map fun cell => (decodeGrid B).get cell.row.toNat cell.col.toNat).Nodup ∧
      (cage.cells.map fun cell => (decodeGrid B).get cell.row.toNat cell.col.toNat).sum
        = cage.targetSum := by
    intro cage hmem hval
    have hne : p.cages ≠ [] := fun h0 => by rw [h0] at hmem; cases hmem
    rcases @cage_clauses_sub_perm p.cages 729 cage hmem hval with ⟨n, hsub⟩
    have hscnf := cnfSat_of_sub (List.Subset.trans (List.subset_append_left _ _) hsub)
      (hcagesB hne)
    have hucnf := cnfSat_of_sub (List.Subset.trans (List.subset_append_right _ _) hsub)
      (hcagesB hne)
    have hsum := perm_cage_sound hcell hscnf (hcv cage hmem)
    have hnd : (cage.cells.map fun cell =>
        decodeCell B cell.row.toNat cell.col.toNat).Nodup :=
      List.pairwise_map.2 (cage_decode_pairwise hcell hucnf (hcv cage hmem))
    have hre : (cage.cells.map fun cell => (decodeGrid B).get cell.row.toNat cell.col.toNat)
        = cage.cells.map fun cell => decodeCell B cell.row.toNat cell.col.toNat := by
      refine List.map_congr_left fun cell hc => ?_
      obtain ⟨-, h3, h4⟩ := cell_coord (hcv cage hmem cell hc)
      exact decodeGrid_get h3 h4
    rw [hre]
    exact ⟨hcv cage hmem, hnd, hsum⟩
  have hiq : ∀ iq ∈ p.inequalities, iq.isValid = true →
      (match iq.type with
        | .GREATER_THAN => (decodeGrid B).get iq.cell2.row.toNat iq.cell2.col.toNat
            < (decodeGrid B).get iq.cell1.row.toNat iq.cell1.col.toNat
        | .LESS_THAN => (decodeGrid B).get iq.cell1.row.toNat iq.cell1.col.toNat
            < (decodeGrid B).get iq.cell2.row.toNat iq.cell2.col.toNat) := by
    intro iq hmem hval
    have hne : p.inequalities ≠ [] := fun h0 => by rw [h0] at hmem; cases hmem
    have hicnf := cnfSat_of_sub (ineq_clauses_sub hmem hval) (hineqsB hne)
    have hmain := ineq_sound hcell hicnf hval
    have hv1 : iq.cell1.isValid = true := by
      simp only [InequalityConstraint.isValid, Bool.and_eq_true] at hval
      exact hval.1.1
    have hv2 : iq.cell2.isValid = true := by
      simp only [InequalityConstraint.isValid, Bool.and_eq_true] at hval
      exact hval.1.2
    obtain ⟨-, h13, h14⟩ := cell_coord hv1
    obtain ⟨-, h23, h24⟩ := cell_coord hv2
    cases htype : iq.type with
    | GREATER_THAN =>
      rw [htype] at hmain
      rw [decodeGrid_get h23 h24, decodeGrid_get h13 h14]
      simpa using hmain
    | LESS_THAN =>
      rw [htype] at hmain
      rw [decodeGrid_get h13 h14, decodeGrid_get h23 h24]
      simpa using hmain
  refine ⟨extendCages p.cages (decodeGrid B) 729 B, ?_,
    fun v h0 h7 => extendCages_lt (by omega)⟩
  have hA2p : PrimCanon (extendCages p.cages (decodeGrid B) 729 B) (decodeGrid B) :=
    extendCages_primCanon le_rfl hBp
  show cnfSat _ ((cellClauses ++ rowClauses ++ colClauses ++ boxClauses ++ givenClauses p)
      ++ (if p.hasKillerConstraints then encodeCageConstraints p.cages 729
        else ([], 729)).1
      ++ (if p.hasInequalityConstraints then encodeInequalityConstraints p.inequalities
        else [])) = true
  have h1 := cellClauses_sat hA2p hg
  have h2 := rowClauses_sat hA2p hg hrows
  have h3 := colClauses_sat hA2p hg hcols
  have h4 := boxClauses_sat hA2p hg hboxes
  have h5 := givenClauses_sat hA2p hgvn
  have h6 : cnfSat (extendCages p.cages (decodeGrid B) 729 B)
      (if p.hasKillerConstraints then encodeCageConstraints p.cages 729
        else ([], 729)).1 = true := by
    by_cases hk : p.hasKillerConstraints
    · rw [if_pos hk]
      exact encodeCageConstraints_sat le_rfl hBp hg hcage
    · rw [if_neg hk]
      rfl
  have h7 : cnfSat (extendCages p.cages (decodeGrid B) 729 B)
      (if p.hasInequalityConstraints then encodeInequalityConstraints p.inequalities
        else []) = true := by
    by_cases hk : p.hasInequalityConstraints
    · rw [if_pos hk]
      exact encodeInequalityConstraints_sat hA2p hiq
    · rw [if_neg hk]
      rfl
  simp only [cnfSat_append, h1, h2, h3, h4, h5, h6, h7, Bool.and_self]

theorem solveWithPerm_first {sat : SatSolver} {p : SudokuPuzzle} {A : Assignment}
    {t : Nat} (h : sat (encodePuzzlePerm p).1 = (some A, t)) :
    solveWithPerm sat p = { grid := decodeGrid A, solved := true, solveTimeMs := t } := by
  rw [solveWithPerm, h]

theorem solveWithPerm_none {sat : SatSolver} {p : SudokuPuzzle} {t : Nat}
    (h : sat (encodePuzzlePerm p).1 = (none, t)) :
    solveWithPerm sat p =
      { solved := false, errorMessage := "No solution exists for the given puzzle.",
        solveTimeMs := t } := by
  rw [solveWithPerm, h]

/-- C7: for puzzles whose cage cells are in range, the combination encoding
(src/SudokuEncoder.cpp) and the permutation encoding (part_007) are
equivalent: their models correspond exactly on the 729 primary variables
(hence decode to the same grids), and under a sound and complete SAT oracle
the two versions of `solve` report the same solved status. -/
theorem cage_encodings_equivalent (p : SudokuPuzzle)
    (hcv : ∀ cage ∈ p.cages, ∀ cell ∈ cage.cells, cell.isValid = true)
    (sat : SatSolver) (hsound : SatSound sat) (hcomp : SatComplete sat) :
    (∀ A : Assignment, cnfSat A (encodePuzzle p).1 = true →
      ∃ B : Assignment, cnfSat B (encodePuzzlePerm p).1 = true ∧
        (∀ v : Int, 0 ≤ v → v < 729 → B v = A v) ∧ decodeGrid B = decodeGrid A) ∧
    (∀ B : Assignment, cnfSat B (encodePuzzlePerm p).1 = true →
      ∃ A : Assignment, cnfSat A (encodePuzzle p).1 = true ∧
        (∀ v : Int, 0 ≤ v → v < 729 → A v = B v) ∧ decodeGrid A = decodeGrid B) ∧
    (solveWith sat p false).solved = (solveWithPerm sat p).solved := by
  refine ⟨?_, ?_, ?_⟩
  · intro A hA
    rcases comb_model_to_perm hcv hA with ⟨B, hB, hagree⟩
    exact ⟨B, hB, hagree, decodeGrid_agree hagree⟩
  · intro B hB
    rcases perm_model_to_comb hcv hB with ⟨A, hA, hagree⟩
    exact ⟨A, hA, hagree, decodeGrid_agree hagree⟩
  · rcases hs1 : sat (encodePuzzle p).1 with ⟨o1, t1⟩
    rcases hs2 : sat (encodePuzzlePerm p).1 with ⟨o2, t2⟩
    cases o1 with
    | some A =>
      cases o2 with
      | some B =>
        rw [solveWith_first hs1 false, solveWithPerm_first hs2]
        rw [if_neg (by simp)]
      | none =>
        exfalso
        rcases comb_model_to_perm hcv (hsound _ _ _ hs1) with ⟨B, hB, -⟩
        rcases hcomp _ _ hB with ⟨B2, t3, hs3⟩
        rw [hs2] at hs3
        cases hs3
    | none =>
      cases o2 with
      | some B =>
        exfalso
        rcases perm_model_to_comb hcv (hsound _ _ _ hs2) with ⟨A, hA, -⟩
        rcases hcomp _ _ hA with ⟨A2, t3, hs3⟩
        rw [hs1] at hs3
        cases hs3
      | none =>
        rw [solveWith_none hs1 false, solveWithPerm_none hs2]

theorem cage_encodings_equivalent_witness :
    (∀ cage ∈ pRound.cages, ∀ cell ∈ cage.cells, cell.isValid = true) ∧
    ((∀ A : Assignment, cnfSat A (encodePuzzle pRound).1 = true →
      ∃ B : Assignment, cnfSat B (encodePuzzlePerm pRound).1 = true ∧
        (∀ v : Int, 0 ≤ v → v < 729 → B v = A v) ∧ decodeGrid B = decodeGrid A) ∧
    (∀ B : Assignment, cnfSat B (encodePuzzlePerm pRound).1 = true →
      ∃ A : Assignment, cnfSat A (encodePuzzle pRound).1 = true ∧
        (∀ v : Int, 0 ≤ v → v < 729 → A v = B v) ∧ decodeGrid A = decodeGrid B) ∧
    (solveWith bruteSat pRound false).solved = (solveWithPerm bruteSat pRound).solved) :=
  ⟨by decide, cage_encodings_equivalent pRound (by decide) bruteSat
    bruteSat_is_sound bruteSat_is_complete⟩

end Sudoku
